import Mathlib

/-!
Verification development for the token-based BPMN workflow engine of the
cli-agent-orchestrator repository.  The definitions below are a shallow
embedding of `models/bpmn.py`, `services/bpmn_converter.py` and
`services/bpmn_execution_engine.py`.  Python dictionaries are modelled as
insertion-ordered association lists with Python `dict` semantics
(assignment replaces a present key in place, otherwise appends; `update`
folds assignments; iteration is insertion order).  Python exceptions are
modelled as an `Option String` carried next to the partially mutated
state, mirroring the fact that side effects performed before a `raise`
persist.  The `uuid4`-generated token identifiers are modelled as natural
numbers drawn from a monotone counter (the only property the code relies
on is freshness).  The external collaborators (expression evaluator and
Terminal Service) are abstract parameters, exactly as the engine receives
them in its constructor.
-/

/-- Runtime values stored in token data bags / process variables
(Python `Any`, restricted to the shapes the engine manipulates). -/
inductive Val where
  | vStr (s : String)
  | vInt (n : Int)
  | vBool (b : Bool)
  | vNone
deriving DecidableEq, Repr

/-- Python truthiness for the value shapes above (used for
`if condition_result:`). -/
def Val.truthy : Val → Bool
  | .vStr s => s ≠ ""
  | .vInt n => n ≠ 0
  | .vBool b => b
  | .vNone => false

/-! Association lists with Python `dict` semantics. -/

/-- Lookup, Python `d.get(k)`. -/
def dictGet [DecidableEq κ] (m : List (κ × α)) (k : κ) : Option α :=
  (m.find? (fun p => p.1 = k)).map (fun p => p.2)

/-- Assignment, Python `d[k] = v`: replaces in place when the key is
present, appends otherwise. -/
def dictSet [DecidableEq κ] (m : List (κ × α)) (k : κ) (v : α) : List (κ × α) :=
  if m.any (fun p => p.1 = k) then
    m.map (fun p => if p.1 = k then (k, v) else p)
  else
    m ++ [(k, v)]

/-- Python `d1.update(d2)`: fold assignments of `d2` over `d1`
(later keys override, last write wins). -/
def dictUpdate [DecidableEq κ] (m1 m2 : List (κ × α)) : List (κ × α) :=
  m2.foldl (fun acc p => dictSet acc p.1 p.2) m1

/-- Python `d.values()` in iteration (insertion) order. -/
def dictValues (m : List (κ × α)) : List α :=
  m.map (fun p => p.2)

/-! Data model from `models/bpmn.py`. -/

/-- Enum `BPMNElementType`. -/
inductive BPMNElementType where
  | startEvent
  | endEvent
  | intermediateThrowEvent
  | intermediateCatchEvent
  | serviceTask
  | scriptTask
  | userTask
  | manualTask
  | exclusiveGateway
  | parallelGateway
  | inclusiveGateway
  | eventBasedGateway
  | sequenceFlow
deriving DecidableEq, Repr

/-- Enum `GatewayDirection`. -/
inductive GatewayDirection where
  | Diverging
  | Converging
  | Mixed
deriving DecidableEq, Repr

/-- Enum `TokenState`. -/
inductive TokenState where
  | ACTIVE
  | WAITING
  | COMPLETED
  | FAILED
deriving DecidableEq, Repr

/-- Fields specific to `ServiceTask`. -/
structure ServiceTaskData where
  agent_profile : String := ""
  provider : String := "q_cli"
  task_template : String := ""
  system_prompt : Option String := none
  timeout : Int := 600
  wait_for_completion : Bool := true
deriving DecidableEq, Repr

/-- Fields specific to `ScriptTask`. -/
structure ScriptTaskData where
  script_format : String := "javascript"
  script : String := ""
deriving DecidableEq, Repr

/-- Fields specific to `UserTask`. -/
structure UserTaskData where
  assignee : Option String := none
  candidate_users : List String := []
deriving DecidableEq, Repr

/-- Fields shared by the gateway subclasses (`BPMNGateway`). -/
structure GatewayData where
  direction : GatewayDirection := .Diverging
  default_flow : Option String := none
deriving DecidableEq, Repr

/-- The concrete Python class of an element.  The source uses subclassing
(`BPMNEvent`, `ServiceTask`, ..., checked with `isinstance`) next to the
separate `type` field; the two are kept independent here as well so that
the engine's `TypeError` paths are expressible. -/
inductive ElementVariant where
  | event
  | serviceTask (d : ServiceTaskData)
  | scriptTask (d : ScriptTaskData)
  | userTask (d : UserTaskData)
  | exclusiveGateway (g : GatewayData)
  | parallelGateway (g : GatewayData)
  | inclusiveGateway (g : GatewayData)
  | plain
deriving DecidableEq, Repr

/-- Class `BPMNElement` (with the concrete subclass recorded in
`variant`). -/
structure BPMNElement where
  id : String
  type : BPMNElementType
  name : Option String := none
  variant : ElementVariant := .plain
deriving DecidableEq, Repr

/-- Class `SequenceFlow`. -/
structure SequenceFlow where
  id : String
  source_ref : String
  target_ref : String
  name : Option String := none
  condition_expression : Option String := none
deriving DecidableEq, Repr

/-- Class `BPMNProcess`. -/
structure BPMNProcess where
  id : String
  name : String
  description : Option String := none
  elements : List (String × BPMNElement) := []
  sequence_flows : List (String × SequenceFlow) := []
  process_variables : List (String × Val) := []
deriving DecidableEq, Repr

/-- Method `BPMNProcess.get_element`. -/
def BPMNProcess.get_element (p : BPMNProcess) (element_id : String) : Option BPMNElement :=
  dictGet p.elements element_id

/-- Method `BPMNProcess.get_sequence_flow`. -/
def BPMNProcess.get_sequence_flow (p : BPMNProcess) (flow_id : String) : Option SequenceFlow :=
  dictGet p.sequence_flows flow_id

/-- Method `BPMNProcess.get_outgoing_flows`. -/
def BPMNProcess.get_outgoing_flows (p : BPMNProcess) (element_id : String) : List SequenceFlow :=
  (dictValues p.sequence_flows).filter (fun flow => flow.source_ref = element_id)

/-- Method `BPMNProcess.get_incoming_flows`. -/
def BPMNProcess.get_incoming_flows (p : BPMNProcess) (element_id : String) : List SequenceFlow :=
  (dictValues p.sequence_flows).filter (fun flow => flow.target_ref = element_id)

/-- Method `BPMNProcess.get_start_events` (`isinstance(elem, BPMNEvent)`
and `elem.type == START_EVENT`). -/
def BPMNProcess.get_start_events (p : BPMNProcess) : List BPMNElement :=
  (dictValues p.elements).filter
    (fun e => e.variant = .event ∧ e.type = .startEvent)

/-- Method `BPMNProcess.get_end_events`. -/
def BPMNProcess.get_end_events (p : BPMNProcess) : List BPMNElement :=
  (dictValues p.elements).filter
    (fun e => e.variant = .event ∧ e.type = .endEvent)

/-- Class `Token`.  Identifiers are the freshness-counter model of the
`uuid4` hex strings. -/
structure Token where
  id : Nat
  current_element_id : String
  state : TokenState := .ACTIVE
  data : List (String × Val) := []
  parent_token_id : Option Nat := none
  error : Option String := none
deriving DecidableEq, Repr

/-- Class `ProcessInstance` (`vars` is the `variables` field, renamed
because `variables` is reserved in Lean). -/
structure ProcessInstance where
  instance_id : String
  process_id : String
  session_name : String
  tokens : List (Nat × Token) := []
  element_states : List (String × String) := []
  terminal_mappings : List (String × String) := []
  vars : List (String × Val) := []
deriving DecidableEq, Repr

/-- Method `ProcessInstance.add_token`. -/
def ProcessInstance.add_token (i : ProcessInstance) (t : Token) : ProcessInstance :=
  { i with tokens := dictSet i.tokens t.id t }

/-- Method `ProcessInstance.get_active_tokens`. -/
def ProcessInstance.get_active_tokens (i : ProcessInstance) : List Token :=
  (dictValues i.tokens).filter (fun t => t.state = .ACTIVE)

/-- Method `ProcessInstance.get_tokens_at_element`. -/
def ProcessInstance.get_tokens_at_element (i : ProcessInstance) (element_id : String) : List Token :=
  (dictValues i.tokens).filter (fun t => t.current_element_id = element_id)

/-! Execution engine from `services/bpmn_execution_engine.py`. -/

/-- Worker handle returned by the Terminal Service. -/
structure Terminal where
  id : String
deriving DecidableEq, Repr

/-- Result of `terminal_service.get_terminal_info` (only the `status`
key is consulted by the engine). -/
structure TermInfo where
  status : Option String := none
deriving DecidableEq, Repr

/-- The two external collaborators the engine receives in its
constructor: the expression evaluator (`evaluate`, `render_template`)
and the Terminal Service (`create_terminal`, `get_terminal_info`,
`get_terminal_output`).  `get_terminal_info` additionally takes the
poll counter so that a status changing over time is expressible;
failures of the collaborators are `Except.error` (Python exceptions). -/
structure Env where
  evaluate : String → List (String × Val) → Except String Val
  render_template : String → List (String × Val) → Except String String
  create_terminal : String → String → String → Except String Terminal
  get_terminal_info : String → Nat → Option TermInfo
  get_terminal_output : String → String

/-- Engine-side mutable state: the `ProcessInstance` plus the freshness
counter modelling `uuid4` token-id generation. -/
structure EngineState where
  inst : ProcessInstance
  next_token_id : Nat
deriving DecidableEq, Repr

/-- In-place mutation of the token object with identifier `tid`
(Python mutates the shared `Token` object held in `instance.tokens`). -/
def upd_token (s : EngineState) (tid : Nat) (f : Token → Token) : EngineState :=
  { s with inst := { s.inst with
      tokens := s.inst.tokens.map (fun kv => if kv.1 = tid then (kv.1, f kv.2) else kv) } }

/-- Assignment `token.state = st`. -/
def set_token_state (s : EngineState) (tid : Nat) (st : TokenState) : EngineState :=
  upd_token s tid (fun t => { t with state := st })

/-- Assignment `self.instance.element_states[eid] = v`. -/
def set_element_state (s : EngineState) (eid v : String) : EngineState :=
  { s with inst := { s.inst with element_states := dictSet s.inst.element_states eid v } }

/-- Assignment `self.instance.terminal_mappings[eid] = tid`. -/
def set_terminal_mapping (s : EngineState) (eid tid : String) : EngineState :=
  { s with inst := { s.inst with terminal_mappings := dictSet s.inst.terminal_mappings eid tid } }

/-- Lookup of the live token object by identifier. -/
def find_token (s : EngineState) (tid : Nat) : Option Token :=
  dictGet s.inst.tokens tid

/-- Method `_move_token`: resolve the flow target and rewrite
`current_element_id`; `ValueError` if the target does not exist. -/
def move_token (p : BPMNProcess) (s : EngineState) (tid : Nat) (flow : SequenceFlow) :
    EngineState × Option String :=
  match p.get_element flow.target_ref with
  | none => (s, some ("Target element " ++ flow.target_ref ++ " not found"))
  | some target =>
      (upd_token s tid (fun t => { t with current_element_id := target.id }), none)

/-- Shared tail of several handlers: advance the token onto the first
outgoing flow of `eid`, or complete it when there is none. -/
def advance_or_complete (p : BPMNProcess) (s : EngineState) (tid : Nat) (eid : String) :
    EngineState × Option String :=
  match p.get_outgoing_flows eid with
  | [] => (set_token_state s tid .COMPLETED, none)
  | f :: _ => move_token p s tid f

/-- Method `_wait_for_terminal_completion`, with the accumulated
`elapsed` seconds (the sum of the 2-second sleeps performed so far) and
the poll counter made explicit; the second component of the result is
the final value of `elapsed`, i.e. the modelled wall-clock delay of the
wait. -/
def wait_loop (env : Env) (terminal_id : String) (timeout : Int) (elapsed : Int) (polls : Nat) :
    Except String String × Int :=
  if _h : elapsed < timeout then
    match env.get_terminal_info terminal_id polls with
    | none => (.error ("Terminal " ++ terminal_id ++ " not found"), elapsed)
    | some info =>
      if info.status = some "COMPLETED" then
        (.ok (env.get_terminal_output terminal_id), elapsed)
      else if info.status = some "ERROR" then
        (.error ("Terminal " ++ terminal_id ++ " encountered an error"), elapsed)
      else
        wait_loop env terminal_id timeout (elapsed + 2) (polls + 1)
  else
    (.error ("Terminal " ++ terminal_id ++ " did not complete within "
              ++ toString timeout ++ " seconds"), elapsed)
termination_by (timeout - elapsed).toNat
decreasing_by simp_wf; omega

/-- Method `_wait_for_terminal_completion` as called by the engine. -/
def wait_for_terminal_completion (env : Env) (terminal_id : String) (timeout : Int) :
    Except String String :=
  (wait_loop env terminal_id timeout 0 0).1

/-- Method `_execute_end_event`. -/
def execute_end_event (s : EngineState) (tid : Nat) (element : BPMNElement) :
    EngineState × Option String :=
  (set_element_state (set_token_state s tid .COMPLETED) element.id "completed", none)

/-- Method `_execute_service_task`. -/
def execute_service_task (env : Env) (p : BPMNProcess) (s : EngineState) (tok : Token)
    (element : BPMNElement) : EngineState × Option String :=
  match element.variant with
  | .serviceTask task =>
    let s1 := set_element_state s element.id "running"
    match env.render_template task.task_template (dictUpdate s1.inst.vars tok.data) with
    | .error e => (s1, some e)
    | .ok _rendered =>
      match env.create_terminal task.agent_profile task.provider s1.inst.session_name with
      | .error e => (s1, some e)
      | .ok terminal =>
        let s2 := set_terminal_mapping s1 element.id terminal.id
        if task.wait_for_completion then
          match wait_for_terminal_completion env terminal.id task.timeout with
          | .error e => (s2, some e)
          | .ok output =>
            let s3 := upd_token s2 tok.id
              (fun t => { t with data := dictSet t.data "output" (.vStr output) })
            let s4 := set_element_state s3 element.id "completed"
            advance_or_complete p s4 tok.id element.id
        else
          let s3 := upd_token s2 tok.id
            (fun t => { t with data := dictSet t.data "terminal_id" (.vStr terminal.id) })
          let s4 := set_element_state s3 element.id "spawned"
          advance_or_complete p s4 tok.id element.id
  | _ => (s, some ("Element " ++ element.id ++ " is not a ServiceTask"))

/-- Method `_execute_script_task`. -/
def execute_script_task (env : Env) (p : BPMNProcess) (s : EngineState) (tok : Token)
    (element : BPMNElement) : EngineState × Option String :=
  match element.variant with
  | .scriptTask task =>
    let s1 := set_element_state s element.id "running"
    match env.evaluate task.script (dictUpdate s1.inst.vars tok.data) with
    | .error e => (s1, some e)
    | .ok result =>
      let s2 := upd_token s1 tok.id
        (fun t => { t with data := dictSet t.data "output" result })
      let s3 := set_element_state s2 element.id "completed"
      advance_or_complete p s3 tok.id element.id
  | _ => (s, some ("Element " ++ element.id ++ " is not a ScriptTask"))

/-- Method `_execute_user_task`. -/
def execute_user_task (s : EngineState) (tok : Token) (element : BPMNElement) :
    EngineState × Option String :=
  match element.variant with
  | .userTask _ =>
    (set_element_state (set_token_state s tok.id .WAITING) element.id "waiting_for_user", none)
  | _ => (s, some ("Element " ++ element.id ++ " is not a UserTask"))

/-- Condition scan of `_execute_xor_split`: first outgoing flow whose
condition expression evaluates truthy, in declaration order.  The
source's `if flow.condition_expression:` is a Python truthiness test,
so a flow whose condition is missing or the empty string is skipped
without being evaluated. -/
def select_xor_flow (env : Env) (ctx : List (String × Val)) :
    List SequenceFlow → Except String (Option SequenceFlow)
  | [] => .ok none
  | flow :: rest =>
    match flow.condition_expression with
    | none => select_xor_flow env ctx rest
    | some c =>
      if c = "" then select_xor_flow env ctx rest
      else
        match env.evaluate c ctx with
        | .error e => .error e
        | .ok v =>
          if v.truthy then .ok (some flow) else select_xor_flow env ctx rest

/-- Method `_execute_xor_split`.  A falsy (`None` or empty)
`default_flow` is skipped, as by Python truthiness. -/
def execute_xor_split (env : Env) (p : BPMNProcess) (s : EngineState) (tok : Token)
    (gateway : BPMNElement) (g : GatewayData) : EngineState × Option String :=
  match p.get_outgoing_flows gateway.id with
  | [] => (set_token_state s tok.id .COMPLETED, none)
  | f0 :: rest =>
    match select_xor_flow env (dictUpdate s.inst.vars tok.data) (f0 :: rest) with
    | .error e => (s, some e)
    | .ok selected0 =>
      let selected1 := match selected0 with
        | some f => some f
        | none => match g.default_flow with
          | some df => if df = "" then none else p.get_sequence_flow df
          | none => none
      match selected1 with
      | some f => move_token p s tok.id f
      | none => move_token p s tok.id f0

/-- Child-spawning loop shared by `_execute_and_split` and
`_execute_or_split`: one new Active token per flow, positioned at the
gateway with a copy of the parent data and the parent id recorded, then
advanced onto its flow. -/
def spawn_child_tokens (p : BPMNProcess) (s : EngineState) (gateway_id : String) (parent : Token) :
    List SequenceFlow → EngineState × Option String
  | [] => (s, none)
  | flow :: rest =>
    let child : Token :=
      { id := s.next_token_id
        current_element_id := gateway_id
        state := .ACTIVE
        data := parent.data
        parent_token_id := some parent.id }
    let s1 : EngineState :=
      { inst := s.inst.add_token child
        next_token_id := s.next_token_id + 1 }
    match move_token p s1 child.id flow with
    | (s2, some e) => (s2, some e)
    | (s2, none) => spawn_child_tokens p s2 gateway_id parent rest

/-- Method `_execute_and_split`. -/
def execute_and_split (p : BPMNProcess) (s : EngineState) (tok : Token)
    (gateway : BPMNElement) : EngineState × Option String :=
  match p.get_outgoing_flows gateway.id with
  | [] => (set_token_state s tok.id .COMPLETED, none)
  | f0 :: rest =>
    let s1 := set_token_state s tok.id .COMPLETED
    spawn_child_tokens p s1 gateway.id tok (f0 :: rest)

/-- Condition scan of `_execute_or_split`: a flow is active when its
condition evaluates truthy or, its condition being Python-falsy
(missing or the empty string, the source's
`if flow.condition_expression:`), when its id equals the gateway
default flow (the source's `elif gateway.default_flow == flow.id:`). -/
def compute_active_flows (env : Env) (ctx : List (String × Val)) (default_flow : Option String) :
    List SequenceFlow → Except String (List SequenceFlow)
  | [] => .ok []
  | flow :: rest =>
    match flow.condition_expression with
    | some c =>
      if c = "" then
        if default_flow = some flow.id then
          match compute_active_flows env ctx default_flow rest with
          | .error e => .error e
          | .ok l => .ok (flow :: l)
        else
          compute_active_flows env ctx default_flow rest
      else
        match env.evaluate c ctx with
        | .error e => .error e
        | .ok v =>
          if v.truthy then
            match compute_active_flows env ctx default_flow rest with
            | .error e => .error e
            | .ok l => .ok (flow :: l)
          else
            compute_active_flows env ctx default_flow rest
    | none =>
      if default_flow = some flow.id then
        match compute_active_flows env ctx default_flow rest with
        | .error e => .error e
        | .ok l => .ok (flow :: l)
      else
        compute_active_flows env ctx default_flow rest

/-- Method `_execute_or_split`. -/
def execute_or_split (env : Env) (p : BPMNProcess) (s : EngineState) (tok : Token)
    (gateway : BPMNElement) (g : GatewayData) : EngineState × Option String :=
  match p.get_outgoing_flows gateway.id with
  | [] => (set_token_state s tok.id .COMPLETED, none)
  | f0 :: rest =>
    match compute_active_flows env (dictUpdate s.inst.vars tok.data) g.default_flow (f0 :: rest) with
    | .error e => (s, some e)
    | .ok active =>
      let chosen := if active.isEmpty then f0 :: rest else active
      let s1 := set_token_state s tok.id .COMPLETED
      spawn_child_tokens p s1 gateway.id tok chosen

/-- Loop body of `_execute_gateway_join`: accumulate the merged data
(`combined_data.update(t.data)`) and complete every token at the
gateway other than the current one. -/
def join_fold_step (tokId : Nat) (acc : List (String × Val) × EngineState) (t : Token) :
    List (String × Val) × EngineState :=
  (dictUpdate acc.1 t.data,
   if t.id ≠ tokId then set_token_state acc.2 t.id .COMPLETED else acc.2)

/-- Method `_execute_gateway_join` (single loop over the tokens at the
gateway merging their data last-write-wins and completing every one
other than the current token). -/
def execute_gateway_join (p : BPMNProcess) (s : EngineState) (tok : Token)
    (gateway : BPMNElement) : EngineState × Option String :=
  let incoming := p.get_incoming_flows gateway.id
  let tokens_at_gateway := s.inst.get_tokens_at_element gateway.id
  if tokens_at_gateway.length < incoming.length then
    (set_token_state s tok.id .WAITING, none)
  else
    let folded := tokens_at_gateway.foldl (join_fold_step tok.id) ([], s)
    let s1 := upd_token folded.2 tok.id (fun t => { t with data := folded.1 })
    let s2 := set_token_state s1 tok.id .ACTIVE
    advance_or_complete p s2 tok.id gateway.id

/-- Method `_execute_exclusive_gateway` (a `Mixed` direction is treated
as a split, with a logged warning). -/
def execute_exclusive_gateway (env : Env) (p : BPMNProcess) (s : EngineState) (tok : Token)
    (element : BPMNElement) : EngineState × Option String :=
  match element.variant with
  | .exclusiveGateway g =>
    if g.direction = .Converging then execute_gateway_join p s tok element
    else execute_xor_split env p s tok element g
  | _ => (s, some ("Element " ++ element.id ++ " is not an ExclusiveGateway"))

/-- Method `_execute_parallel_gateway`. -/
def execute_parallel_gateway (p : BPMNProcess) (s : EngineState) (tok : Token)
    (element : BPMNElement) : EngineState × Option String :=
  match element.variant with
  | .parallelGateway g =>
    if g.direction = .Converging then execute_gateway_join p s tok element
    else execute_and_split p s tok element
  | _ => (s, some ("Element " ++ element.id ++ " is not a ParallelGateway"))

/-- Method `_execute_inclusive_gateway`. -/
def execute_inclusive_gateway (env : Env) (p : BPMNProcess) (s : EngineState) (tok : Token)
    (element : BPMNElement) : EngineState × Option String :=
  match element.variant with
  | .inclusiveGateway g =>
    if g.direction = .Converging then execute_gateway_join p s tok element
    else execute_or_split env p s tok element g
  | _ => (s, some ("Element " ++ element.id ++ " is not an InclusiveGateway"))

/-- Body of the `try` block of `_execute_token`: dispatch on the
element's `type` field. -/
def dispatch_element (env : Env) (p : BPMNProcess) (s : EngineState) (tok : Token)
    (element : BPMNElement) : EngineState × Option String :=
  if element.type = .endEvent then
    match element.variant with
    | .event => execute_end_event s tok.id element
    | _ => (s, some ("Element " ++ element.id ++ " should be BPMNEvent but is not"))
  else if element.type = .serviceTask then execute_service_task env p s tok element
  else if element.type = .scriptTask then execute_script_task env p s tok element
  else if element.type = .userTask then execute_user_task s tok element
  else if element.type = .exclusiveGateway then execute_exclusive_gateway env p s tok element
  else if element.type = .parallelGateway then execute_parallel_gateway p s tok element
  else if element.type = .inclusiveGateway then execute_inclusive_gateway env p s tok element
  else advance_or_complete p s tok.id element.id

/-- Method `_execute_token`: resolve the element, run the dispatch, and
catch any raised error at per-token granularity (token to Failed with
the error recorded, element state to failed). -/
def execute_token (env : Env) (p : BPMNProcess) (s : EngineState) (tid : Nat) : EngineState :=
  match find_token s tid with
  | none => s
  | some tok =>
    match p.get_element tok.current_element_id with
    | none =>
      upd_token s tid (fun t =>
        { t with
          state := .FAILED
          error := some ("Element " ++ tok.current_element_id ++ " not found") })
    | some element =>
      match dispatch_element env p s tok element with
      | (s1, none) => s1
      | (s1, some e) =>
        set_element_state
          (upd_token s1 tid (fun t =>
            { t with
              state := .FAILED
              error := some e }))
          element.id "failed"

/-- One iteration of the main loop of `execute`: snapshot the currently
Active tokens, then step each one in order. -/
def run_pass (env : Env) (p : BPMNProcess) (s : EngineState) : EngineState :=
  ((s.inst.get_active_tokens).map (fun t => t.id)).foldl (execute_token env p) s

/-- The main loop of `execute` (`while get_active_tokens(): ...`),
with explicit fuel since the source loop need not terminate. -/
def run_loop (env : Env) (p : BPMNProcess) : Nat → EngineState → EngineState
  | 0, s => s
  | n + 1, s =>
    if s.inst.get_active_tokens = [] then s
    else run_loop env p n (run_pass env p s)

/-- Startup section of `execute`: locate the first start event, seed
the instance and the initial token, and advance it onto the start
event's first outgoing flow.  The two raises here (`ValueError` when
there is no start event, and a failing `_move_token`) occur outside the
per-token `try` and hence propagate out of `execute`. -/
def execute_start (p : BPMNProcess) (session_name : String) : Except String EngineState :=
  match p.get_start_events with
  | [] => .error ("Process " ++ p.id ++ " has no start events")
  | start_event :: _ =>
    let initial_token : Token :=
      { id := 0, current_element_id := start_event.id, state := .ACTIVE, data := [] }
    let inst : ProcessInstance :=
      { instance_id := "pi_0"
        process_id := p.id
        session_name := session_name
        vars := p.process_variables }
    let s : EngineState := { inst := inst.add_token initial_token, next_token_id := 1 }
    match p.get_outgoing_flows start_event.id with
    | [] => .ok s
    | f :: _ =>
      match move_token p s initial_token.id f with
      | (s1, none) => .ok s1
      | (_, some e) => .error e

/-- Method `execute`: startup followed by the main loop. -/
def engine_execute (env : Env) (p : BPMNProcess) (session_name : String) (fuel : Nat) :
    Except String EngineState :=
  (execute_start p session_name).map (run_loop env p fuel)

/-! Converter from `services/bpmn_converter.py`. -/

/-- Python falsiness of an optional string (`not x` for a missing,
`None` or empty value). -/
def strFalsy : Option String → Bool
  | none => true
  | some s => s = ""

/-- The nested `data.config` object of a workflow node; a `none` field
models an absent key, so `config.get(key, default)` is `getD`. -/
structure NodeConfig where
  agentProfile : Option String := none
  provider : Option String := none
  taskTemplate : Option String := none
  systemPrompt : Option String := none
  timeout : Option Int := none
  waitForCompletion : Option Bool := none
  scriptFormat : Option String := none
  script : Option String := none
  assignee : Option String := none
  candidateUsers : Option (List String) := none
  direction : Option String := none
  defaultFlow : Option String := none
deriving DecidableEq, Repr

/-- A ReactFlow node (`id`, `data.type`, `data.label`, `data.config`).
The label is read with `data.get("label", "")`, hence a plain string. -/
structure WorkflowNode where
  id : Option String := none
  type : Option String := none
  label : String := ""
  config : NodeConfig := {}
deriving DecidableEq, Repr

/-- A ReactFlow edge (`id`, `source`, `target`, `data.label`,
`data.conditionExpression`). -/
structure WorkflowEdge where
  id : Option String := none
  source : Option String := none
  target : Option String := none
  label : Option String := none
  conditionExpression : Option String := none
deriving DecidableEq, Repr

/-- The top-level workflow dictionary (`var_bindings` is the
`variables` key, renamed because `variables` is reserved in Lean). -/
structure WorkflowData where
  id : Option String := none
  name : Option String := none
  description : Option String := none
  var_bindings : List (String × Val) := []
  nodes : List WorkflowNode := []
  edges : List WorkflowEdge := []
deriving DecidableEq, Repr

/-- Function `_normalize_element_type` (the explicit mapping table;
unknown types yield `none`, raised as an error by the caller). -/
def normalize_element_type : String → Option BPMNElementType
  | "startEvent" => some .startEvent
  | "endEvent" => some .endEvent
  | "serviceTask" => some .serviceTask
  | "scriptTask" => some .scriptTask
  | "userTask" => some .userTask
  | "exclusiveGateway" => some .exclusiveGateway
  | "parallelGateway" => some .parallelGateway
  | "inclusiveGateway" => some .inclusiveGateway
  | "agent_spawn" => some .serviceTask
  | "handoff" => some .serviceTask
  | "assign" => some .serviceTask
  | "send_message" => some .serviceTask
  | "xor_split" => some .exclusiveGateway
  | "xor_join" => some .exclusiveGateway
  | "and_split" => some .parallelGateway
  | "and_join" => some .parallelGateway
  | "or_split" => some .inclusiveGateway
  | "or_join" => some .inclusiveGateway
  | _ => none

/-- Constructor `GatewayDirection(value)`: raises on a string that is
not a member of the enum. -/
def parse_gateway_direction (s : String) : Except String GatewayDirection :=
  if s = "Diverging" then .ok .Diverging
  else if s = "Converging" then .ok .Converging
  else if s = "Mixed" then .ok .Mixed
  else .error (s ++ " is not a valid GatewayDirection")

/-- Function `_convert_node_to_element`. -/
def convert_node_to_element (node : WorkflowNode) : Except String BPMNElement :=
  if strFalsy node.id then
    .error "Node must have an id field"
  else
    let node_id := node.id.getD ""
    let cfg := node.config
    if strFalsy node.type then
      .error ("Node " ++ node_id ++ " must have a type field in data")
    else
      match normalize_element_type (node.type.getD "") with
      | none =>
        .error ("Unknown node type " ++ node.type.getD ""
                 ++ ". Must be a valid BPMN element type.")
      | some element_type =>
        match element_type with
        | .startEvent =>
          .ok { id := node_id, type := element_type, name := some node.label, variant := .event }
        | .endEvent =>
          .ok { id := node_id, type := element_type, name := some node.label, variant := .event }
        | .serviceTask =>
          .ok { id := node_id
                type := element_type
                name := some node.label
                variant := .serviceTask
                  { agent_profile := cfg.agentProfile.getD ""
                    provider := cfg.provider.getD "q_cli"
                    task_template := cfg.taskTemplate.getD ""
                    system_prompt := cfg.systemPrompt
                    timeout := cfg.timeout.getD 600
                    wait_for_completion := cfg.waitForCompletion.getD true } }
        | .scriptTask =>
          .ok { id := node_id
                type := element_type
                name := some node.label
                variant := .scriptTask
                  { script_format := cfg.scriptFormat.getD "javascript"
                    script := cfg.script.getD "" } }
        | .userTask =>
          .ok { id := node_id
                type := element_type
                name := some node.label
                variant := .userTask
                  { assignee := cfg.assignee
                    candidate_users := cfg.candidateUsers.getD [] } }
        | .exclusiveGateway =>
          match parse_gateway_direction (cfg.direction.getD "Diverging") with
          | .error e => .error e
          | .ok dir =>
            .ok { id := node_id
                  type := element_type
                  name := some node.label
                  variant := .exclusiveGateway
                    { direction := dir
                      default_flow := cfg.defaultFlow } }
        | .parallelGateway =>
          match parse_gateway_direction (cfg.direction.getD "Diverging") with
          | .error e => .error e
          | .ok dir =>
            .ok { id := node_id
                  type := element_type
                  name := some node.label
                  variant := .parallelGateway { direction := dir } }
        | .inclusiveGateway =>
          match parse_gateway_direction (cfg.direction.getD "Diverging") with
          | .error e => .error e
          | .ok dir =>
            .ok { id := node_id
                  type := element_type
                  name := some node.label
                  variant := .inclusiveGateway { direction := dir } }
        | _ => .error "Unsupported element type"

/-- Function `_convert_edge_to_flow`. -/
def convert_edge_to_flow (edge : WorkflowEdge) : Except String SequenceFlow :=
  if strFalsy edge.id ∨ strFalsy edge.source ∨ strFalsy edge.target then
    .error "Edge must have id, source, and target fields"
  else
    .ok { id := edge.id.getD ""
          source_ref := edge.source.getD ""
          target_ref := edge.target.getD ""
          name := edge.label
          condition_expression := edge.conditionExpression }

/-- Python f-string rendering of an optional id (`None` when absent). -/
def opt_str : Option String → String
  | none => "None"
  | some s => s

/-- The node-conversion loop of `convert_workflow_to_bpmn` (elements
are inserted keyed by their id; the first failure aborts with a
`WorkflowConversionError` wrapping the cause). -/
def convert_nodes : List WorkflowNode → List (String × BPMNElement) →
    Except String (List (String × BPMNElement))
  | [], acc => .ok acc
  | node :: rest, acc =>
    match convert_node_to_element node with
    | .error e => .error ("Failed to convert node " ++ opt_str node.id ++ ": " ++ e)
    | .ok el => convert_nodes rest (dictSet acc el.id el)

/-- The edge-conversion loop of `convert_workflow_to_bpmn`. -/
def convert_edges : List WorkflowEdge → List (String × SequenceFlow) →
    Except String (List (String × SequenceFlow))
  | [], acc => .ok acc
  | edge :: rest, acc =>
    match convert_edge_to_flow edge with
    | .error e => .error ("Failed to convert edge " ++ opt_str edge.id ++ ": " ++ e)
    | .ok flow => convert_edges rest (dictSet acc flow.id flow)

/-- The referential-integrity scan of `_validate_process`. -/
def check_flow_refs (p : BPMNProcess) : List SequenceFlow → Except String Unit
  | [] => .ok ()
  | flow :: rest =>
    if (p.get_element flow.source_ref).isNone then
      .error ("Sequence flow " ++ flow.id ++ " references non-existent source: "
               ++ flow.source_ref)
    else if (p.get_element flow.target_ref).isNone then
      .error ("Sequence flow " ++ flow.id ++ " references non-existent target: "
               ++ flow.target_ref)
    else
      check_flow_refs p rest

/-- Function `_validate_process`. -/
def validate_process (p : BPMNProcess) : Except String Unit :=
  if p.get_start_events.isEmpty then
    .error "Process must have at least one START_EVENT"
  else if p.get_end_events.isEmpty then
    .error "Process must have at least one END_EVENT"
  else
    check_flow_refs p (dictValues p.sequence_flows)

/-- Function `convert_workflow_to_bpmn`. -/
def convert_workflow_to_bpmn (w : WorkflowData) : Except String BPMNProcess :=
  if strFalsy w.id then
    .error "Workflow must have an id field"
  else if w.nodes.isEmpty then
    .error "Workflow must have at least one node"
  else
    match convert_nodes w.nodes [] with
    | .error e => .error e
    | .ok elems =>
      match convert_edges w.edges [] with
      | .error e => .error e
      | .ok flows =>
        let process : BPMNProcess :=
          { id := w.id.getD ""
            name := w.name.getD "Unnamed Workflow"
            description := w.description
            elements := elems
            sequence_flows := flows
            process_variables := w.var_bindings }
        match validate_process process with
        | .error e => .error e
        | .ok _ => .ok process

/-! Invariants of engine-produced states, and auxiliary notions used in
the theorems below. -/

/-- Every token entry is keyed by its token's id (true of all states
the engine builds, since `add_token` keys by `token.id` and no step
rewrites an id). -/
def TokensKeyed (s : EngineState) : Prop :=
  ∀ kv ∈ s.inst.tokens, (kv.2 : Token).id = kv.1

/-- Every existing token id is below the freshness counter. -/
def TokensFresh (s : EngineState) : Prop :=
  ∀ kv ∈ s.inst.tokens, (kv : Nat × Token).1 < s.next_token_id

/-- Token keys are distinct. -/
def TokensNodup (s : EngineState) : Prop :=
  (s.inst.tokens.map Prod.fst).Nodup

/-- Every element entry is keyed by its element's id (guaranteed by the
converter, which stores `process.elements[element.id] = element`). -/
def ElementsKeyed (p : BPMNProcess) : Prop :=
  ∀ kv ∈ p.elements, (kv.2 : BPMNElement).id = kv.1

/-- Every sequence flow's target resolves to an element (the
referential integrity `_validate_process` enforces). -/
def FlowTargetsResolve (p : BPMNProcess) : Prop :=
  ∀ f ∈ dictValues p.sequence_flows, (p.get_element f.target_ref).isSome = true

/-- Gateway payload of a variant, when it is a gateway. -/
def ElementVariant.gateway_data : ElementVariant → Option GatewayData
  | .exclusiveGateway g => some g
  | .parallelGateway g => some g
  | .inclusiveGateway g => some g
  | _ => none

/-- Every gateway's `default_flow`, when it resolves to a flow at all,
names one of that gateway's own outgoing flows. -/
def DefaultFlowsOwn (p : BPMNProcess) : Prop :=
  ∀ kv ∈ p.elements, ∀ g, (kv.2 : BPMNElement).variant.gateway_data = some g →
    ∀ df f, g.default_flow = some df → p.get_sequence_flow df = some f →
      f.source_ref = (kv.2 : BPMNElement).id

/-- A depth function witnessing acyclicity of the flow graph: it
strictly decreases along every sequence flow. -/
def DepthDecreasing (p : BPMNProcess) (depth : String → Nat) : Prop :=
  ∀ f ∈ dictValues p.sequence_flows, depth f.target_ref < depth f.source_ref

/-- Graph reachability along sequence flows. -/
inductive Reaches (p : BPMNProcess) : String → String → Prop where
  | refl (a : String) : Reaches p a a
  | step {a b c : String} (f : SequenceFlow) (hf : f ∈ dictValues p.sequence_flows)
      (hs : f.source_ref = a) (ht : f.target_ref = b) (h : Reaches p b c) :
      Reaches p a c

/-- Some end event is reachable from some start event. -/
def EndReachable (p : BPMNProcess) : Prop :=
  ∃ se ∈ p.get_start_events, ∃ ee ∈ p.get_end_events, Reaches p se.id ee.id

/-- Data merge a join performs over the tokens at the gateway, in their
iteration order (last write wins). -/
def merged_join_data (ts : List Token) : List (String × Val) :=
  ts.foldl (fun acc t => dictUpdate acc t.data) []

/-- Ids of the currently Active tokens, the snapshot `run_pass` steps. -/
def active_token_ids (s : EngineState) : List Nat :=
  (s.inst.get_active_tokens).map (fun t => t.id)

/-- The per-pass transition relation on token states that the engine
actually realizes (see the theorem on claim C3): tokens Active at the
start of a pass are unconstrained; Waiting and Failed tokens either
keep their state or are completed by a join firing at their gateway;
tokens Completed at the start of a pass stay Completed.  In particular
Waiting never returns to Active. -/
def pass_state_rel : TokenState → TokenState → Prop
  | .ACTIVE, _ => True
  | .WAITING, b => b = .WAITING ∨ b = .COMPLETED
  | .COMPLETED, b => b = .COMPLETED
  | .FAILED, b => b = .FAILED ∨ b = .COMPLETED

/-- Description of the entries the child-spawning loop appends: one
child per flow, with consecutive fresh ids starting at `n`, positioned
at the flow's target, Active, carrying the parent's data and id. -/
def spawned_children (n : Nat) (parent : Token) : List SequenceFlow → List (Nat × Token)
  | [] => []
  | f :: rest =>
    (n, { id := n, current_element_id := f.target_ref, state := .ACTIVE
          data := parent.data, parent_token_id := some parent.id })
      :: spawned_children (n + 1) parent rest

/-- A flow the XOR scan passes over: its condition expression is
Python-falsy — missing or empty — (never a candidate), or its
condition evaluates to a falsy value. -/
def xor_skipped (env : Env) (ctx : List (String × Val)) (g : SequenceFlow) : Prop :=
  g.condition_expression = none ∨ g.condition_expression = some "" ∨
    ∃ c v, g.condition_expression = some c ∧ env.evaluate c ctx = .ok v
      ∧ v.truthy = false

/-- The activity test of the OR split: condition truthy when present
and non-empty, otherwise (condition Python-falsy) id equal to the
gateway default flow. -/
def or_active (env : Env) (ctx : List (String × Val)) (dfl : Option String)
    (f : SequenceFlow) : Bool :=
  match f.condition_expression with
  | some c =>
    if c = "" then dfl = some f.id
    else
      match env.evaluate c ctx with
      | .ok v => v.truthy
      | .error _ => false
  | none => dfl = some f.id

/-- An environment whose evaluator returns `True` exactly for the
expression text `"T"`. -/
def fixEnvBool : Env :=
  { evaluate := fun c _ => .ok (.vBool (c = "T"))
    render_template := fun _ _ => .ok ""
    create_terminal := fun _ _ _ => .ok { id := "t" }
    get_terminal_info := fun _ _ => none
    get_terminal_output := fun _ => "" }

/-- A Diverging exclusive gateway with flows conditioned
`[false, true, false]` and no default flow. -/
def fixXorProcess : BPMNProcess :=
  { id := "px", name := "px"
    elements :=
      [ ("g", { id := "g", type := .exclusiveGateway
                variant := .exclusiveGateway { direction := .Diverging } })
      , ("t1", { id := "t1", type := .manualTask })
      , ("t2", { id := "t2", type := .manualTask })
      , ("t3", { id := "t3", type := .manualTask }) ]
    sequence_flows :=
      [ ("f1", { id := "f1", source_ref := "g", target_ref := "t1"
                 condition_expression := some "F" })
      , ("f2", { id := "f2", source_ref := "g", target_ref := "t2"
                 condition_expression := some "T" })
      , ("f3", { id := "f3", source_ref := "g", target_ref := "t3"
                 condition_expression := some "F" }) ] }

/-- One Active token positioned at the exclusive gateway. -/
def fixXorState : EngineState :=
  { inst := { instance_id := "i", process_id := "px", session_name := "n"
              tokens := [(0, { id := 0, current_element_id := "g" })] }
    next_token_id := 1 }

/-- A Diverging inclusive gateway with two flows conditioned
`[true, true]`. -/
def fixOrProcess : BPMNProcess :=
  { id := "po", name := "po"
    elements :=
      [ ("g", { id := "g", type := .inclusiveGateway
                variant := .inclusiveGateway { direction := .Diverging } })
      , ("a", { id := "a", type := .manualTask })
      , ("b", { id := "b", type := .manualTask }) ]
    sequence_flows :=
      [ ("f1", { id := "f1", source_ref := "g", target_ref := "a"
                 condition_expression := some "T" })
      , ("f2", { id := "f2", source_ref := "g", target_ref := "b"
                 condition_expression := some "T" }) ] }

/-- One Active token positioned at the inclusive gateway. -/
def fixOrState : EngineState :=
  { inst := { instance_id := "i", process_id := "po", session_name := "n"
              tokens := [(0, { id := 0, current_element_id := "g" })] }
    next_token_id := 1 }

/-- An environment whose Terminal Service reports a worker forever
`RUNNING` (never COMPLETED, never ERROR). -/
def fixEnvRunning : Env :=
  { evaluate := fun _ _ => .ok .vNone
    render_template := fun _ _ => .ok ""
    create_terminal := fun _ _ _ => .ok { id := "t" }
    get_terminal_info := fun _ _ => some { status := some "RUNNING" }
    get_terminal_output := fun _ => "" }

/-- A single ServiceTask element with timeout 4 and
`wait_for_completion` left true. -/
def fixSvcProcess : BPMNProcess :=
  { id := "ps", name := "ps"
    elements := [("st", { id := "st", type := .serviceTask
                          variant := .serviceTask { timeout := 4 } })] }

/-- One Active token positioned at the ServiceTask. -/
def fixSvcState : EngineState :=
  { inst := { instance_id := "i", process_id := "ps", session_name := "n"
              tokens := [(0, { id := 0, current_element_id := "st" })] }
    next_token_id := 1 }

/-- A workflow graph with a start node but no end node. -/
def fixNoEnd : WorkflowData :=
  { id := some "w", nodes := [{ id := some "s", type := some "startEvent" }] }

/-- A workflow graph whose edge `e1` references the nonexistent node
`ghost`. -/
def fixDangling : WorkflowData :=
  { id := some "w"
    nodes := [ { id := some "s", type := some "startEvent" }
             , { id := some "e", type := some "endEvent" } ]
    edges := [ { id := some "e1", source := some "s", target := some "ghost" } ] }

/-- A well-formed start-to-end workflow graph. -/
def fixGood : WorkflowData :=
  { id := some "w"
    nodes := [ { id := some "s", type := some "startEvent" }
             , { id := some "e", type := some "endEvent" } ]
    edges := [ { id := some "e1", source := some "s", target := some "e" } ] }

/-- The process `fixGood` converts to. -/
def fixGoodProcess : BPMNProcess :=
  { id := "w", name := "Unnamed Workflow"
    elements :=
      [ ("s", { id := "s", type := .startEvent, name := some "", variant := .event })
      , ("e", { id := "e", type := .endEvent, name := some "", variant := .event }) ]
    sequence_flows :=
      [ ("e1", { id := "e1", source_ref := "s", target_ref := "e" }) ] }

/-- Facts every engine step preserves: the freshness counter is
monotone, the three token-map invariants are maintained, and no
existing token entry is dropped. -/
def step_preserves (s s2 : EngineState) : Prop :=
  s.next_token_id ≤ s2.next_token_id
  ∧ (TokensFresh s → TokensFresh s2)
  ∧ (TokensKeyed s → TokensKeyed s2)
  ∧ (TokensNodup s → TokensNodup s2)
  ∧ (TokensFresh s → ∀ u, u ∈ s.inst.tokens.map Prod.fst
      → u ∈ s2.inst.tokens.map Prod.fst)

/-- A state of `fixJoinProcess` with a Waiting token parked at the
join next to the Active token about to be stepped. -/
def fixJoinStateC3 : EngineState :=
  { inst := { instance_id := "i", process_id := "p", session_name := "n"
              tokens :=
                [ (0, { id := 0, current_element_id := "g", state := .WAITING })
                , (1, { id := 1, current_element_id := "g", state := .ACTIVE }) ] }
    next_token_id := 2 }

/-! Concrete fixtures used by witnesses and counterexamples. -/

/-- An environment whose collaborators are inert (no condition is
consulted on the paths that use it). -/
def fixEnv : Env :=
  { evaluate := fun _ _ => .ok .vNone
    render_template := fun _ _ => .ok ""
    create_terminal := fun _ _ _ => .ok { id := "t" }
    get_terminal_info := fun _ _ => none
    get_terminal_output := fun _ => "" }

/-- A converging parallel gateway `g` with two incoming flows
(`a -> g`, `b -> g`) and one outgoing flow (`g -> e`). -/
def fixJoinProcess : BPMNProcess :=
  { id := "p", name := "p"
    elements :=
      [ ("g", { id := "g", type := .parallelGateway
                variant := .parallelGateway { direction := .Converging } })
      , ("a", { id := "a", type := .manualTask })
      , ("b", { id := "b", type := .manualTask })
      , ("e", { id := "e", type := .endEvent, variant := .event }) ]
    sequence_flows :=
      [ ("f1", { id := "f1", source_ref := "a", target_ref := "g" })
      , ("f2", { id := "f2", source_ref := "b", target_ref := "g" })
      , ("f3", { id := "f3", source_ref := "g", target_ref := "e" }) ] }

/-- A state of `fixJoinProcess` with a terminal (Completed) token
resting at the gateway next to the Active token about to be stepped. -/
def fixJoinStateC10 : EngineState :=
  { inst := { instance_id := "i", process_id := "p", session_name := "n"
              tokens :=
                [ (0, { id := 0, current_element_id := "g", state := .COMPLETED
                        data := [("k", .vInt 7)] })
                , (1, { id := 1, current_element_id := "g", state := .ACTIVE }) ] }
    next_token_id := 2 }

/-- Weight of one token entry in the termination measure: a token
counts `C ^ depth position` while it is ACTIVE, or while its id is
still scheduled in the remainder `R` of the current pass snapshot (a
token another token's firing join completed mid-pass is stepped anyway
and can re-activate, so its weight must be kept until its own step). -/
def token_weight (C : Nat) (depth : String → Nat) (R : List Nat) (kv : Nat × Token) : Nat :=
  if kv.2.state = .ACTIVE ∨ kv.1 ∈ R then C ^ depth kv.2.current_element_id else 0

/-- The termination measure: the total weight of the token table. -/
def phi (C : Nat) (depth : String → Nat) (R : List Nat) (s : EngineState) : Nat :=
  (s.inst.tokens.map (token_weight C depth R)).sum

/-- What one handler step does to the measure.  On a normal return the
measure plus the stepped token's weight drops below the measure plus
the bound (the stepped token's weight is spent); on a raise the measure
is untouched and the stepped token still exists with its state and
position unchanged (so the catching wrapper's FAILED overwrite then
spends the weight). -/
def phi_ok_err (C : Nat) (depth : String → Nat) (R : List Nat) (s : EngineState)
    (tid : Nat) (t0 : Token) (dbound : Nat) (res : EngineState × Option String) : Prop :=
  (∀ s1, res = (s1, none) →
    phi C depth R s1 + token_weight C depth R (tid, t0) < phi C depth R s + dbound)
  ∧ (∀ s1 e, res = (s1, some e) →
    phi C depth R s1 = phi C depth R s
      ∧ ∃ t1, find_token s1 tid = some t1 ∧ t1.state = t0.state
          ∧ t1.current_element_id = t0.current_element_id)

/-- An environment whose collaborators all raise, driving a task step
into the per-token error handler. -/
def fixEnvErr : Env :=
  { evaluate := fun _ _ => .error "boom"
    render_template := fun _ _ => .error "boom"
    create_terminal := fun _ _ _ => .error "boom"
    get_terminal_info := fun _ _ => none
    get_terminal_output := fun _ => "" }

/-- A process holding one StartEvent `s0`, one ScriptTask `sc` and no
flows. -/
def fixFailProcess : BPMNProcess :=
  { id := "pf", name := "pf"
    elements := [("s0", { id := "s0", type := .startEvent, variant := .event }),
                 ("sc", { id := "sc", type := .scriptTask
                          variant := .scriptTask { script := "x" } })] }

/-- Token 0 Active at the ScriptTask; token 1 Active elsewhere. -/
def fixFailState : EngineState :=
  { inst := { instance_id := "i", process_id := "pf", session_name := "n"
              tokens := [(0, { id := 0, current_element_id := "sc" }),
                         (1, { id := 1, current_element_id := "m" })] }
    next_token_id := 2 }

/-- An environment evaluating every condition to True. -/
def fixCycEnv : Env :=
  { evaluate := fun _ _ => .ok (.vBool true)
    render_template := fun _ _ => .ok ""
    create_terminal := fun _ _ _ => .ok { id := "t" }
    get_terminal_info := fun _ _ => none
    get_terminal_output := fun _ => "" }

/-- A cyclic process: `s0 -> m -> g`, and an exclusive gateway `g`
whose first outgoing flow (condition `t`) loops back to `m` while its
second one reaches the end event `e` — so an end event is reachable,
yet under `fixCycEnv` the loop flow is always taken. -/
def fixCycProcess : BPMNProcess :=
  { id := "pc", name := "pc"
    elements := [("s0", { id := "s0", type := .startEvent, variant := .event }),
                 ("m", { id := "m", type := .manualTask }),
                 ("g", { id := "g", type := .exclusiveGateway
                         variant := .exclusiveGateway {} }),
                 ("e", { id := "e", type := .endEvent, variant := .event })]
    sequence_flows :=
      [("f0", { id := "f0", source_ref := "s0", target_ref := "m" }),
       ("f1", { id := "f1", source_ref := "m", target_ref := "g" }),
       ("f2", { id := "f2", source_ref := "g", target_ref := "m"
                condition_expression := some "t" }),
       ("f3", { id := "f3", source_ref := "g", target_ref := "e" })] }

/-- The state `execute` reaches right after its startup section on
`fixCycProcess`: the initial token moved onto `f0`, hence at `m`. -/
def fixCycS0 : EngineState :=
  { inst := { instance_id := "pi_0", process_id := "pc", session_name := "n"
              tokens := [(0, { id := 0, current_element_id := "m" })] }
    next_token_id := 1 }

/-- The same run one pass later: the token advanced onto `f1` to `g`. -/
def fixCycS1 : EngineState :=
  { inst := { instance_id := "pi_0", process_id := "pc", session_name := "n"
              tokens := [(0, { id := 0, current_element_id := "g" })] }
    next_token_id := 1 }

/-! Basic association-list lemmas. -/

theorem dictGet_nil [DecidableEq κ] (u : κ) : dictGet ([] : List (κ × α)) u = none := rfl

theorem dictGet_cons [DecidableEq κ] (a : κ) (b : α) (m : List (κ × α)) (u : κ) :
    dictGet ((a, b) :: m) u = if a = u then some b else dictGet m u := by
  by_cases h : a = u <;> simp [dictGet, List.find?_cons, h]

theorem dictGet_map_upd [DecidableEq κ] (m : List (κ × α)) (k u : κ) (f : α → α) :
    dictGet (m.map (fun p => if p.1 = k then (k, f p.2) else p)) u
      = if u = k then (dictGet m u).map f else dictGet m u := by
  induction m with
  | nil => simp [dictGet]
  | cons hd tl ih =>
    obtain ⟨a, b⟩ := hd
    by_cases hak : a = k
    · subst hak
      by_cases hau : a = u
      · subst hau
        simp [dictGet_cons]
      · have hua : ¬u = a := fun h => hau h.symm
        simp [dictGet_cons, hau, hua, ih]
    · by_cases hau : a = u
      · subst hau
        have huk : ¬a = k := hak
        simp [dictGet_cons, hak, huk]
      · simp [dictGet_cons, hak, hau, ih]

theorem dictGet_isSome_of_mem [DecidableEq κ] {m : List (κ × α)} {x : κ × α}
    (hx : x ∈ m) : (dictGet m x.1).isSome = true := by
  rw [dictGet]
  rcases hfind : m.find? (fun p => p.1 = x.1) with _ | y
  · rw [List.find?_eq_none] at hfind
    exact absurd (by simp) (hfind x hx)
  · simp [hfind]

theorem dictGet_dictSet [DecidableEq κ] (m : List (κ × α)) (k u : κ) (v : α) :
    dictGet (dictSet m k v) u = if u = k then some v else dictGet m u := by
  unfold dictSet
  by_cases hmem : m.any (fun p => p.1 = k)
  · rw [if_pos hmem]
    have hrepl : (m.map (fun p => if p.1 = k then (k, v) else p))
        = m.map (fun p => if p.1 = k then (k, (fun _ => v) p.2) else p) := rfl
    rw [hrepl, dictGet_map_upd m k u (fun _ => v)]
    by_cases hu : u = k
    · subst hu
      obtain ⟨x, hxm, hx1⟩ : ∃ x ∈ m, x.1 = u := by simpa using hmem
      have hs : (dictGet m u).isSome = true := by
        have := dictGet_isSome_of_mem hxm
        rwa [hx1] at this
      rcases ho : dictGet m u with _ | w
      · rw [ho] at hs; simp at hs
      · simp [ho]
    · simp [hu]
  · rw [if_neg hmem]
    rw [dictGet, List.find?_append]
    by_cases hu : u = k
    · subst hu
      have hfind : m.find? (fun p => p.1 = u) = none := by
        rw [List.find?_eq_none]
        intro x hx
        simp only [List.any_eq_true, decide_eq_true_eq] at hmem
        push_neg at hmem
        simpa using hmem x hx
      simp [hfind, List.find?_cons, dictGet]
    · rcases hfm : m.find? (fun p => p.1 = u) with _ | y
      · have hne : ¬(k = u) := fun h => hu h.symm
        simp [dictGet, hfm, List.find?_cons, hne, hu]
      · simp [dictGet, hfm, hu]

theorem dictGet_map_upd_keyed [DecidableEq κ] (m : List (κ × α)) (k u : κ) (f : α → α) :
    dictGet (m.map (fun p => if p.1 = k then (p.1, f p.2) else p)) u
      = if u = k then (dictGet m u).map f else dictGet m u := by
  have hfun : (fun (p : κ × α) => if p.1 = k then (p.1, f p.2) else p)
      = fun p => if p.1 = k then (k, f p.2) else p := by
    funext p; by_cases h : p.1 = k <;> simp [h]
  rw [hfun, dictGet_map_upd]

theorem dictGet_of_mem_nodup [DecidableEq κ] {m : List (κ × α)}
    (hN : (m.map Prod.fst).Nodup) {k : κ} {v : α} (h : (k, v) ∈ m) :
    dictGet m k = some v := by
  induction m with
  | nil => simp at h
  | cons hd tl ih =>
    obtain ⟨a, b⟩ := hd
    rcases List.mem_cons.mp h with heq | htl
    · obtain ⟨h1, h2⟩ := Prod.mk.injEq .. ▸ heq
      subst h1; subst h2
      simp [dictGet_cons]
    · have hka : ¬(a = k) := by
        intro hak
        subst hak
        have : a ∈ tl.map Prod.fst := List.mem_map.mpr ⟨(a, v), htl, rfl⟩
        exact (List.nodup_cons.mp hN).1 this
      rw [dictGet_cons, if_neg hka]
      exact ih (List.nodup_cons.mp hN).2 htl

theorem mem_entries_of_find [DecidableEq κ] {m : List (κ × α)} {k : κ} {v : α}
    (h : dictGet m k = some v) : (k, v) ∈ m := by
  rw [dictGet] at h
  rcases hfind : m.find? (fun p => p.1 = k) with _ | y
  · rw [hfind] at h; simp at h
  · rw [hfind] at h
    simp only [Option.map_some'] at h
    have hy : y ∈ m := List.mem_of_find?_eq_some hfind
    have hk : y.1 = k := by simpa using List.find?_some hfind
    have : y = (k, v) := by
      rcases y with ⟨y1, y2⟩
      simp only at h hk
      simp [hk, Option.some.inj h]
    rwa [this] at hy

/-! Lemmas about the primitive state operations of the engine. -/

theorem find_token_upd_token (s : EngineState) (tid u : Nat) (f : Token → Token) :
    find_token (upd_token s tid f) u
      = if u = tid then (find_token s u).map f else find_token s u := by
  unfold find_token upd_token
  exact dictGet_map_upd_keyed s.inst.tokens tid u f

theorem find_token_set_token_state (s : EngineState) (tid u : Nat) (st : TokenState) :
    find_token (set_token_state s tid st) u
      = if u = tid then (find_token s u).map (fun t => { t with state := st })
        else find_token s u :=
  find_token_upd_token s tid u _

theorem upd_token_next (s : EngineState) (tid : Nat) (f : Token → Token) :
    (upd_token s tid f).next_token_id = s.next_token_id := rfl

theorem upd_token_element_states (s : EngineState) (tid : Nat) (f : Token → Token) :
    (upd_token s tid f).inst.element_states = s.inst.element_states := rfl

theorem set_element_state_tokens (s : EngineState) (e v : String) :
    (set_element_state s e v).inst.tokens = s.inst.tokens := rfl

theorem set_element_state_next (s : EngineState) (e v : String) :
    (set_element_state s e v).next_token_id = s.next_token_id := rfl

theorem set_terminal_mapping_tokens (s : EngineState) (e t : String) :
    (set_terminal_mapping s e t).inst.tokens = s.inst.tokens := rfl

theorem set_terminal_mapping_next (s : EngineState) (e t : String) :
    (set_terminal_mapping s e t).next_token_id = s.next_token_id := rfl

theorem find_token_set_element_state (s : EngineState) (e v : String) (u : Nat) :
    find_token (set_element_state s e v) u = find_token s u := rfl

theorem find_token_set_terminal_mapping (s : EngineState) (e t : String) (u : Nat) :
    find_token (set_terminal_mapping s e t) u = find_token s u := rfl

theorem mem_values_iff {m : List (Nat × Token)} {t : Token} :
    t ∈ dictValues m ↔ ∃ k, (k, t) ∈ m := by
  unfold dictValues
  constructor
  · intro h
    obtain ⟨kv, hkv, hsnd⟩ := List.mem_map.mp h
    exact ⟨kv.1, by rwa [show (kv.1, t) = kv from by rw [← hsnd]]⟩
  · rintro ⟨k, hk⟩
    exact List.mem_map.mpr ⟨(k, t), hk, rfl⟩

theorem find_token_of_mem_values {s : EngineState} (hK : TokensKeyed s) (hN : TokensNodup s)
    {t : Token} (ht : t ∈ dictValues s.inst.tokens) : find_token s t.id = some t := by
  obtain ⟨k, hk⟩ := mem_values_iff.mp ht
  have hkid : t.id = k := hK (k, t) hk
  unfold find_token
  rw [hkid]
  exact dictGet_of_mem_nodup hN hk

theorem values_of_find {s : EngineState} {u : Nat} {t : Token}
    (h : find_token s u = some t) : t ∈ dictValues s.inst.tokens := by
  exact mem_values_iff.mpr ⟨u, mem_entries_of_find h⟩

theorem id_of_find {s : EngineState} (hK : TokensKeyed s) {u : Nat} {t : Token}
    (h : find_token s u = some t) : t.id = u :=
  hK (u, t) (mem_entries_of_find h)

/-! Characterization of the join fold. -/

theorem mark_completed_idem (o : Option Token) :
    (o.map (fun t => { t with state := TokenState.COMPLETED })).map
        (fun t => { t with state := TokenState.COMPLETED })
      = o.map (fun t => { t with state := TokenState.COMPLETED }) := by
  rcases o <;> simp

theorem join_fold_fst (tokId : Nat) (L : List Token) (acc : List (String × Val))
    (s : EngineState) :
    (L.foldl (join_fold_step tokId) (acc, s)).1
      = L.foldl (fun a t => dictUpdate a t.data) acc := by
  induction L generalizing acc s with
  | nil => rfl
  | cons t L ih =>
    simp only [List.foldl_cons, join_fold_step]
    by_cases h : t.id = tokId <;> simp [h, ih]

theorem join_fold_next (tokId : Nat) (L : List Token) (acc : List (String × Val))
    (s : EngineState) :
    (L.foldl (join_fold_step tokId) (acc, s)).2.next_token_id = s.next_token_id := by
  induction L generalizing acc s with
  | nil => rfl
  | cons t L ih =>
    simp only [List.foldl_cons, join_fold_step]
    by_cases h : t.id = tokId <;> simp [h, ih, set_token_state, upd_token]

theorem join_fold_element_states (tokId : Nat) (L : List Token) (acc : List (String × Val))
    (s : EngineState) :
    (L.foldl (join_fold_step tokId) (acc, s)).2.inst.element_states
      = s.inst.element_states := by
  induction L generalizing acc s with
  | nil => rfl
  | cons t L ih =>
    simp only [List.foldl_cons, join_fold_step]
    by_cases h : t.id = tokId <;> simp [h, ih, set_token_state, upd_token]

theorem join_fold_find_stepped (tokId : Nat) (L : List Token) (acc : List (String × Val))
    (s : EngineState) :
    find_token (L.foldl (join_fold_step tokId) (acc, s)).2 tokId = find_token s tokId := by
  induction L generalizing acc s with
  | nil => rfl
  | cons t L ih =>
    simp only [List.foldl_cons, join_fold_step]
    by_cases h : t.id = tokId
    · simp [h, ih]
    · simp only [ne_eq, h, not_false_iff, if_pos, if_true]
      rw [ih, find_token_set_token_state, if_neg (fun hh => h hh.symm)]

theorem join_fold_find_other (tokId : Nat) (L : List Token) (acc : List (String × Val))
    (s : EngineState) (u : Nat) (h : ∀ t ∈ L, t.id ≠ u) :
    find_token (L.foldl (join_fold_step tokId) (acc, s)).2 u = find_token s u := by
  induction L generalizing acc s with
  | nil => rfl
  | cons t L ih =>
    simp only [List.foldl_cons, join_fold_step]
    have ht : t.id ≠ u := h t (List.mem_cons_self t L)
    have hrest : ∀ t2 ∈ L, t2.id ≠ u := fun t2 h2 => h t2 (List.mem_cons_of_mem t h2)
    by_cases hg : t.id = tokId
    · simp only [ne_eq, hg, not_true_eq_false, if_neg, ite_false]
      exact ih _ _ hrest
    · simp only [ne_eq, hg, not_false_iff, if_true]
      rw [ih _ _ hrest, find_token_set_token_state, if_neg (fun hh => ht hh.symm)]

theorem join_fold_find_marked (tokId : Nat) (L : List Token) (acc : List (String × Val))
    (s : EngineState) (u : Nat) (hu : u ≠ tokId) (hL : ∃ t ∈ L, t.id = u) :
    find_token (L.foldl (join_fold_step tokId) (acc, s)).2 u
      = (find_token s u).map (fun t => { t with state := .COMPLETED }) := by
  induction L generalizing acc s with
  | nil => simp at hL
  | cons t L ih =>
    simp only [List.foldl_cons, join_fold_step]
    by_cases htu : t.id = u
    · have hg : ¬(t.id = tokId) := fun hh => hu (htu ▸ hh)
      simp only [ne_eq, hg, not_false_iff, if_true]
      by_cases hrest : ∃ t2 ∈ L, t2.id = u
      · rw [ih _ _ hrest, find_token_set_token_state, htu, if_pos rfl,
          mark_completed_idem]
      · push_neg at hrest
        rw [join_fold_find_other _ _ _ _ _ hrest, find_token_set_token_state, htu,
          if_pos rfl]
    · have hrest : ∃ t2 ∈ L, t2.id = u := by
        obtain ⟨t2, ht2, ht2u⟩ := hL
        rcases List.mem_cons.mp ht2 with heq | hmem
        · exact absurd (heq ▸ ht2u) htu
        · exact ⟨t2, hmem, ht2u⟩
      by_cases hg : t.id = tokId
      · simp only [ne_eq, hg, not_true_eq_false, if_neg, ite_false]
        exact ih _ _ hrest
      · simp only [ne_eq, hg, not_false_iff, if_true]
        rw [ih _ _ hrest, find_token_set_token_state, if_neg (fun hh => htu hh.symm)]

theorem mem_tokens_at_element {i : ProcessInstance} {t : Token} {eid : String} :
    t ∈ i.get_tokens_at_element eid ↔ t ∈ dictValues i.tokens ∧ t.current_element_id = eid := by
  simp [ProcessInstance.get_tokens_at_element, List.mem_filter]

/-- Claim C1: join protocol at a Converging gateway.  With `required`
the number of incoming flows and `arrived` the number of tokens
positioned at the gateway, an under-full join only sets the stepped
token Waiting (nothing else changes: the result is exactly
`set_token_state s tok.id WAITING`); a full join merges the data of
every token at the gateway last-write-wins in token-iteration order,
completes every other token at the gateway, leaves tokens elsewhere
untouched, and re-activates the stepped token on the target of the
first outgoing flow with the merged data. -/
theorem C1_join_protocol
    (p : BPMNProcess) (s : EngineState) (tok : Token) (gateway : BPMNElement)
    (hK : TokensKeyed s) (hN : TokensNodup s)
    (hTok : find_token s tok.id = some tok) :
    ((s.inst.get_tokens_at_element gateway.id).length < (p.get_incoming_flows gateway.id).length →
      execute_gateway_join p s tok gateway = (set_token_state s tok.id .WAITING, none))
    ∧
    ((p.get_incoming_flows gateway.id).length ≤ (s.inst.get_tokens_at_element gateway.id).length →
      ∀ f rest tgt, p.get_outgoing_flows gateway.id = f :: rest →
        p.get_element f.target_ref = some tgt →
        ∃ s2, execute_gateway_join p s tok gateway = (s2, none)
          ∧ find_token s2 tok.id = some { tok with
              current_element_id := tgt.id
              state := .ACTIVE
              data := merged_join_data (s.inst.get_tokens_at_element gateway.id) }
          ∧ (∀ u t0, u ≠ tok.id → find_token s u = some t0 →
              t0.current_element_id = gateway.id →
              find_token s2 u = some { t0 with state := .COMPLETED })
          ∧ (∀ u t0, u ≠ tok.id → find_token s u = some t0 →
              t0.current_element_id ≠ gateway.id →
              find_token s2 u = some t0)) := by
  constructor
  · intro hlt
    unfold execute_gateway_join
    rw [if_pos hlt]
  · intro hge f rest tgt hout htgt
    unfold execute_gateway_join
    rw [if_neg (not_lt.mpr hge)]
    simp only [advance_or_complete, hout, move_token, htgt]
    refine ⟨_, rfl, ?_, ?_, ?_⟩
    · rw [find_token_upd_token, if_pos rfl, find_token_set_token_state, if_pos rfl,
        find_token_upd_token, if_pos rfl, join_fold_find_stepped, hTok]
      simp [join_fold_fst, merged_join_data]
    · intro u t0 hu hfu hat
      have ht0mem : t0 ∈ s.inst.get_tokens_at_element gateway.id :=
        mem_tokens_at_element.mpr ⟨values_of_find hfu, hat⟩
      have ht0id : t0.id = u := id_of_find hK hfu
      rw [find_token_upd_token, if_neg hu, find_token_set_token_state, if_neg hu,
        find_token_upd_token, if_neg hu,
        join_fold_find_marked tok.id _ _ _ u hu ⟨t0, ht0mem, ht0id⟩, hfu]
      rfl
    · intro u t0 hu hfu hnot
      have hother : ∀ t ∈ s.inst.get_tokens_at_element gateway.id, t.id ≠ u := by
        intro t htg hturf
        obtain ⟨htv, htpos⟩ := mem_tokens_at_element.mp htg
        have := find_token_of_mem_values hK hN htv
        rw [hturf, hfu] at this
        obtain rfl := Option.some.inj this
        exact hnot htpos
      rw [find_token_upd_token, if_neg hu, find_token_set_token_state, if_neg hu,
        find_token_upd_token, if_neg hu, join_fold_find_other _ _ _ _ _ hother, hfu]

/-- Witness for the C1 theorem: a converging gateway with two incoming
flows, one resting token and the stepped token positioned at it.  The
under-full branch fires with a single token, the full branch fires with
two, merging the resting token's data. -/
theorem C1_join_protocol_witness :
    (let p : BPMNProcess :=
      { id := "p", name := "p"
        elements :=
          [ ("g", { id := "g", type := .parallelGateway
                    variant := .parallelGateway { direction := .Converging } })
          , ("a", { id := "a", type := .manualTask })
          , ("b", { id := "b", type := .manualTask })
          , ("e", { id := "e", type := .endEvent, variant := .event }) ]
        sequence_flows :=
          [ ("f1", { id := "f1", source_ref := "a", target_ref := "g" })
          , ("f2", { id := "f2", source_ref := "b", target_ref := "g" })
          , ("f3", { id := "f3", source_ref := "g", target_ref := "e" }) ] }
    let t0 : Token := { id := 0, current_element_id := "g", state := .WAITING
                        data := [("k", .vInt 7)] }
    let t1 : Token := { id := 1, current_element_id := "g", state := .ACTIVE }
    let s : EngineState :=
      { inst := { instance_id := "i", process_id := "p", session_name := "n"
                  tokens := [(0, t0), (1, t1)] }
        next_token_id := 2 }
    let gw : BPMNElement := { id := "g", type := .parallelGateway
                              variant := .parallelGateway { direction := .Converging } }
    ∃ s2, execute_gateway_join p s t1 gw = (s2, none)
      ∧ find_token s2 1 = some { t1 with
          current_element_id := "e"
          state := .ACTIVE
          data := merged_join_data (s.inst.get_tokens_at_element "g") }
      ∧ find_token s2 0 = some { t0 with state := .COMPLETED }) := by
  have h := C1_join_protocol
    ({ id := "p", name := "p"
       elements :=
         [ ("g", { id := "g", type := .parallelGateway
                   variant := .parallelGateway { direction := .Converging } })
         , ("a", { id := "a", type := .manualTask })
         , ("b", { id := "b", type := .manualTask })
         , ("e", { id := "e", type := .endEvent, variant := .event }) ]
       sequence_flows :=
         [ ("f1", { id := "f1", source_ref := "a", target_ref := "g" })
         , ("f2", { id := "f2", source_ref := "b", target_ref := "g" })
         , ("f3", { id := "f3", source_ref := "g", target_ref := "e" }) ] })
    ({ inst := { instance_id := "i", process_id := "p", session_name := "n"
                 tokens := [(0, { id := 0, current_element_id := "g", state := .WAITING
                                  data := [("k", .vInt 7)] })
                           , (1, { id := 1, current_element_id := "g", state := .ACTIVE })] }
       next_token_id := 2 })
    ({ id := 1, current_element_id := "g", state := .ACTIVE })
    ({ id := "g", type := .parallelGateway
       variant := .parallelGateway { direction := .Converging } })
    (by unfold TokensKeyed; decide)
    (by unfold TokensNodup; decide)
    (by rfl)
  obtain ⟨-, hfull⟩ := h
  obtain ⟨s2, heq, hstep, hmark, -⟩ :=
    hfull (by decide)
      { id := "f3", source_ref := "g", target_ref := "e" } []
      { id := "e", type := .endEvent, variant := .event } (by rfl) (by rfl)
  exact ⟨s2, heq, hstep, hmark 0 _ (by decide) (by rfl) (by rfl)⟩

/-- Claim C10 (implicit): `get_tokens_at_element` selects tokens by
position only, regardless of state, so Completed or Failed tokens
resting at a converging gateway contribute to the arrived count and to
the merged data; concretely, with only one non-terminal token at a
gateway requiring two, the join nevertheless fires: the stepped token
advances to the outgoing target Active, carrying the Completed peer's
data in its merged map. -/
theorem C10_join_counts_terminal_tokens :
    (∀ (i : ProcessInstance) (eid : String) (t : Token),
        t ∈ dictValues i.tokens → t.current_element_id = eid →
        t ∈ i.get_tokens_at_element eid)
    ∧
    (((fixJoinStateC10.inst.get_tokens_at_element "g").filter
          (fun t => t.state = .ACTIVE ∨ t.state = .WAITING)).length
        < (fixJoinProcess.get_incoming_flows "g").length
      ∧ find_token (execute_token fixEnv fixJoinProcess fixJoinStateC10 1) 1
          = some { id := 1, current_element_id := "e", state := .ACTIVE
                   data := [("k", .vInt 7)] }) := by
  constructor
  · intro i eid t htv hpos
    exact mem_tokens_at_element.mpr ⟨htv, hpos⟩
  · constructor
    · decide
    · decide

/-! Characterization of the child-spawning loop. -/

theorem dictSet_append_fresh [DecidableEq κ] {m : List (κ × α)} {k : κ} (v : α)
    (h : ∀ kv ∈ m, (kv : κ × α).1 ≠ k) : dictSet m k v = m ++ [(k, v)] := by
  unfold dictSet
  rw [if_neg]
  simp only [List.any_eq_true, decide_eq_true_eq, not_exists, not_and]
  exact fun kv hkv => h kv hkv

theorem map_fresh_id {m : List (Nat × Token)} {k : Nat} (g : Nat × Token → Nat × Token)
    (hg : ∀ kv, (kv : Nat × Token).1 ≠ k → g kv = kv)
    (h : ∀ kv ∈ m, (kv : Nat × Token).1 ≠ k) : m.map g = m := by
  have : ∀ kv ∈ m, g kv = id kv := fun kv hkv => hg kv (h kv hkv)
  rw [List.map_congr_left this, List.map_id]

theorem spawned_children_length (n : Nat) (parent : Token) (flows : List SequenceFlow) :
    (spawned_children n parent flows).length = flows.length := by
  induction flows generalizing n with
  | nil => rfl
  | cons f rest ih => simp [spawned_children, ih]

theorem spawned_children_pos (n : Nat) (parent : Token) (flows : List SequenceFlow) :
    (spawned_children n parent flows).map (fun kv => (kv.2 : Token).current_element_id)
      = flows.map (fun f => f.target_ref) := by
  induction flows generalizing n with
  | nil => rfl
  | cons f rest ih => simp [spawned_children, ih]

theorem spawned_children_fields (n : Nat) (parent : Token) (flows : List SequenceFlow) :
    ∀ kv ∈ spawned_children n parent flows,
      (kv.2 : Token).state = .ACTIVE ∧ (kv.2 : Token).data = parent.data
        ∧ (kv.2 : Token).parent_token_id = some parent.id
        ∧ (kv.2 : Token).id = kv.1 ∧ n ≤ kv.1 := by
  induction flows generalizing n with
  | nil => intro kv hkv; simp [spawned_children] at hkv
  | cons f rest ih =>
    intro kv hkv
    rcases List.mem_cons.mp hkv with heq | hmem
    · subst heq; simp
    · obtain ⟨h1, h2, h3, h4, h5⟩ := ih (n + 1) kv hmem
      exact ⟨h1, h2, h3, h4, by omega⟩

theorem spawned_children_get (n : Nat) (parent : Token) (flows : List SequenceFlow)
    (i : Nat) (hi : i < flows.length) :
    (spawned_children n parent flows).get
        ⟨i, by rwa [spawned_children_length]⟩
      = (n + i, { id := n + i, current_element_id := (flows.get ⟨i, hi⟩).target_ref
                  state := .ACTIVE, data := parent.data
                  parent_token_id := some parent.id }) := by
  induction flows generalizing n i with
  | nil => simp at hi
  | cons f rest ih =>
    cases i with
    | zero => simp [spawned_children]
    | succ j =>
      have hj : j < rest.length := by simpa using hi
      have := ih (n + 1) j hj
      simp only [spawned_children, List.get_cons_succ]
      rw [this]
      have : n + 1 + j = n + (j + 1) := by omega
      simp [this]

theorem spawn_child_tokens_spec (p : BPMNProcess) (gid : String) (parent : Token) :
    ∀ (flows : List SequenceFlow) (s : EngineState), TokensFresh s →
      (∀ f ∈ flows, ∃ tgt, p.get_element f.target_ref = some tgt
          ∧ tgt.id = f.target_ref) →
      spawn_child_tokens p s gid parent flows
        = ({ inst := { s.inst with
               tokens := s.inst.tokens ++ spawned_children s.next_token_id parent flows }
             next_token_id := s.next_token_id + flows.length }, none) := by
  intro flows
  induction flows with
  | nil =>
    intro s hFresh hRes
    simp only [spawn_child_tokens, spawned_children, List.append_nil, List.length_nil,
      Nat.add_zero]
  | cons f rest ih =>
    intro s hFresh hRes
    obtain ⟨tgt, htgt, htgtid⟩ := hRes f (List.mem_cons_self f rest)
    have hne : ∀ kv ∈ s.inst.tokens, (kv : Nat × Token).1 ≠ s.next_token_id :=
      fun kv hkv => Nat.ne_of_lt (hFresh kv hkv)
    simp only [spawn_child_tokens, ProcessInstance.add_token, move_token, htgt]
    rw [dictSet_append_fresh _ hne]
    simp only [upd_token, List.map_append, List.map_cons, List.map_nil]
    rw [map_fresh_id _ (by intro kv hkv; simp [hkv]) hne]
    simp only [if_true]
    rw [ih _ (by
      intro kv hkv
      replace hkv : kv ∈ s.inst.tokens ++ [(s.next_token_id,
        { id := s.next_token_id, current_element_id := tgt.id, state := .ACTIVE
          data := parent.data, parent_token_id := some parent.id })] := hkv
      show kv.1 < s.next_token_id + 1
      rcases List.mem_append.mp hkv with hold | hnew
      · exact Nat.lt_succ_of_lt (hFresh kv hold)
      · obtain rfl := List.mem_singleton.mp hnew
        show s.next_token_id < s.next_token_id + 1
        omega)
      (fun f2 h2 => hRes f2 (List.mem_cons_of_mem f h2))]
    simp only [spawned_children, htgtid, List.append_assoc, List.singleton_append,
      List.length_cons]
    congr 2
    omega

theorem dictGet_append [DecidableEq κ] (m1 m2 : List (κ × α)) (k : κ) :
    dictGet (m1 ++ m2) k = (dictGet m1 k).or (dictGet m2 k) := by
  unfold dictGet
  rw [List.find?_append]
  rcases h : m1.find? (fun p => p.1 = k) with _ | y <;> simp [h]

theorem keys_upd_token (s : EngineState) (tid : Nat) (f : Token → Token) :
    (upd_token s tid f).inst.tokens.map Prod.fst = s.inst.tokens.map Prod.fst := by
  unfold upd_token
  simp only [List.map_map]
  apply List.map_congr_left
  intro kv _
  by_cases h : kv.1 = tid <;> simp [h]

theorem length_upd_token (s : EngineState) (tid : Nat) (f : Token → Token) :
    (upd_token s tid f).inst.tokens.length = s.inst.tokens.length := by
  unfold upd_token
  simp

theorem fresh_upd_token {s : EngineState} (hF : TokensFresh s) (tid : Nat)
    (f : Token → Token) : TokensFresh (upd_token s tid f) := by
  intro kv hkv
  unfold upd_token at hkv
  simp only at hkv
  obtain ⟨kv0, hkv0, heq⟩ := List.mem_map.mp hkv
  have h1 : kv.1 = kv0.1 := by
    by_cases h : kv0.1 = tid <;> simp [← heq, h]
  have := hF kv0 hkv0
  show kv.1 < s.next_token_id
  omega

theorem nodup_upd_token {s : EngineState} (hN : TokensNodup s) (tid : Nat)
    (f : Token → Token) : TokensNodup (upd_token s tid f) := by
  unfold TokensNodup
  rwa [keys_upd_token]

theorem keyed_upd_token {s : EngineState} (hK : TokensKeyed s) (tid : Nat)
    {f : Token → Token} (hf : ∀ t, (f t).id = t.id) : TokensKeyed (upd_token s tid f) := by
  intro kv hkv
  unfold upd_token at hkv
  simp only at hkv
  obtain ⟨kv0, hkv0, heq⟩ := List.mem_map.mp hkv
  have := hK kv0 hkv0
  by_cases h : kv0.1 = tid
  · rw [if_pos h] at heq
    rw [← heq]
    simp [hf, this]
  · rw [if_neg h] at heq
    rw [← heq]
    exact this

/-- Claim C2: parallel (AND) split at a Diverging gateway with at least
one outgoing flow: the incoming token is Completed, exactly N = number
of outgoing flows new entries are appended, each a fresh Active child
carrying a copy of the parent data and the parent id, and the list of
the children's positions equals the list of the flows' targets. -/
theorem C2_parallel_split
    (p : BPMNProcess) (s : EngineState) (tok : Token) (gateway : BPMNElement)
    (hFresh : TokensFresh s)
    (hTok : find_token s tok.id = some tok)
    (f0 : SequenceFlow) (rest : List SequenceFlow)
    (hout : p.get_outgoing_flows gateway.id = f0 :: rest)
    (hRes : ∀ f ∈ f0 :: rest, ∃ tgt, p.get_element f.target_ref = some tgt
              ∧ tgt.id = f.target_ref) :
    ∃ s2, execute_and_split p s tok gateway = (s2, none)
      ∧ find_token s2 tok.id = some { tok with state := .COMPLETED }
      ∧ s2.inst.tokens.length = s.inst.tokens.length + (f0 :: rest).length
      ∧ s2.inst.tokens = (set_token_state s tok.id .COMPLETED).inst.tokens
          ++ spawned_children s.next_token_id tok (f0 :: rest)
      ∧ (spawned_children s.next_token_id tok (f0 :: rest)).map
            (fun kv => (kv.2 : Token).current_element_id)
          = (f0 :: rest).map (fun f => f.target_ref)
      ∧ (∀ kv ∈ spawned_children s.next_token_id tok (f0 :: rest),
          (kv.2 : Token).state = .ACTIVE ∧ (kv.2 : Token).data = tok.data
            ∧ (kv.2 : Token).parent_token_id = some tok.id) := by
  have hFresh1 : TokensFresh (set_token_state s tok.id .COMPLETED) :=
    fresh_upd_token hFresh tok.id _
  have hspec := spawn_child_tokens_spec p gateway.id tok (f0 :: rest)
    (set_token_state s tok.id .COMPLETED) hFresh1 hRes
  have hnext1 : (set_token_state s tok.id .COMPLETED).next_token_id = s.next_token_id := rfl
  rw [hnext1] at hspec
  refine ⟨{ inst := { (set_token_state s tok.id .COMPLETED).inst with
              tokens := (set_token_state s tok.id .COMPLETED).inst.tokens
                ++ spawned_children s.next_token_id tok (f0 :: rest) }
            next_token_id := s.next_token_id + (f0 :: rest).length },
    ?_, ?_, ?_, ?_, ?_, ?_⟩
  · unfold execute_and_split
    rw [hout]
    exact hspec
  · unfold find_token
    simp only
    rw [dictGet_append]
    have h1 : find_token (set_token_state s tok.id .COMPLETED) tok.id
        = some { tok with state := .COMPLETED } := by
      rw [find_token_set_token_state, if_pos rfl, hTok]
      rfl
    unfold find_token at h1
    rw [h1]
    rfl
  · simp only [List.length_append]
    rw [show (set_token_state s tok.id .COMPLETED).inst.tokens.length
        = s.inst.tokens.length from length_upd_token s tok.id _]
    rw [spawned_children_length]
  · rfl
  · exact spawned_children_pos s.next_token_id tok (f0 :: rest)
  · intro kv hkv
    obtain ⟨h1, h2, h3, -, -⟩ := spawned_children_fields s.next_token_id tok (f0 :: rest) kv hkv
    exact ⟨h1, h2, h3⟩

/-- Witness for the C2 theorem: a Diverging parallel gateway with two
outgoing flows splits one Active token into two Active children. -/
theorem C2_parallel_split_witness :
    (let p : BPMNProcess :=
      { id := "p", name := "p"
        elements :=
          [ ("g", { id := "g", type := .parallelGateway
                    variant := .parallelGateway { direction := .Diverging } })
          , ("a", { id := "a", type := .manualTask })
          , ("b", { id := "b", type := .manualTask }) ]
        sequence_flows :=
          [ ("f1", { id := "f1", source_ref := "g", target_ref := "a" })
          , ("f2", { id := "f2", source_ref := "g", target_ref := "b" }) ] }
    let tok : Token := { id := 0, current_element_id := "g", data := [("d", .vInt 1)] }
    let s : EngineState :=
      { inst := { instance_id := "i", process_id := "p", session_name := "n"
                  tokens := [(0, tok)] }
        next_token_id := 1 }
    ∃ s2, execute_and_split p s tok
        { id := "g", type := .parallelGateway
          variant := .parallelGateway { direction := .Diverging } } = (s2, none)
      ∧ find_token s2 0 = some { tok with state := .COMPLETED }
      ∧ s2.inst.tokens.length = 3
      ∧ (spawned_children 1 tok
            [ { id := "f1", source_ref := "g", target_ref := "a" }
            , { id := "f2", source_ref := "g", target_ref := "b" } ]).map
          (fun kv => (kv.2 : Token).current_element_id) = ["a", "b"]) := by
  intro p tok s
  obtain ⟨s2, heq, hpar, hlen, -, hpos, -⟩ :=
    C2_parallel_split p s tok
      { id := "g", type := .parallelGateway
        variant := .parallelGateway { direction := .Diverging } }
      (by unfold TokensFresh; decide) (by rfl)
      { id := "f1", source_ref := "g", target_ref := "a" }
      [ { id := "f2", source_ref := "g", target_ref := "b" } ]
      (by rfl)
      (by
        intro f hf
        fin_cases hf
        · exact ⟨{ id := "a", type := .manualTask }, rfl, rfl⟩
        · exact ⟨{ id := "b", type := .manualTask }, rfl, rfl⟩)
  exact ⟨s2, heq, hpar, by rw [hlen]; rfl, by rw [hpos]; decide⟩

/-! Characterization of the XOR condition scan. -/

theorem select_xor_flow_skip (env : Env) (ctx : List (String × Val)) :
    ∀ (pre rest : List SequenceFlow), (∀ g ∈ pre, xor_skipped env ctx g) →
      select_xor_flow env ctx (pre ++ rest) = select_xor_flow env ctx rest := by
  intro pre
  induction pre with
  | nil => intro rest _; rfl
  | cons g pre ih =>
    intro rest hskip
    have hg := hskip g (List.mem_cons_self g pre)
    have hrest : ∀ g2 ∈ pre, xor_skipped env ctx g2 :=
      fun g2 h2 => hskip g2 (List.mem_cons_of_mem g h2)
    rcases hg with hnone | hempty | ⟨c, v, hc, hv, hfalse⟩
    · simp only [List.cons_append, select_xor_flow, hnone]
      exact ih rest hrest
    · simp only [List.cons_append, select_xor_flow, hempty]
      rw [if_true]
      exact ih rest hrest
    · by_cases hce : c = ""
      · subst hce
        simp only [List.cons_append, select_xor_flow, hc]
        rw [if_true]
        exact ih rest hrest
      · simp only [List.cons_append, select_xor_flow, hc]
        rw [if_neg hce]
        simp only [hv, hfalse, Bool.false_eq_true, if_false]
        exact ih rest hrest

theorem select_xor_flow_first (env : Env) (ctx : List (String × Val))
    (f : SequenceFlow) (post : List SequenceFlow) {c : String} {v : Val}
    (hc : f.condition_expression = some c) (hce : ¬(c = ""))
    (hv : env.evaluate c ctx = .ok v) (htrue : v.truthy = true) :
    select_xor_flow env ctx (f :: post) = .ok (some f) := by
  simp only [select_xor_flow, hc]
  rw [if_neg hce]
  simp only [hv, htrue, if_true]

theorem select_xor_flow_none (env : Env) (ctx : List (String × Val))
    (flows : List SequenceFlow) (hskip : ∀ g ∈ flows, xor_skipped env ctx g) :
    select_xor_flow env ctx flows = .ok none := by
  have := select_xor_flow_skip env ctx flows [] hskip
  simpa using this

/-- Claim C4: exclusive (XOR) split at a Diverging (or Mixed) gateway
with at least one outgoing flow, conditions evaluated in declaration
order against the union of instance variables and token data.  First
part: the first flow with a non-empty condition evaluating truthy is
taken (flows whose condition is missing or empty — Python-falsy — are
never candidates).  Second part: with no match, the
gateway's `default_flow` is taken when set.  Third part: with no match
and no default, the first outgoing flow is taken.  In each case the
whole effect is the position rewrite of the stepped token. -/
theorem C4_xor_split
    (env : Env) (p : BPMNProcess) (s : EngineState) (tok : Token)
    (gateway : BPMNElement) (g : GatewayData)
    (hvar : gateway.variant = .exclusiveGateway g)
    (hdir : g.direction ≠ .Converging)
    (f0 : SequenceFlow) (rest : List SequenceFlow)
    (hout : p.get_outgoing_flows gateway.id = f0 :: rest) :
    (∀ pre f post c v tgt,
        f0 :: rest = pre ++ f :: post →
        (∀ g2 ∈ pre, xor_skipped env (dictUpdate s.inst.vars tok.data) g2) →
        f.condition_expression = some c →
        ¬(c = "") →
        env.evaluate c (dictUpdate s.inst.vars tok.data) = .ok v →
        v.truthy = true →
        p.get_element f.target_ref = some tgt →
        execute_exclusive_gateway env p s tok gateway
          = (upd_token s tok.id (fun t => { t with current_element_id := tgt.id }), none))
    ∧
    ((∀ g2 ∈ f0 :: rest, xor_skipped env (dictUpdate s.inst.vars tok.data) g2) →
      ∀ df fd tgt, g.default_flow = some df → ¬(df = "") →
        p.get_sequence_flow df = some fd →
        p.get_element fd.target_ref = some tgt →
        execute_exclusive_gateway env p s tok gateway
          = (upd_token s tok.id (fun t => { t with current_element_id := tgt.id }), none))
    ∧
    ((∀ g2 ∈ f0 :: rest, xor_skipped env (dictUpdate s.inst.vars tok.data) g2) →
      g.default_flow = none →
      ∀ tgt0, p.get_element f0.target_ref = some tgt0 →
        execute_exclusive_gateway env p s tok gateway
          = (upd_token s tok.id (fun t => { t with current_element_id := tgt0.id }), none)) := by
  have hred : execute_exclusive_gateway env p s tok gateway
      = execute_xor_split env p s tok gateway g := by
    unfold execute_exclusive_gateway
    rw [hvar]
    simp only [hdir, if_false]
  refine ⟨?_, ?_, ?_⟩
  · intro pre f post c v tgt hdecomp hpre hc hcne hv htrue htgt
    rw [hred]
    unfold execute_xor_split
    rw [hout]
    simp only
    rw [hdecomp, select_xor_flow_skip env _ pre (f :: post) hpre,
      select_xor_flow_first env _ f post hc hcne hv htrue]
    simp only [move_token, htgt]
  · intro hskip df fd tgt hdf hdfne hfd htgt
    rw [hred]
    unfold execute_xor_split
    rw [hout]
    simp only
    rw [select_xor_flow_none env _ _ hskip]
    simp only [hdf, hdfne, if_false, hfd, move_token, htgt]
  · intro hskip hdf tgt0 htgt0
    rw [hred]
    unfold execute_xor_split
    rw [hout]
    simp only
    rw [select_xor_flow_none env _ _ hskip]
    simp only [hdf, move_token, htgt0]

/-- Witness for the C4 theorem: with flow conditions
`[false, true, false]` and no default, the token advances onto the
second flow's target. -/
theorem C4_xor_split_witness :
    execute_exclusive_gateway fixEnvBool fixXorProcess fixXorState
        { id := 0, current_element_id := "g" }
        { id := "g", type := .exclusiveGateway
          variant := .exclusiveGateway { direction := .Diverging } }
      = (upd_token fixXorState 0 (fun t => { t with current_element_id := "t2" }), none) := by
  have h := (C4_xor_split fixEnvBool fixXorProcess fixXorState
    { id := 0, current_element_id := "g" }
    { id := "g", type := .exclusiveGateway
      variant := .exclusiveGateway { direction := .Diverging } }
    { direction := .Diverging }
    rfl (by decide)
    { id := "f1", source_ref := "g", target_ref := "t1", condition_expression := some "F" }
    [ { id := "f2", source_ref := "g", target_ref := "t2", condition_expression := some "T" }
    , { id := "f3", source_ref := "g", target_ref := "t3", condition_expression := some "F" } ]
    rfl).1
  exact h
    [ { id := "f1", source_ref := "g", target_ref := "t1", condition_expression := some "F" } ]
    { id := "f2", source_ref := "g", target_ref := "t2", condition_expression := some "T" }
    [ { id := "f3", source_ref := "g", target_ref := "t3", condition_expression := some "F" } ]
    "T" (.vBool true) { id := "t2", type := .manualTask }
    rfl
    (by
      intro g2 hg2
      obtain rfl := List.mem_singleton.mp hg2
      right
      right
      exact ⟨"F", .vBool false, rfl, rfl, rfl⟩)
    rfl (by decide) rfl rfl rfl

/-! Characterization of the OR condition scan. -/

theorem compute_active_flows_spec (env : Env) (ctx : List (String × Val))
    (dfl : Option String) :
    ∀ flows : List SequenceFlow,
      (∀ f ∈ flows, ∀ c, f.condition_expression = some c →
          ∃ v, env.evaluate c ctx = .ok v) →
      compute_active_flows env ctx dfl flows
        = .ok (flows.filter (or_active env ctx dfl)) := by
  intro flows
  induction flows with
  | nil => intro _; rfl
  | cons f rest ih =>
    intro hok
    have hrest : ∀ f2 ∈ rest, ∀ c, f2.condition_expression = some c →
        ∃ v, env.evaluate c ctx = .ok v :=
      fun f2 h2 => hok f2 (List.mem_cons_of_mem f h2)
    rcases hc : f.condition_expression with _ | c
    · by_cases hd : dfl = some f.id
      · subst hd
        simp only [compute_active_flows, hc, if_pos rfl, ih hrest, List.filter_cons]
        simp [or_active, hc]
      · simp only [compute_active_flows, hc, if_neg hd, ih hrest, List.filter_cons]
        simp [or_active, hc, hd]
    · by_cases hce : c = ""
      · subst hce
        by_cases hd : dfl = some f.id
        · simp only [compute_active_flows, hc, ih hrest, List.filter_cons]
          simp [or_active, hc, hd]
        · simp only [compute_active_flows, hc, ih hrest, List.filter_cons]
          simp [or_active, hc, hd]
      · obtain ⟨v, hv⟩ := hok f (List.mem_cons_self f rest) c hc
        simp only [compute_active_flows, hc]
        rw [if_neg hce]
        simp only [hv, List.filter_cons]
        by_cases ht : v.truthy
        · simp [ht, ih hrest, or_active, hc, hce, hv]
        · simp only [Bool.not_eq_true] at ht
          simp [ht, ih hrest, or_active, hc, hce, hv]

/-- Claim C5: inclusive (OR) split at a Diverging gateway with at least
one outgoing flow: a flow is active iff its condition evaluates truthy
or, having no condition, its id equals the gateway default flow; when
no flow is active all outgoing flows are taken; the incoming token is
Completed and exactly one Active child per chosen flow is appended,
carrying the parent's data and id and positioned on its flow's
target. -/
theorem C5_or_split
    (env : Env) (p : BPMNProcess) (s : EngineState) (tok : Token)
    (gateway : BPMNElement) (g : GatewayData)
    (hvar : gateway.variant = .inclusiveGateway g)
    (hdir : g.direction ≠ .Converging)
    (hFresh : TokensFresh s)
    (hTok : find_token s tok.id = some tok)
    (f0 : SequenceFlow) (rest : List SequenceFlow)
    (hout : p.get_outgoing_flows gateway.id = f0 :: rest)
    (hEval : ∀ f ∈ f0 :: rest, ∀ c, f.condition_expression = some c →
        ∃ v, env.evaluate c (dictUpdate s.inst.vars tok.data) = .ok v)
    (hRes : ∀ f ∈ f0 :: rest, ∃ tgt, p.get_element f.target_ref = some tgt
              ∧ tgt.id = f.target_ref)
    (chosen : List SequenceFlow)
    (hchosen : chosen =
      (if ((f0 :: rest).filter
            (or_active env (dictUpdate s.inst.vars tok.data) g.default_flow)).isEmpty
       then f0 :: rest
       else (f0 :: rest).filter
            (or_active env (dictUpdate s.inst.vars tok.data) g.default_flow))) :
    ∃ s2, execute_inclusive_gateway env p s tok gateway = (s2, none)
      ∧ find_token s2 tok.id = some { tok with state := .COMPLETED }
      ∧ s2.inst.tokens = (set_token_state s tok.id .COMPLETED).inst.tokens
          ++ spawned_children s.next_token_id tok chosen
      ∧ s2.inst.tokens.length = s.inst.tokens.length + chosen.length
      ∧ (spawned_children s.next_token_id tok chosen).map
            (fun kv => (kv.2 : Token).current_element_id)
          = chosen.map (fun f => f.target_ref)
      ∧ (∀ kv ∈ spawned_children s.next_token_id tok chosen,
          (kv.2 : Token).state = .ACTIVE ∧ (kv.2 : Token).data = tok.data
            ∧ (kv.2 : Token).parent_token_id = some tok.id) := by
  have hred : execute_inclusive_gateway env p s tok gateway
      = execute_or_split env p s tok gateway g := by
    unfold execute_inclusive_gateway
    rw [hvar]
    simp only [hdir, if_false]
  have hchsub : ∀ f ∈ chosen, f ∈ f0 :: rest := by
    intro f hf
    rw [hchosen] at hf
    by_cases he : ((f0 :: rest).filter
        (or_active env (dictUpdate s.inst.vars tok.data) g.default_flow)).isEmpty
    · rwa [if_pos he] at hf
    · rw [if_neg he] at hf
      exact List.mem_of_mem_filter hf
  have hFresh1 : TokensFresh (set_token_state s tok.id .COMPLETED) :=
    fresh_upd_token hFresh tok.id _
  have hspec := spawn_child_tokens_spec p gateway.id tok chosen
    (set_token_state s tok.id .COMPLETED) hFresh1
    (fun f hf => hRes f (hchsub f hf))
  have hnext1 : (set_token_state s tok.id .COMPLETED).next_token_id = s.next_token_id := rfl
  rw [hnext1] at hspec
  refine ⟨{ inst := { (set_token_state s tok.id .COMPLETED).inst with
              tokens := (set_token_state s tok.id .COMPLETED).inst.tokens
                ++ spawned_children s.next_token_id tok chosen }
            next_token_id := s.next_token_id + chosen.length },
    ?_, ?_, ?_, ?_, ?_, ?_⟩
  · rw [hred]
    unfold execute_or_split
    rw [hout]
    simp only
    rw [compute_active_flows_spec env _ g.default_flow (f0 :: rest) hEval]
    simp only
    rw [← hchosen]
    exact hspec
  · unfold find_token
    simp only
    rw [dictGet_append]
    have h1 : find_token (set_token_state s tok.id .COMPLETED) tok.id
        = some { tok with state := .COMPLETED } := by
      rw [find_token_set_token_state, if_pos rfl, hTok]
      rfl
    unfold find_token at h1
    rw [h1]
    rfl
  · rfl
  · simp only [List.length_append]
    rw [show (set_token_state s tok.id .COMPLETED).inst.tokens.length
        = s.inst.tokens.length from length_upd_token s tok.id _]
    rw [spawned_children_length]
  · exact spawned_children_pos s.next_token_id tok chosen
  · intro kv hkv
    obtain ⟨h1, h2, h3, -, -⟩ := spawned_children_fields s.next_token_id tok chosen kv hkv
    exact ⟨h1, h2, h3⟩

/-- Witness for the C5 theorem: with conditions `[true, true]` the
split spawns two children, one per flow, and completes the parent. -/
theorem C5_or_split_witness :
    ∃ s2, execute_inclusive_gateway fixEnvBool fixOrProcess fixOrState
        { id := 0, current_element_id := "g" }
        { id := "g", type := .inclusiveGateway
          variant := .inclusiveGateway { direction := .Diverging } } = (s2, none)
      ∧ find_token s2 0
          = some { id := 0, current_element_id := "g", state := .COMPLETED }
      ∧ s2.inst.tokens.length = 3 := by
  obtain ⟨s2, heq, hpar, -, hlen, -, -⟩ :=
    C5_or_split fixEnvBool fixOrProcess fixOrState
      { id := 0, current_element_id := "g" }
      { id := "g", type := .inclusiveGateway
        variant := .inclusiveGateway { direction := .Diverging } }
      { direction := .Diverging }
      rfl (by decide)
      (by unfold TokensFresh; decide) (by rfl)
      { id := "f1", source_ref := "g", target_ref := "a", condition_expression := some "T" }
      [ { id := "f2", source_ref := "g", target_ref := "b", condition_expression := some "T" } ]
      (by rfl)
      (by
        intro f hf c hc
        exact ⟨.vBool (c = "T"), rfl⟩)
      (by
        intro f hf
        fin_cases hf
        · exact ⟨{ id := "a", type := .manualTask }, rfl, rfl⟩
        · exact ⟨{ id := "b", type := .manualTask }, rfl, rfl⟩)
      [ { id := "f1", source_ref := "g", target_ref := "a", condition_expression := some "T" }
      , { id := "f2", source_ref := "g", target_ref := "b", condition_expression := some "T" } ]
      (by decide)
  exact ⟨s2, heq, hpar, by rw [hlen]; rfl⟩

/-! Timing of the terminal-completion wait. -/

theorem wait_loop_never (env : Env) (tid : String) (timeout : Int)
    (hrun : ∀ n, ∃ info, env.get_terminal_info tid n = some info
        ∧ ¬info.status = some "COMPLETED" ∧ ¬info.status = some "ERROR")
    (elapsed : Int) (polls : Nat) :
    wait_loop env tid timeout elapsed polls
      = (.error ("Terminal " ++ tid ++ " did not complete within "
            ++ toString timeout ++ " seconds"),
         elapsed + 2 * (((timeout - elapsed).toNat + 1) / 2 : Nat)) := by
  rw [wait_loop]
  by_cases h : elapsed < timeout
  · rw [dif_pos h]
    obtain ⟨info, hinfo, hnc, hne⟩ := hrun polls
    rw [hinfo]
    simp only [hnc, hne, if_false]
    rw [wait_loop_never env tid timeout hrun (elapsed + 2) (polls + 1)]
    congr 1
    omega
  · rw [dif_neg h]
    congr 1
    omega
termination_by (timeout - elapsed).toNat
decreasing_by simp_wf; omega

/-- Counterexample to claim C7 as stated: a ServiceTask with configured
timeout 1 whose Terminal Service never completes fails after 2 seconds
of polling delay (the poll loop advances in fixed 2-second steps), not
after exactly its configured 1 second. -/
theorem C7_counterexample :
    (wait_loop fixEnvRunning "t" 1 0 0).2 = 2
      ∧ (2 : Int) ≠ 1
      ∧ (wait_loop fixEnvRunning "t" 1 0 0).1
          = .error "Terminal t did not complete within 1 seconds" := by
  have h := wait_loop_never fixEnvRunning "t" 1
    (fun _ => ⟨{ status := some "RUNNING" }, rfl, by decide, by decide⟩) 0 0
  rw [h]
  refine ⟨by norm_num, by norm_num, ?_⟩
  rfl

/-- Claim C7, amended: for a ServiceTask with `wait_for_completion`
whose Terminal Service never reports COMPLETED or ERROR, the wait polls
at the fixed 2-second interval and fails with a timeout error after
2 * ceil(timeout / 2) seconds of accumulated polling delay — equal to
the configured timeout exactly when that timeout is even and
nonnegative; the token becomes Failed with the timeout error recorded,
the element state becomes failed, and all other tokens are
unchanged. -/
theorem C7_service_timeout_amended
    (env : Env) (p : BPMNProcess) (s : EngineState) (tok : Token)
    (el : BPMNElement) (task : ServiceTaskData)
    (hvar : el.variant = .serviceTask task)
    (htype : el.type = .serviceTask)
    (hwait : task.wait_for_completion = true)
    (hrun : ∀ tid n, ∃ info, env.get_terminal_info tid n = some info
        ∧ ¬info.status = some "COMPLETED" ∧ ¬info.status = some "ERROR")
    (hrender : ∀ tpl ctx, ∃ r, env.render_template tpl ctx = .ok r)
    (hcreate : ∀ a b c, ∃ t, env.create_terminal a b c = .ok t)
    (hTok : find_token s tok.id = some tok)
    (hel : p.get_element tok.current_element_id = some el) :
    (∀ tid, (wait_loop env tid task.timeout 0 0).2
        = 2 * ((task.timeout.toNat + 1) / 2 : Nat))
    ∧ (task.timeout % 2 = 0 → 0 ≤ task.timeout →
        ∀ tid, (wait_loop env tid task.timeout 0 0).2 = task.timeout)
    ∧ (∃ s2 tid, execute_token env p s tok.id = s2
        ∧ find_token s2 tok.id = some { tok with
            state := .FAILED
            error := some ("Terminal " ++ tid ++ " did not complete within "
              ++ toString task.timeout ++ " seconds") }
        ∧ dictGet s2.inst.element_states el.id = some "failed"
        ∧ (∀ u, u ≠ tok.id → find_token s2 u = find_token s u)) := by
  have htime : ∀ tid, (wait_loop env tid task.timeout 0 0).2
      = 2 * ((task.timeout.toNat + 1) / 2 : Nat) := by
    intro tid
    rw [wait_loop_never env tid task.timeout (hrun tid) 0 0]
    simp
  refine ⟨htime, ?_, ?_⟩
  · intro heven hnonneg tid
    rw [htime tid]
    omega
  · obtain ⟨r, hr⟩ := hrender task.task_template
      (dictUpdate (set_element_state s el.id "running").inst.vars tok.data)
    obtain ⟨t, ht⟩ := hcreate task.agent_profile task.provider
      (set_element_state s el.id "running").inst.session_name
    have hmsg := wait_loop_never env t.id task.timeout (hrun t.id) 0 0
    have hne : ¬(el.type = .endEvent) := by rw [htype]; decide
    refine ⟨set_element_state
        (upd_token (set_terminal_mapping (set_element_state s el.id "running") el.id t.id)
          tok.id
          (fun tk => { tk with
            state := .FAILED
            error := some ("Terminal " ++ t.id ++ " did not complete within "
              ++ toString task.timeout ++ " seconds") }))
        el.id "failed", t.id, ?_, ?_, ?_, ?_⟩
    · have hdisp : dispatch_element env p s tok el
          = (set_terminal_mapping (set_element_state s el.id "running") el.id t.id,
             some ("Terminal " ++ t.id ++ " did not complete within "
               ++ toString task.timeout ++ " seconds")) := by
        unfold dispatch_element
        rw [if_neg hne, if_pos htype]
        unfold execute_service_task
        rw [hvar]
        dsimp only
        rw [hr]
        dsimp only
        rw [ht]
        dsimp only
        simp only [hwait, if_true]
        unfold wait_for_terminal_completion
        rw [hmsg]
      unfold execute_token
      rw [hTok]
      dsimp only
      rw [hel]
      dsimp only
      rw [hdisp]
    · rw [find_token_set_element_state, find_token_upd_token, if_pos rfl,
        find_token_set_terminal_mapping, find_token_set_element_state, hTok]
      rfl
    · unfold set_element_state
      simp only
      rw [dictGet_dictSet]
      simp
    · intro u hu
      rw [find_token_set_element_state, find_token_upd_token, if_neg hu,
        find_token_set_terminal_mapping, find_token_set_element_state]

/-- Witness for the amended C7 theorem: a never-completing ServiceTask
with timeout 4 fails its token with the timeout error and marks the
element failed. -/
theorem C7_service_timeout_amended_witness :
    ∃ s2 tid, execute_token fixEnvRunning fixSvcProcess fixSvcState 0 = s2
      ∧ find_token s2 0 = some
          { id := 0, current_element_id := "st", state := .FAILED
            error := some ("Terminal " ++ tid ++ " did not complete within "
              ++ toString (4 : Int) ++ " seconds") }
      ∧ dictGet s2.inst.element_states "st" = some "failed" := by
  obtain ⟨-, -, s2, tid, heq, hfind, hes, -⟩ :=
    C7_service_timeout_amended fixEnvRunning fixSvcProcess fixSvcState
      { id := 0, current_element_id := "st" }
      { id := "st", type := .serviceTask, variant := .serviceTask { timeout := 4 } }
      { timeout := 4 }
      rfl rfl rfl
      (fun _ _ => ⟨{ status := some "RUNNING" }, rfl, by decide, by decide⟩)
      (fun _ _ => ⟨"", rfl⟩)
      (fun _ _ _ => ⟨{ id := "t" }, rfl⟩)
      rfl rfl
  exact ⟨s2, tid, heq, hfind, hes⟩

/-! Converter lemmas. -/

theorem except_error_isOk (e : ε) : (Except.error e : Except ε α).isOk = false := rfl

theorem except_ok_isOk (a : α) : (Except.ok a : Except ε α).isOk = true := rfl

theorem convert_nodes_ok : ∀ (nodes : List WorkflowNode) (acc elems),
    convert_nodes nodes acc = .ok elems →
    ∀ n ∈ nodes, (convert_node_to_element n).isOk = true := by
  intro nodes
  induction nodes with
  | nil => intro acc elems h n hn; simp at hn
  | cons n0 rest ih =>
    intro acc elems h n hn
    unfold convert_nodes at h
    rcases hc : convert_node_to_element n0 with e | el
    · rw [hc] at h; simp at h
    · rw [hc] at h
      dsimp only at h
      rcases List.mem_cons.mp hn with rfl | hmem
      · rw [hc]; rfl
      · exact ih _ _ h n hmem

theorem convert_edges_ok : ∀ (edges : List WorkflowEdge) (acc flows),
    convert_edges edges acc = .ok flows →
    ∀ e ∈ edges, (convert_edge_to_flow e).isOk = true := by
  intro edges
  induction edges with
  | nil => intro acc flows h e he; simp at he
  | cons e0 rest ih =>
    intro acc flows h e he
    unfold convert_edges at h
    rcases hc : convert_edge_to_flow e0 with err | fl
    · rw [hc] at h; simp at h
    · rw [hc] at h
      dsimp only at h
      rcases List.mem_cons.mp he with rfl | hmem
      · rw [hc]; rfl
      · exact ih _ _ h e hmem

theorem convert_node_conditions {n : WorkflowNode}
    (h : (convert_node_to_element n).isOk = true) :
    strFalsy n.id = false ∧ strFalsy n.type = false
      ∧ (normalize_element_type (n.type.getD "")).isSome = true := by
  unfold convert_node_to_element at h
  by_cases h1 : strFalsy n.id = true
  · rw [if_pos h1] at h; simp [except_error_isOk] at h
  · rw [if_neg h1] at h
    by_cases h2 : strFalsy n.type = true
    · rw [if_pos h2] at h; simp [except_error_isOk] at h
    · rw [if_neg h2] at h
      rcases h3 : normalize_element_type (n.type.getD "") with _ | et
      · rw [h3] at h; simp [except_error_isOk] at h
      · exact ⟨by simpa using h1, by simpa using h2, rfl⟩

theorem convert_edge_conditions {e : WorkflowEdge}
    (h : (convert_edge_to_flow e).isOk = true) :
    strFalsy e.id = false ∧ strFalsy e.source = false ∧ strFalsy e.target = false := by
  unfold convert_edge_to_flow at h
  by_cases hc : strFalsy e.id = true ∨ strFalsy e.source = true ∨ strFalsy e.target = true
  · rw [if_pos hc] at h; simp [except_error_isOk] at h
  · push_neg at hc
    simp only [Bool.not_eq_true] at hc
    exact ⟨hc.1, hc.2.1, hc.2.2⟩

theorem check_flow_refs_ok (p : BPMNProcess) : ∀ (L : List SequenceFlow),
    check_flow_refs p L = .ok () →
    ∀ f ∈ L, (p.get_element f.source_ref).isSome = true
      ∧ (p.get_element f.target_ref).isSome = true := by
  intro L
  induction L with
  | nil => intro h f hf; simp at hf
  | cons f0 rest ih =>
    intro h f hf
    unfold check_flow_refs at h
    by_cases h1 : (p.get_element f0.source_ref).isNone = true
    · rw [if_pos h1] at h; simp at h
    · rw [if_neg h1] at h
      by_cases h2 : (p.get_element f0.target_ref).isNone = true
      · rw [if_pos h2] at h; simp at h
      · rw [if_neg h2] at h
        rcases List.mem_cons.mp hf with rfl | hmem
        · constructor
          · rcases ho : p.get_element f.source_ref with _ | x
            · rw [ho] at h1; simp at h1
            · rfl
          · rcases ho : p.get_element f.target_ref with _ | x
            · rw [ho] at h2; simp at h2
            · rfl
        · exact ih h f hmem

theorem validate_process_ok {p : BPMNProcess} (h : validate_process p = .ok ()) :
    p.get_start_events ≠ [] ∧ p.get_end_events ≠ []
      ∧ ∀ f ∈ dictValues p.sequence_flows,
          (p.get_element f.source_ref).isSome = true
            ∧ (p.get_element f.target_ref).isSome = true := by
  unfold validate_process at h
  by_cases h1 : p.get_start_events.isEmpty = true
  · rw [if_pos h1] at h; simp at h
  · rw [if_neg h1] at h
    by_cases h2 : p.get_end_events.isEmpty = true
    · rw [if_pos h2] at h; simp at h
    · rw [if_neg h2] at h
      refine ⟨?_, ?_, check_flow_refs_ok p _ h⟩
      · simpa [List.isEmpty_iff] using h1
      · simpa [List.isEmpty_iff] using h2

/-- Claim C9: whenever the workflow graph lacks a usable top-level id
or has zero nodes, a node lacks id or type or has an unknown type, an
edge lacks id, source or target, the built process lacks a start or an
end event, or a flow reference dangles, `convert_workflow_to_bpmn`
fails (equivalently: a successful conversion rules all of these out);
moreover a graph without an end event yields exactly the missing
END_EVENT error, and a dangling reference yields an error naming the
offending flow. -/
theorem C9_converter_errors :
    (∀ (w : WorkflowData) (p : BPMNProcess), convert_workflow_to_bpmn w = .ok p →
        strFalsy w.id = false
      ∧ w.nodes ≠ []
      ∧ (∀ n ∈ w.nodes, strFalsy n.id = false ∧ strFalsy n.type = false
            ∧ (normalize_element_type (n.type.getD "")).isSome = true)
      ∧ (∀ e ∈ w.edges, strFalsy e.id = false ∧ strFalsy e.source = false
            ∧ strFalsy e.target = false)
      ∧ p.get_start_events ≠ []
      ∧ p.get_end_events ≠ []
      ∧ (∀ f ∈ dictValues p.sequence_flows,
            (p.get_element f.source_ref).isSome = true
              ∧ (p.get_element f.target_ref).isSome = true))
    ∧ convert_workflow_to_bpmn fixNoEnd
        = .error "Process must have at least one END_EVENT"
    ∧ convert_workflow_to_bpmn fixDangling
        = .error "Sequence flow e1 references non-existent target: ghost" := by
  refine ⟨?_, by rfl, by rfl⟩
  intro w p h
  unfold convert_workflow_to_bpmn at h
  by_cases h1 : strFalsy w.id = true
  · rw [if_pos h1] at h; simp at h
  · rw [if_neg h1] at h
    by_cases h2 : w.nodes.isEmpty = true
    · rw [if_pos h2] at h; simp at h
    · rw [if_neg h2] at h
      rcases hn : convert_nodes w.nodes [] with e | elems
      · rw [hn] at h; simp at h
      · rw [hn] at h
        dsimp only at h
        rcases he : convert_edges w.edges [] with e2 | flows
        · rw [he] at h; simp at h
        · rw [he] at h
          dsimp only at h
          rcases hv : validate_process
              { id := w.id.getD "", name := w.name.getD "Unnamed Workflow"
                description := w.description, elements := elems
                sequence_flows := flows, process_variables := w.var_bindings }
              with e3 | u
          · rw [hv] at h; simp at h
          · rw [hv] at h
            dsimp only at h
            obtain rfl := (Except.ok.inj h)
            cases u
            obtain ⟨hst, hen, hfl⟩ := validate_process_ok hv
            refine ⟨by simpa using h1, by simpa [List.isEmpty_iff] using h2,
              ?_, ?_, hst, hen, hfl⟩
            · intro n hnmem
              exact convert_node_conditions (convert_nodes_ok w.nodes [] elems hn n hnmem)
            · intro e hemem
              exact convert_edge_conditions (convert_edges_ok w.edges [] flows he e hemem)

/-- Witness for the C9 theorem: the well-formed graph `fixGood`
converts successfully, and the theorem's consequences hold for the
resulting process. -/
theorem C9_converter_errors_witness :
    convert_workflow_to_bpmn fixGood = .ok fixGoodProcess
      ∧ fixGoodProcess.get_start_events ≠ []
      ∧ fixGoodProcess.get_end_events ≠ [] := by
  have h0 : convert_workflow_to_bpmn fixGood = .ok fixGoodProcess := by rfl
  have h := (C9_converter_errors.1 fixGood fixGoodProcess h0)
  exact ⟨h0, h.2.2.2.2.1, h.2.2.2.2.2.1⟩

/-! Effect of each handler on tokens other than the stepped one. -/

theorem move_token_others (p : BPMNProcess) (s : EngineState) (tid : Nat)
    (f : SequenceFlow) (u : Nat) (hu : u ≠ tid) :
    find_token (move_token p s tid f).1 u = find_token s u := by
  unfold move_token
  rcases p.get_element f.target_ref with _ | tgt
  · rfl
  · simp only
    rw [find_token_upd_token, if_neg hu]

theorem advance_or_complete_others (p : BPMNProcess) (s : EngineState) (tid : Nat)
    (eid : String) (u : Nat) (hu : u ≠ tid) :
    find_token (advance_or_complete p s tid eid).1 u = find_token s u := by
  unfold advance_or_complete
  rcases p.get_outgoing_flows eid with _ | ⟨f, rest⟩
  · simp only
    rw [find_token_set_token_state, if_neg hu]
  · exact move_token_others p s tid f u hu

theorem execute_end_event_others (s : EngineState) (tid : Nat) (el : BPMNElement)
    (u : Nat) (hu : u ≠ tid) :
    find_token (execute_end_event s tid el).1 u = find_token s u := by
  unfold execute_end_event
  simp only
  rw [find_token_set_element_state, find_token_set_token_state, if_neg hu]

theorem execute_service_task_others (env : Env) (p : BPMNProcess) (s : EngineState)
    (tok : Token) (el : BPMNElement) (u : Nat) (hu : u ≠ tok.id) :
    find_token (execute_service_task env p s tok el).1 u = find_token s u := by
  unfold execute_service_task
  rcases el.variant with _ | task | _ | _ | _ | _ | _ | _ <;> try rfl
  simp only
  rcases env.render_template task.task_template
      (dictUpdate (set_element_state s el.id "running").inst.vars tok.data) with e | r
  · simp only
    rw [find_token_set_element_state]
  · simp only
    rcases env.create_terminal task.agent_profile task.provider
        (set_element_state s el.id "running").inst.session_name with e | t
    · simp only
      rw [find_token_set_element_state]
    · simp only
      by_cases hw : task.wait_for_completion = true
      · rw [if_pos hw]
        rcases wait_for_terminal_completion env t.id task.timeout with e | out
        · simp only
          rw [find_token_set_terminal_mapping, find_token_set_element_state]
        · simp only
          rw [advance_or_complete_others _ _ _ _ u hu, find_token_set_element_state,
            find_token_upd_token, if_neg hu, find_token_set_terminal_mapping,
            find_token_set_element_state]
      · rw [if_neg hw]
        rw [advance_or_complete_others _ _ _ _ u hu, find_token_set_element_state,
          find_token_upd_token, if_neg hu, find_token_set_terminal_mapping,
          find_token_set_element_state]

theorem execute_script_task_others (env : Env) (p : BPMNProcess) (s : EngineState)
    (tok : Token) (el : BPMNElement) (u : Nat) (hu : u ≠ tok.id) :
    find_token (execute_script_task env p s tok el).1 u = find_token s u := by
  unfold execute_script_task
  rcases el.variant with _ | _ | task | _ | _ | _ | _ | _ <;> try rfl
  simp only
  rcases env.evaluate task.script
      (dictUpdate (set_element_state s el.id "running").inst.vars tok.data) with e | r
  · simp only
    rw [find_token_set_element_state]
  · simp only
    rw [advance_or_complete_others _ _ _ _ u hu, find_token_set_element_state,
      find_token_upd_token, if_neg hu, find_token_set_element_state]

theorem execute_user_task_others (s : EngineState) (tok : Token) (el : BPMNElement)
    (u : Nat) (hu : u ≠ tok.id) :
    find_token (execute_user_task s tok el).1 u = find_token s u := by
  unfold execute_user_task
  rcases el.variant with _ | _ | _ | task | _ | _ | _ | _ <;> try rfl
  simp only
  rw [find_token_set_element_state, find_token_set_token_state, if_neg hu]

theorem execute_xor_split_others (env : Env) (p : BPMNProcess) (s : EngineState)
    (tok : Token) (gw : BPMNElement) (g : GatewayData) (u : Nat) (hu : u ≠ tok.id) :
    find_token (execute_xor_split env p s tok gw g).1 u = find_token s u := by
  unfold execute_xor_split
  rcases p.get_outgoing_flows gw.id with _ | ⟨f0, rest⟩
  · simp only
    rw [find_token_set_token_state, if_neg hu]
  · simp only
    rcases select_xor_flow env (dictUpdate s.inst.vars tok.data) (f0 :: rest) with e | sel
    · rfl
    · simp only
      rcases sel with _ | f
      · rcases g.default_flow with _ | df
        · simp only
          exact move_token_others p s tok.id f0 u hu
        · simp only
          by_cases hdf : df = ""
          · rw [if_pos hdf]
            exact move_token_others p s tok.id f0 u hu
          · rw [if_neg hdf]
            rcases p.get_sequence_flow df with _ | fd
            · simp only
              exact move_token_others p s tok.id f0 u hu
            · simp only
              exact move_token_others p s tok.id fd u hu
      · simp only
        exact move_token_others p s tok.id f u hu

theorem move_token_keys (p : BPMNProcess) (s : EngineState) (tid : Nat) (f : SequenceFlow) :
    (move_token p s tid f).1.inst.tokens.map Prod.fst = s.inst.tokens.map Prod.fst := by
  unfold move_token
  rcases p.get_element f.target_ref with _ | tgt
  · rfl
  · exact keys_upd_token _ _ _

theorem move_token_next (p : BPMNProcess) (s : EngineState) (tid : Nat) (f : SequenceFlow) :
    (move_token p s tid f).1.next_token_id = s.next_token_id := by
  unfold move_token
  rcases p.get_element f.target_ref with _ | tgt
  · rfl
  · rfl

theorem fresh_of_keys_next {s s2 : EngineState}
    (hk : s2.inst.tokens.map Prod.fst = s.inst.tokens.map Prod.fst)
    (hn : s2.next_token_id = s.next_token_id) (hF : TokensFresh s) : TokensFresh s2 := by
  intro kv hkv
  have hmem : kv.1 ∈ s2.inst.tokens.map Prod.fst := List.mem_map.mpr ⟨kv, hkv, rfl⟩
  rw [hk] at hmem
  obtain ⟨kv2, hkv2, hfst⟩ := List.mem_map.mp hmem
  have := hF kv2 hkv2
  show kv.1 < s2.next_token_id
  rw [hn]
  omega

theorem spawn_others (p : BPMNProcess) (gid : String) (parent : Token) :
    ∀ (flows : List SequenceFlow) (s : EngineState), TokensFresh s →
      ∀ u, u < s.next_token_id →
        find_token (spawn_child_tokens p s gid parent flows).1 u = find_token s u := by
  intro flows
  induction flows with
  | nil => intro s _ u _; rfl
  | cons f rest ih =>
    intro s hFresh u hu
    unfold spawn_child_tokens
    simp only
    have hne : ∀ kv ∈ s.inst.tokens, (kv : Nat × Token).1 ≠ s.next_token_id :=
      fun kv hkv => Nat.ne_of_lt (hFresh kv hkv)
    have hadd : ∀ v, find_token
        { inst := s.inst.add_token
            { id := s.next_token_id, current_element_id := gid, state := .ACTIVE
              data := parent.data, parent_token_id := some parent.id }
          next_token_id := s.next_token_id + 1 } v
        = if v = s.next_token_id
          then some { id := s.next_token_id, current_element_id := gid, state := .ACTIVE
                      data := parent.data, parent_token_id := some parent.id }
          else find_token s v := by
      intro v
      unfold find_token ProcessInstance.add_token
      simp only
      rw [dictGet_dictSet]
    have hFresh1 : TokensFresh
        { inst := s.inst.add_token
            { id := s.next_token_id, current_element_id := gid, state := .ACTIVE
              data := parent.data, parent_token_id := some parent.id }
          next_token_id := s.next_token_id + 1 } := by
      intro kv hkv
      replace hkv : kv ∈ dictSet s.inst.tokens s.next_token_id
          { id := s.next_token_id, current_element_id := gid, state := .ACTIVE
            data := parent.data, parent_token_id := some parent.id } := hkv
      rw [dictSet_append_fresh _ hne] at hkv
      show kv.1 < s.next_token_id + 1
      rcases List.mem_append.mp hkv with hold | hnew
      · exact Nat.lt_succ_of_lt (hFresh kv hold)
      · obtain rfl := List.mem_singleton.mp hnew
        omega
    have hoth : find_token (move_token p
        { inst := s.inst.add_token
            { id := s.next_token_id, current_element_id := gid, state := .ACTIVE
              data := parent.data, parent_token_id := some parent.id }
          next_token_id := s.next_token_id + 1 }
        s.next_token_id f).1 u = find_token s u := by
      rw [move_token_others _ _ _ _ u (Nat.ne_of_lt hu), hadd u,
        if_neg (Nat.ne_of_lt hu)]
    rcases hm : move_token p
        { inst := s.inst.add_token
            { id := s.next_token_id, current_element_id := gid, state := .ACTIVE
              data := parent.data, parent_token_id := some parent.id }
          next_token_id := s.next_token_id + 1 }
        s.next_token_id f with ⟨s2, err⟩
    have hs2 : s2 = (move_token p
        { inst := s.inst.add_token
            { id := s.next_token_id, current_element_id := gid, state := .ACTIVE
              data := parent.data, parent_token_id := some parent.id }
          next_token_id := s.next_token_id + 1 }
        s.next_token_id f).1 := by rw [hm]
    rcases err with _ | e
    · simp only
      have hF2 : TokensFresh s2 := by
        rw [hs2]
        exact fresh_of_keys_next (move_token_keys _ _ _ _) (move_token_next _ _ _ _) hFresh1
      have hu2 : u < s2.next_token_id := by
        rw [hs2, move_token_next]
        show u < s.next_token_id + 1
        omega
      rw [ih s2 hF2 u hu2, hs2, hoth]
    · simp only
      rw [hs2, hoth]

/-! The preservation layer: every handler satisfies `step_preserves`. -/

theorem dictGet_isSome_iff_mem_keys [DecidableEq κ] (m : List (κ × α)) (u : κ) :
    (dictGet m u).isSome = true ↔ u ∈ m.map Prod.fst := by
  unfold dictGet
  rw [Option.isSome_map']
  rw [List.find?_isSome]
  constructor
  · rintro ⟨x, hx, hpx⟩
    exact List.mem_map.mpr ⟨x, hx, by simpa using hpx⟩
  · intro h
    obtain ⟨x, hx, hfst⟩ := List.mem_map.mp h
    exact ⟨x, hx, by simpa using hfst⟩

theorem sp_refl (s : EngineState) : step_preserves s s :=
  ⟨Nat.le_refl _, id, id, id, fun _ _ h => h⟩

theorem sp_trans {s1 s2 s3 : EngineState} (h1 : step_preserves s1 s2)
    (h2 : step_preserves s2 s3) : step_preserves s1 s3 := by
  obtain ⟨a1, b1, c1, d1, e1⟩ := h1
  obtain ⟨a2, b2, c2, d2, e2⟩ := h2
  exact ⟨Nat.le_trans a1 a2, fun h => b2 (b1 h), fun h => c2 (c1 h),
    fun h => d2 (d1 h), fun h u hu => e2 (b1 h) u (e1 h u hu)⟩

theorem sp_of_keys_next {s s2 : EngineState}
    (hk : s2.inst.tokens.map Prod.fst = s.inst.tokens.map Prod.fst)
    (hn : s2.next_token_id = s.next_token_id)
    (hkeyed : TokensKeyed s → TokensKeyed s2) : step_preserves s s2 := by
  refine ⟨Nat.le_of_eq hn.symm, fun h => fresh_of_keys_next hk hn h, hkeyed, ?_, ?_⟩
  · intro h
    unfold TokensNodup
    rw [hk]
    exact h
  · intro _ u hu
    rw [hk]
    exact hu

theorem sp_upd_token (s : EngineState) (tid : Nat) (f : Token → Token)
    (hf : ∀ t, (f t).id = t.id) : step_preserves s (upd_token s tid f) :=
  sp_of_keys_next (keys_upd_token s tid f) rfl (fun h => keyed_upd_token h tid hf)

theorem sp_set_element_state (s : EngineState) (e v : String) :
    step_preserves s (set_element_state s e v) :=
  sp_of_keys_next rfl rfl id

theorem sp_set_terminal_mapping (s : EngineState) (e v : String) :
    step_preserves s (set_terminal_mapping s e v) :=
  sp_of_keys_next rfl rfl id

theorem sp_set_token_state (s : EngineState) (tid : Nat) (st : TokenState) :
    step_preserves s (set_token_state s tid st) :=
  sp_upd_token s tid (fun t => { t with state := st }) (fun _ => rfl)

theorem sp_move_token (p : BPMNProcess) (s : EngineState) (tid : Nat) (f : SequenceFlow) :
    step_preserves s (move_token p s tid f).1 := by
  unfold move_token
  rcases p.get_element f.target_ref with _ | tgt
  · exact sp_refl s
  · exact sp_upd_token s tid (fun t => { t with current_element_id := tgt.id }) (fun _ => rfl)

theorem sp_advance_or_complete (p : BPMNProcess) (s : EngineState) (tid : Nat)
    (eid : String) : step_preserves s (advance_or_complete p s tid eid).1 := by
  unfold advance_or_complete
  rcases p.get_outgoing_flows eid with _ | ⟨f, rest⟩
  · exact sp_set_token_state s tid .COMPLETED
  · exact sp_move_token p s tid f

theorem sp_spawn (p : BPMNProcess) (gid : String) (parent : Token) :
    ∀ (flows : List SequenceFlow) (s : EngineState),
      step_preserves s (spawn_child_tokens p s gid parent flows).1 := by
  intro flows
  induction flows with
  | nil => intro s; exact sp_refl s
  | cons f rest ih =>
    intro s
    unfold spawn_child_tokens
    simp only
    have hstep1 : step_preserves s
        { inst := s.inst.add_token
            { id := s.next_token_id, current_element_id := gid, state := .ACTIVE
              data := parent.data, parent_token_id := some parent.id }
          next_token_id := s.next_token_id + 1 } := by
      refine ⟨Nat.le_succ _, ?_, ?_, ?_, ?_⟩
      · intro hF kv hkv
        replace hkv : kv ∈ dictSet s.inst.tokens s.next_token_id
            { id := s.next_token_id, current_element_id := gid, state := .ACTIVE
              data := parent.data, parent_token_id := some parent.id } := hkv
        rw [dictSet_append_fresh _ (fun kv2 hkv2 => Nat.ne_of_lt (hF kv2 hkv2))] at hkv
        show kv.1 < s.next_token_id + 1
        rcases List.mem_append.mp hkv with hold | hnew
        · exact Nat.lt_succ_of_lt (hF kv hold)
        · obtain rfl := List.mem_singleton.mp hnew
          omega
      · intro hK kv hkv
        replace hkv : kv ∈ dictSet s.inst.tokens s.next_token_id
            { id := s.next_token_id, current_element_id := gid, state := .ACTIVE
              data := parent.data, parent_token_id := some parent.id } := hkv
        unfold dictSet at hkv
        by_cases hc : s.inst.tokens.any (fun q => q.1 = s.next_token_id)
        · rw [if_pos hc] at hkv
          obtain ⟨kv0, hkv0, heq⟩ := List.mem_map.mp hkv
          by_cases hc0 : kv0.1 = s.next_token_id
          · rw [if_pos hc0] at heq
            rw [← heq]
          · rw [if_neg hc0] at heq
            rw [← heq]
            exact hK kv0 hkv0
        · rw [if_neg hc] at hkv
          rcases List.mem_append.mp hkv with hold | hnew
          · exact hK kv hold
          · obtain rfl := List.mem_singleton.mp hnew
            rfl
      · intro hN
        show ((dictSet s.inst.tokens s.next_token_id _).map Prod.fst).Nodup
        unfold dictSet
        by_cases hc : s.inst.tokens.any (fun q => q.1 = s.next_token_id)
        · rw [if_pos hc]
          have hkeys : (List.map Prod.fst (s.inst.tokens.map
              (fun q => if q.1 = s.next_token_id
                then (s.next_token_id,
                  { id := s.next_token_id, current_element_id := gid, state := .ACTIVE
                    data := parent.data, parent_token_id := some parent.id, error := none })
                else q))) = s.inst.tokens.map Prod.fst := by
            simp only [List.map_map]
            apply List.map_congr_left
            intro kv _
            by_cases hq : kv.1 = s.next_token_id <;> simp [hq]
          rw [hkeys]
          exact hN
        · rw [if_neg hc]
          rw [List.map_append]
          rw [List.nodup_append]
          refine ⟨hN, by simp, ?_⟩
          intro a ha hb
          simp only [List.map_cons, List.map_nil, List.mem_singleton] at hb
          subst hb
          simp only [List.any_eq_true, decide_eq_true_eq] at hc
          push_neg at hc
          obtain ⟨kv, hkv, hfst⟩ := List.mem_map.mp ha
          exact hc kv hkv hfst
      · intro hF u hu
        show u ∈ (dictSet s.inst.tokens s.next_token_id _).map Prod.fst
        rw [dictSet_append_fresh _ (fun kv2 hkv2 => Nat.ne_of_lt (hF kv2 hkv2))]
        rw [List.map_append]
        exact List.mem_append.mpr (Or.inl hu)
    rcases hm : move_token p
        { inst := s.inst.add_token
            { id := s.next_token_id, current_element_id := gid, state := .ACTIVE
              data := parent.data, parent_token_id := some parent.id }
          next_token_id := s.next_token_id + 1 }
        s.next_token_id f with ⟨s2, err⟩
    have hs2 : s2 = (move_token p
        { inst := s.inst.add_token
            { id := s.next_token_id, current_element_id := gid, state := .ACTIVE
              data := parent.data, parent_token_id := some parent.id }
          next_token_id := s.next_token_id + 1 }
        s.next_token_id f).1 := by rw [hm]
    have hstep2 : step_preserves s s2 := by
      rw [hs2]
      exact sp_trans hstep1 (sp_move_token _ _ _ _)
    rcases err with _ | e
    · simp only
      exact sp_trans hstep2 (ih s2)
    · simp only
      exact hstep2

theorem join_fold_keys (tokId : Nat) (L : List Token) (acc : List (String × Val))
    (s : EngineState) :
    (L.foldl (join_fold_step tokId) (acc, s)).2.inst.tokens.map Prod.fst
      = s.inst.tokens.map Prod.fst := by
  induction L generalizing acc s with
  | nil => rfl
  | cons t L ih =>
    simp only [List.foldl_cons, join_fold_step]
    by_cases h : t.id = tokId
    · simp [h, ih]
    · simp only [ne_eq, h, not_false_iff, if_true]
      rw [ih]
      exact keys_upd_token _ _ _

theorem join_fold_keyed (tokId : Nat) (L : List Token) (acc : List (String × Val))
    (s : EngineState) (hK : TokensKeyed s) :
    TokensKeyed (L.foldl (join_fold_step tokId) (acc, s)).2 := by
  induction L generalizing acc s with
  | nil => exact hK
  | cons t L ih =>
    simp only [List.foldl_cons, join_fold_step]
    by_cases h : t.id = tokId
    · simp only [ne_eq, h, not_true_eq_false, if_neg, ite_false]
      exact ih _ _ hK
    · simp only [ne_eq, h, not_false_iff, if_true]
      exact ih _ _ (keyed_upd_token hK t.id (fun _ => rfl))

theorem sp_join_fold (tokId : Nat) (L : List Token) (acc : List (String × Val))
    (s : EngineState) : step_preserves s (L.foldl (join_fold_step tokId) (acc, s)).2 :=
  sp_of_keys_next (join_fold_keys tokId L acc s) (join_fold_next tokId L acc s)
    (fun h => join_fold_keyed tokId L acc s h)

theorem sp_execute_gateway_join (p : BPMNProcess) (s : EngineState) (tok : Token)
    (gw : BPMNElement) : step_preserves s (execute_gateway_join p s tok gw).1 := by
  unfold execute_gateway_join
  by_cases hlt : (s.inst.get_tokens_at_element gw.id).length
      < (p.get_incoming_flows gw.id).length
  · rw [if_pos hlt]
    exact sp_set_token_state s tok.id .WAITING
  · rw [if_neg hlt]
    simp only
    exact sp_trans (sp_trans (sp_trans
      (sp_join_fold tok.id (s.inst.get_tokens_at_element gw.id) [] s)
      (sp_upd_token _ tok.id
        (fun t => { t with data := (List.foldl (join_fold_step tok.id) ([], s)
          (s.inst.get_tokens_at_element gw.id)).1 })
        (fun _ => rfl)))
      (sp_set_token_state _ tok.id .ACTIVE))
      (sp_advance_or_complete p _ tok.id gw.id)

theorem sp_execute_end_event (s : EngineState) (tid : Nat) (el : BPMNElement) :
    step_preserves s (execute_end_event s tid el).1 := by
  unfold execute_end_event
  exact sp_trans (sp_set_token_state s tid .COMPLETED) (sp_set_element_state _ el.id _)

theorem sp_execute_service_task (env : Env) (p : BPMNProcess) (s : EngineState)
    (tok : Token) (el : BPMNElement) :
    step_preserves s (execute_service_task env p s tok el).1 := by
  unfold execute_service_task
  rcases el.variant with _ | task | _ | _ | _ | _ | _ | _ <;> try exact sp_refl s
  simp only
  have h1 := sp_set_element_state s el.id "running"
  rcases env.render_template task.task_template
      (dictUpdate (set_element_state s el.id "running").inst.vars tok.data) with e | r
  · exact h1
  · simp only
    rcases env.create_terminal task.agent_profile task.provider
        (set_element_state s el.id "running").inst.session_name with e | t
    · exact h1
    · simp only
      have h2 := sp_trans h1 (sp_set_terminal_mapping _ el.id t.id)
      by_cases hw : task.wait_for_completion = true
      · rw [if_pos hw]
        rcases wait_for_terminal_completion env t.id task.timeout with e | out
        · exact h2
        · simp only
          exact sp_trans (sp_trans (sp_trans h2
            (sp_upd_token _ tok.id
              (fun tk => { tk with data := dictSet tk.data "output" (.vStr out) })
              (fun _ => rfl)))
            (sp_set_element_state _ el.id "completed"))
            (sp_advance_or_complete p _ tok.id el.id)
      · rw [if_neg hw]
        exact sp_trans (sp_trans (sp_trans h2
          (sp_upd_token _ tok.id
            (fun tk => { tk with data := dictSet tk.data "terminal_id" (.vStr t.id) })
            (fun _ => rfl)))
          (sp_set_element_state _ el.id "spawned"))
          (sp_advance_or_complete p _ tok.id el.id)

theorem sp_execute_script_task (env : Env) (p : BPMNProcess) (s : EngineState)
    (tok : Token) (el : BPMNElement) :
    step_preserves s (execute_script_task env p s tok el).1 := by
  unfold execute_script_task
  rcases el.variant with _ | _ | task | _ | _ | _ | _ | _ <;> try exact sp_refl s
  simp only
  have h1 := sp_set_element_state s el.id "running"
  rcases env.evaluate task.script
      (dictUpdate (set_element_state s el.id "running").inst.vars tok.data) with e | r
  · exact h1
  · simp only
    exact sp_trans (sp_trans (sp_trans h1
      (sp_upd_token _ tok.id
        (fun tk => { tk with data := dictSet tk.data "output" r })
        (fun _ => rfl)))
      (sp_set_element_state _ el.id "completed"))
      (sp_advance_or_complete p _ tok.id el.id)

theorem sp_execute_user_task (s : EngineState) (tok : Token) (el : BPMNElement) :
    step_preserves s (execute_user_task s tok el).1 := by
  unfold execute_user_task
  rcases el.variant with _ | _ | _ | task | _ | _ | _ | _ <;> try exact sp_refl s
  simp only
  exact sp_trans (sp_set_token_state s tok.id .WAITING) (sp_set_element_state _ el.id _)

theorem sp_execute_xor_split (env : Env) (p : BPMNProcess) (s : EngineState)
    (tok : Token) (gw : BPMNElement) (g : GatewayData) :
    step_preserves s (execute_xor_split env p s tok gw g).1 := by
  unfold execute_xor_split
  rcases p.get_outgoing_flows gw.id with _ | ⟨f0, rest⟩
  · exact sp_set_token_state s tok.id .COMPLETED
  · simp only
    rcases select_xor_flow env (dictUpdate s.inst.vars tok.data) (f0 :: rest) with e | sel
    · exact sp_refl s
    · simp only
      rcases sel with _ | f
      · rcases g.default_flow with _ | df
        · exact sp_move_token p s tok.id f0
        · simp only
          by_cases hdf : df = ""
          · rw [if_pos hdf]
            exact sp_move_token p s tok.id f0
          · rw [if_neg hdf]
            rcases p.get_sequence_flow df with _ | fd
            · exact sp_move_token p s tok.id f0
            · exact sp_move_token p s tok.id fd
      · exact sp_move_token p s tok.id f

theorem sp_execute_and_split (p : BPMNProcess) (s : EngineState) (tok : Token)
    (gw : BPMNElement) : step_preserves s (execute_and_split p s tok gw).1 := by
  unfold execute_and_split
  rcases p.get_outgoing_flows gw.id with _ | ⟨f0, rest⟩
  · exact sp_set_token_state s tok.id .COMPLETED
  · simp only
    exact sp_trans (sp_set_token_state s tok.id .COMPLETED) (sp_spawn p gw.id tok _ _)

theorem sp_execute_or_split (env : Env) (p : BPMNProcess) (s : EngineState)
    (tok : Token) (gw : BPMNElement) (g : GatewayData) :
    step_preserves s (execute_or_split env p s tok gw g).1 := by
  unfold execute_or_split
  rcases p.get_outgoing_flows gw.id with _ | ⟨f0, rest⟩
  · exact sp_set_token_state s tok.id .COMPLETED
  · simp only
    rcases compute_active_flows env (dictUpdate s.inst.vars tok.data)
        g.default_flow (f0 :: rest) with e | active
    · exact sp_refl s
    · simp only
      exact sp_trans (sp_set_token_state s tok.id .COMPLETED) (sp_spawn p gw.id tok _ _)

theorem sp_dispatch_element (env : Env) (p : BPMNProcess) (s : EngineState)
    (tok : Token) (el : BPMNElement) :
    step_preserves s (dispatch_element env p s tok el).1 := by
  unfold dispatch_element
  by_cases h1 : el.type = .endEvent
  · rw [if_pos h1]
    rcases el.variant with _ | _ | _ | _ | _ | _ | _ | _ <;>
      first
        | exact sp_execute_end_event s tok.id el
        | exact sp_refl s
  · rw [if_neg h1]
    by_cases h2 : el.type = .serviceTask
    · rw [if_pos h2]
      exact sp_execute_service_task env p s tok el
    · rw [if_neg h2]
      by_cases h3 : el.type = .scriptTask
      · rw [if_pos h3]
        exact sp_execute_script_task env p s tok el
      · rw [if_neg h3]
        by_cases h4 : el.type = .userTask
        · rw [if_pos h4]
          exact sp_execute_user_task s tok el
        · rw [if_neg h4]
          by_cases h5 : el.type = .exclusiveGateway
          · rw [if_pos h5]
            unfold execute_exclusive_gateway
            rcases el.variant with _ | _ | _ | _ | g | _ | _ | _ <;>
              try exact sp_refl s
            dsimp only
            by_cases hd : g.direction = .Converging
            · rw [if_pos hd]
              exact sp_execute_gateway_join p s tok el
            · rw [if_neg hd]
              exact sp_execute_xor_split env p s tok el g
          · rw [if_neg h5]
            by_cases h6 : el.type = .parallelGateway
            · rw [if_pos h6]
              unfold execute_parallel_gateway
              rcases el.variant with _ | _ | _ | _ | _ | g | _ | _ <;>
                try exact sp_refl s
              dsimp only
              by_cases hd : g.direction = .Converging
              · rw [if_pos hd]
                exact sp_execute_gateway_join p s tok el
              · rw [if_neg hd]
                exact sp_execute_and_split p s tok el
            · rw [if_neg h6]
              by_cases h7 : el.type = .inclusiveGateway
              · rw [if_pos h7]
                unfold execute_inclusive_gateway
                rcases el.variant with _ | _ | _ | _ | _ | _ | g | _ <;>
                  try exact sp_refl s
                dsimp only
                by_cases hd : g.direction = .Converging
                · rw [if_pos hd]
                  exact sp_execute_gateway_join p s tok el
                · rw [if_neg hd]
                  exact sp_execute_or_split env p s tok el g
              · rw [if_neg h7]
                exact sp_advance_or_complete p s tok.id el.id

theorem sp_execute_token (env : Env) (p : BPMNProcess) (s : EngineState) (tid : Nat) :
    step_preserves s (execute_token env p s tid) := by
  unfold execute_token
  rcases find_token s tid with _ | tok
  · exact sp_refl s
  · simp only
    rcases p.get_element tok.current_element_id with _ | el
    · exact sp_upd_token s tid
        (fun tk => { tk with
          state := TokenState.FAILED
          error := some ("Element " ++ tok.current_element_id ++ " not found") })
        (fun _ => rfl)
    · simp only
      rcases hd : dispatch_element env p s tok el with ⟨s1, err⟩
      have hs1 : s1 = (dispatch_element env p s tok el).1 := by rw [hd]
      have hsp1 : step_preserves s s1 := by
        rw [hs1]
        exact sp_dispatch_element env p s tok el
      rcases err with _ | e
      · exact hsp1
      · simp only
        exact sp_trans hsp1 (sp_trans
          (sp_upd_token _ tid
            (fun tk => { tk with state := TokenState.FAILED, error := some e })
            (fun _ => rfl))
          (sp_set_element_state _ el.id "failed"))

theorem execute_and_split_others (p : BPMNProcess) (s : EngineState) (tok : Token)
    (gw : BPMNElement) (hF : TokensFresh s) (u : Nat) (hu : u ≠ tok.id)
    (hun : u < s.next_token_id) :
    find_token (execute_and_split p s tok gw).1 u = find_token s u := by
  unfold execute_and_split
  rcases p.get_outgoing_flows gw.id with _ | ⟨f0, rest⟩
  · simp only
    rw [find_token_set_token_state, if_neg hu]
  · simp only
    rw [spawn_others p gw.id tok (f0 :: rest) (set_token_state s tok.id .COMPLETED)
      (fresh_upd_token hF tok.id _) u hun]
    rw [find_token_set_token_state, if_neg hu]

theorem execute_or_split_others (env : Env) (p : BPMNProcess) (s : EngineState)
    (tok : Token) (gw : BPMNElement) (g : GatewayData) (hF : TokensFresh s) (u : Nat)
    (hu : u ≠ tok.id) (hun : u < s.next_token_id) :
    find_token (execute_or_split env p s tok gw g).1 u = find_token s u := by
  unfold execute_or_split
  rcases p.get_outgoing_flows gw.id with _ | ⟨f0, rest⟩
  · simp only
    rw [find_token_set_token_state, if_neg hu]
  · simp only
    rcases compute_active_flows env (dictUpdate s.inst.vars tok.data)
        g.default_flow (f0 :: rest) with e | active
    · rfl
    · simp only
      rw [spawn_others p gw.id tok _ (set_token_state s tok.id .COMPLETED)
        (fresh_upd_token hF tok.id _) u hun]
      rw [find_token_set_token_state, if_neg hu]

theorem execute_gateway_join_others (p : BPMNProcess) (s : EngineState) (tok : Token)
    (gw : BPMNElement) (u : Nat) (hu : u ≠ tok.id) :
    find_token (execute_gateway_join p s tok gw).1 u = find_token s u
      ∨ find_token (execute_gateway_join p s tok gw).1 u
          = (find_token s u).map (fun t => { t with state := .COMPLETED }) := by
  unfold execute_gateway_join
  by_cases hlt : (s.inst.get_tokens_at_element gw.id).length
      < (p.get_incoming_flows gw.id).length
  · rw [if_pos hlt]
    left
    simp only
    rw [find_token_set_token_state, if_neg hu]
  · rw [if_neg hlt]
    simp only
    have hchain : find_token (advance_or_complete p
        (set_token_state
          (upd_token (List.foldl (join_fold_step tok.id) ([], s)
              (s.inst.get_tokens_at_element gw.id)).2 tok.id
            (fun t => { t with data := (List.foldl (join_fold_step tok.id) ([], s)
              (s.inst.get_tokens_at_element gw.id)).1 }))
          tok.id .ACTIVE)
        tok.id gw.id).1 u
        = find_token (List.foldl (join_fold_step tok.id) ([], s)
            (s.inst.get_tokens_at_element gw.id)).2 u := by
      rw [advance_or_complete_others _ _ _ _ u hu, find_token_set_token_state,
        if_neg hu, find_token_upd_token, if_neg hu]
    rw [hchain]
    by_cases hmem : ∃ t ∈ s.inst.get_tokens_at_element gw.id, t.id = u
    · right
      exact join_fold_find_marked tok.id _ [] s u hu hmem
    · left
      push_neg at hmem
      exact join_fold_find_other tok.id _ [] s u hmem

theorem dispatch_element_others (env : Env) (p : BPMNProcess) (s : EngineState)
    (tok : Token) (el : BPMNElement) (hF : TokensFresh s) (u : Nat) (hu : u ≠ tok.id)
    (hun : u < s.next_token_id) :
    find_token (dispatch_element env p s tok el).1 u = find_token s u
      ∨ find_token (dispatch_element env p s tok el).1 u
          = (find_token s u).map (fun t => { t with state := .COMPLETED }) := by
  unfold dispatch_element
  by_cases h1 : el.type = .endEvent
  · rw [if_pos h1]
    rcases el.variant with _ | _ | _ | _ | _ | _ | _ | _ <;>
      first
        | exact Or.inl (execute_end_event_others s tok.id el u hu)
        | exact Or.inl rfl
  · rw [if_neg h1]
    by_cases h2 : el.type = .serviceTask
    · rw [if_pos h2]
      exact Or.inl (execute_service_task_others env p s tok el u hu)
    · rw [if_neg h2]
      by_cases h3 : el.type = .scriptTask
      · rw [if_pos h3]
        exact Or.inl (execute_script_task_others env p s tok el u hu)
      · rw [if_neg h3]
        by_cases h4 : el.type = .userTask
        · rw [if_pos h4]
          exact Or.inl (execute_user_task_others s tok el u hu)
        · rw [if_neg h4]
          by_cases h5 : el.type = .exclusiveGateway
          · rw [if_pos h5]
            unfold execute_exclusive_gateway
            rcases el.variant with _ | _ | _ | _ | g | _ | _ | _ <;>
              try exact Or.inl rfl
            dsimp only
            by_cases hd : g.direction = .Converging
            · rw [if_pos hd]
              exact execute_gateway_join_others p s tok el u hu
            · rw [if_neg hd]
              exact Or.inl (execute_xor_split_others env p s tok el g u hu)
          · rw [if_neg h5]
            by_cases h6 : el.type = .parallelGateway
            · rw [if_pos h6]
              unfold execute_parallel_gateway
              rcases el.variant with _ | _ | _ | _ | _ | g | _ | _ <;>
                try exact Or.inl rfl
              dsimp only
              by_cases hd : g.direction = .Converging
              · rw [if_pos hd]
                exact execute_gateway_join_others p s tok el u hu
              · rw [if_neg hd]
                exact Or.inl (execute_and_split_others p s tok el hF u hu hun)
            · rw [if_neg h6]
              by_cases h7 : el.type = .inclusiveGateway
              · rw [if_pos h7]
                unfold execute_inclusive_gateway
                rcases el.variant with _ | _ | _ | _ | _ | _ | g | _ <;>
                  try exact Or.inl rfl
                dsimp only
                by_cases hd : g.direction = .Converging
                · rw [if_pos hd]
                  exact execute_gateway_join_others p s tok el u hu
                · rw [if_neg hd]
                  exact Or.inl (execute_or_split_others env p s tok el g hF u hu hun)
              · rw [if_neg h7]
                exact Or.inl (advance_or_complete_others p s tok.id el.id u hu)

theorem execute_token_others (env : Env) (p : BPMNProcess) (s : EngineState) (tid : Nat)
    (hF : TokensFresh s) (hK : TokensKeyed s) (u : Nat) (t0 : Token) (hu : u ≠ tid)
    (h : find_token s u = some t0) :
    find_token (execute_token env p s tid) u = some t0
      ∨ find_token (execute_token env p s tid) u = some { t0 with state := .COMPLETED } := by
  unfold execute_token
  rcases hf : find_token s tid with _ | tok
  · exact Or.inl h
  · simp only
    rcases p.get_element tok.current_element_id with _ | el
    · left
      rw [find_token_upd_token, if_neg hu, h]
    · simp only
      have hutok : u ≠ tok.id := by
        rw [id_of_find hK hf]
        exact hu
      have hun : u < s.next_token_id := hF (u, t0) (mem_entries_of_find h)
      have hdor := dispatch_element_others env p s tok el hF u hutok hun
      rcases hd : dispatch_element env p s tok el with ⟨s1, err⟩
      rw [hd] at hdor
      simp only at hdor
      rcases err with _ | e
      · simp only
        rcases hdor with hl | hr
        · exact Or.inl (by rw [hl, h])
        · exact Or.inr (by rw [hr, h]; rfl)
      · simp only
        rcases hdor with hl | hr
        · left
          rw [find_token_set_element_state, find_token_upd_token, if_neg hu, hl, h]
        · right
          rw [find_token_set_element_state, find_token_upd_token, if_neg hu, hr, h]
          rfl

/-! Pass-level facts. -/

theorem not_mem_active_ids {s : EngineState} (hK : TokensKeyed s) (hN : TokensNodup s)
    {u : Nat} {t0 : Token} (h : find_token s u = some t0) (hna : ¬t0.state = .ACTIVE) :
    u ∉ active_token_ids s := by
  intro hmem
  unfold active_token_ids ProcessInstance.get_active_tokens at hmem
  obtain ⟨t, htmem, hid⟩ := List.mem_map.mp hmem
  obtain ⟨htv, hst⟩ := List.mem_filter.mp htmem
  have hft := find_token_of_mem_values hK hN htv
  rw [hid, h] at hft
  obtain rfl := Option.some.inj hft
  exact hna (by simpa using hst)

theorem sp_fold (env : Env) (p : BPMNProcess) :
    ∀ (ids : List Nat) (s : EngineState),
      step_preserves s (ids.foldl (execute_token env p) s) := by
  intro ids
  induction ids with
  | nil => intro s; exact sp_refl s
  | cons i rest ih =>
    intro s
    rw [List.foldl_cons]
    exact sp_trans (sp_execute_token env p s i) (ih _)

theorem run_pass_fold_others (env : Env) (p : BPMNProcess) :
    ∀ (ids : List Nat) (s : EngineState),
      TokensFresh s → TokensKeyed s → TokensNodup s →
      ∀ u t0, u ∉ ids → find_token s u = some t0 →
        find_token (ids.foldl (execute_token env p) s) u = some t0
          ∨ find_token (ids.foldl (execute_token env p) s) u
              = some { t0 with state := .COMPLETED } := by
  intro ids
  induction ids with
  | nil => intro s _ _ _ u t0 _ h; exact Or.inl h
  | cons i rest ih =>
    intro s hF hK hN u t0 hmem h
    rw [List.foldl_cons]
    have hui : u ≠ i := fun hh => hmem (hh ▸ List.mem_cons_self i rest)
    have hurest : u ∉ rest := fun hh => hmem (List.mem_cons_of_mem i hh)
    obtain ⟨-, hF1, hK1, hN1, -⟩ := sp_execute_token env p s i
    rcases execute_token_others env p s i hF hK u t0 hui h with h1 | h1
    · exact ih _ (hF1 hF) (hK1 hK) (hN1 hN) u t0 hurest h1
    · rcases ih _ (hF1 hF) (hK1 hK) (hN1 hN) u _ hurest h1 with h2 | h2
      · exact Or.inr h2
      · exact Or.inr h2

/-- Claim C3, amended: over one pass of the engine's main loop, a token
Active at the start of the pass may end in any state; a Waiting token
stays Waiting or is completed directly by a peer firing the join at its
gateway (never reactivated to Active); a token Completed at the start
of a pass stays Completed; a Failed token stays Failed unless a join
fires at the converging gateway where it rests, in which case it is set
to Completed. -/
theorem C3_token_transitions_amended (env : Env) (p : BPMNProcess) (s : EngineState)
    (hF : TokensFresh s) (hK : TokensKeyed s) (hN : TokensNodup s)
    (u : Nat) (t0 : Token) (h : find_token s u = some t0) :
    ∃ t1, find_token (run_pass env p s) u = some t1
      ∧ pass_state_rel t0.state t1.state := by
  unfold run_pass
  by_cases hact : t0.state = .ACTIVE
  · obtain ⟨-, -, -, -, hpres⟩ := sp_fold env p
      ((s.inst.get_active_tokens).map (fun t => t.id)) s
    have hmem : u ∈ s.inst.tokens.map Prod.fst := by
      rw [← dictGet_isSome_iff_mem_keys]
      show (find_token s u).isSome = true
      rw [h]
      rfl
    have hmem2 := hpres hF u hmem
    rw [← dictGet_isSome_iff_mem_keys] at hmem2
    rcases h2 : find_token (((s.inst.get_active_tokens).map
        (fun t => t.id)).foldl (execute_token env p) s) u with _ | t1
    · exfalso
      have : (find_token (((s.inst.get_active_tokens).map
          (fun t => t.id)).foldl (execute_token env p) s) u).isSome = true := hmem2
      rw [h2] at this
      simp at this
    · refine ⟨t1, h2, ?_⟩
      rw [hact]
      trivial
  · have hnm : u ∉ active_token_ids s := not_mem_active_ids hK hN h hact
    unfold active_token_ids at hnm
    rcases run_pass_fold_others env p _ s hF hK hN u t0 hnm h with h1 | h1
    · refine ⟨t0, h1, ?_⟩
      rcases hst : t0.state with _ | _ | _ | _ <;> simp [pass_state_rel, hst] at hact ⊢
    · refine ⟨{ t0 with state := .COMPLETED }, h1, ?_⟩
      rcases hst : t0.state with _ | _ | _ | _ <;> simp [pass_state_rel, hst] at hact ⊢

/-- Counterexample to claim C3 as stated: a single engine step (the
peer token firing the join) moves a Waiting token directly to
Completed, which the claim says never happens (it also shows Waiting
does not return to Active when the barrier is satisfied — the peer is
completed instead). -/
theorem C3_counterexample :
    (find_token fixJoinStateC3 0).map (fun t => t.state) = some TokenState.WAITING
      ∧ (find_token (execute_token fixEnv fixJoinProcess fixJoinStateC3 1) 0).map
          (fun t => t.state) = some TokenState.COMPLETED := by
  constructor
  · decide
  · decide

/-- Witness for the amended C3 theorem, applied to the concrete
join state: the Waiting token 0 ends the pass in a state allowed by
the pass relation. -/
theorem C3_token_transitions_amended_witness :
    ∃ t1, find_token (run_pass fixEnv fixJoinProcess fixJoinStateC3) 0 = some t1
      ∧ pass_state_rel TokenState.WAITING t1.state := by
  obtain ⟨t1, hf, hrel⟩ := C3_token_transitions_amended fixEnv fixJoinProcess fixJoinStateC3
    (by unfold TokensFresh; decide) (by unfold TokensKeyed; decide)
    (by unfold TokensNodup; decide)
    0 { id := 0, current_element_id := "g", state := .WAITING } (by rfl)
  exact ⟨t1, hf, hrel⟩

/-! No engine-internal raise can occur on moves when all flow targets
resolve (the situation `_validate_process` guarantees). -/

theorem resolve_outgoing {p : BPMNProcess} (hR : FlowTargetsResolve p) {eid : String}
    {f : SequenceFlow} (hf : f ∈ p.get_outgoing_flows eid) :
    (p.get_element f.target_ref).isSome = true := by
  unfold BPMNProcess.get_outgoing_flows at hf
  exact hR f (List.mem_of_mem_filter hf)

theorem resolve_get_flow {p : BPMNProcess} (hR : FlowTargetsResolve p) {df : String}
    {fd : SequenceFlow} (h : p.get_sequence_flow df = some fd) :
    (p.get_element fd.target_ref).isSome = true := by
  have : fd ∈ dictValues p.sequence_flows :=
    List.mem_map.mpr ⟨(df, fd), mem_entries_of_find h, rfl⟩
  exact hR fd this

theorem move_token_no_error {p : BPMNProcess} (s : EngineState) (tid : Nat)
    {f : SequenceFlow} (h : (p.get_element f.target_ref).isSome = true) :
    (move_token p s tid f).2 = none := by
  unfold move_token
  rcases ho : p.get_element f.target_ref with _ | tgt
  · rw [ho] at h; simp at h
  · rfl

theorem advance_no_error {p : BPMNProcess} (hR : FlowTargetsResolve p) (s : EngineState)
    (tid : Nat) (eid : String) : (advance_or_complete p s tid eid).2 = none := by
  unfold advance_or_complete
  rcases ho : p.get_outgoing_flows eid with _ | ⟨f, rest⟩
  · rfl
  · have hf : f ∈ p.get_outgoing_flows eid := by
      rw [ho]; exact List.mem_cons_self f rest
    exact move_token_no_error s tid (resolve_outgoing hR hf)

theorem spawn_no_error {p : BPMNProcess} (gid : String) (parent : Token) :
    ∀ (flows : List SequenceFlow) (s : EngineState),
      (∀ f ∈ flows, (p.get_element f.target_ref).isSome = true) →
      (spawn_child_tokens p s gid parent flows).2 = none := by
  intro flows
  induction flows with
  | nil => intro s _; rfl
  | cons f rest ih =>
    intro s hres
    unfold spawn_child_tokens
    simp only
    have hmn := move_token_no_error
      { inst := s.inst.add_token
          { id := s.next_token_id, current_element_id := gid, state := .ACTIVE
            data := parent.data, parent_token_id := some parent.id }
        next_token_id := s.next_token_id + 1 }
      s.next_token_id (hres f (List.mem_cons_self f rest))
    rcases hm : move_token p
        { inst := s.inst.add_token
            { id := s.next_token_id, current_element_id := gid, state := .ACTIVE
              data := parent.data, parent_token_id := some parent.id }
          next_token_id := s.next_token_id + 1 }
        s.next_token_id f with ⟨s2, err⟩
    rw [hm] at hmn
    simp only at hmn
    subst hmn
    simp only
    exact ih s2 (fun f2 h2 => hres f2 (List.mem_cons_of_mem f h2))

theorem join_no_error {p : BPMNProcess} (hR : FlowTargetsResolve p) (s : EngineState)
    (tok : Token) (gw : BPMNElement) :
    (execute_gateway_join p s tok gw).2 = none := by
  unfold execute_gateway_join
  by_cases hlt : (s.inst.get_tokens_at_element gw.id).length
      < (p.get_incoming_flows gw.id).length
  · rw [if_pos hlt]
  · rw [if_neg hlt]
    simp only
    exact advance_no_error hR _ tok.id gw.id

theorem and_split_no_error {p : BPMNProcess} (hR : FlowTargetsResolve p)
    (s : EngineState) (tok : Token) (gw : BPMNElement) :
    (execute_and_split p s tok gw).2 = none := by
  unfold execute_and_split
  rcases ho : p.get_outgoing_flows gw.id with _ | ⟨f0, rest⟩
  · rfl
  · simp only
    refine spawn_no_error gw.id tok (f0 :: rest) _ ?_
    intro f hf
    exact resolve_outgoing hR (ho ▸ hf)

theorem compute_active_flows_sub {env : Env} {ctx : List (String × Val)}
    {dfl : Option String} :
    ∀ (flows active : List SequenceFlow),
      compute_active_flows env ctx dfl flows = .ok active →
      ∀ f ∈ active, f ∈ flows := by
  intro flows
  induction flows with
  | nil =>
    intro active h f hf
    simp only [compute_active_flows] at h
    cases h
    simp at hf
  | cons g rest ih =>
    intro active h f hf
    simp only [compute_active_flows] at h
    rcases hc : g.condition_expression with _ | c <;> rw [hc] at h <;> simp only at h
    · by_cases hd : dfl = some g.id
      · rw [if_pos hd] at h
        rcases hr : compute_active_flows env ctx dfl rest with e2 | l <;>
          rw [hr] at h <;> simp only at h
        · cases h
        · cases h
          rcases List.mem_cons.mp hf with rfl | hmem
          · exact List.mem_cons_self _ _
          · exact List.mem_cons_of_mem g (ih l hr f hmem)
      · rw [if_neg hd] at h
        exact List.mem_cons_of_mem g (ih active h f hf)
    · by_cases hce : c = ""
      · rw [if_pos hce] at h
        by_cases hd : dfl = some g.id
        · rw [if_pos hd] at h
          rcases hr : compute_active_flows env ctx dfl rest with e2 | l <;>
            rw [hr] at h <;> simp only at h
          · cases h
          · cases h
            rcases List.mem_cons.mp hf with rfl | hmem
            · exact List.mem_cons_self _ _
            · exact List.mem_cons_of_mem g (ih l hr f hmem)
        · rw [if_neg hd] at h
          exact List.mem_cons_of_mem g (ih active h f hf)
      · rw [if_neg hce] at h
        rcases he : env.evaluate c ctx with e2 | v <;> rw [he] at h <;> simp only at h
        · cases h
        · by_cases ht : v.truthy
          · rw [if_pos ht] at h
            rcases hr : compute_active_flows env ctx dfl rest with e3 | l <;>
              rw [hr] at h <;> simp only at h
            · cases h
            · cases h
              rcases List.mem_cons.mp hf with rfl | hmem
              · exact List.mem_cons_self _ _
              · exact List.mem_cons_of_mem g (ih l hr f hmem)
          · rw [if_neg ht] at h
            exact List.mem_cons_of_mem g (ih active h f hf)

theorem or_split_error {env : Env} {p : BPMNProcess} (hR : FlowTargetsResolve p)
    {s : EngineState} {tok : Token} {gw : BPMNElement} {g : GatewayData}
    {s1 : EngineState} {e : String}
    (h : execute_or_split env p s tok gw g = (s1, some e)) : s1 = s := by
  unfold execute_or_split at h
  rcases ho : p.get_outgoing_flows gw.id with _ | ⟨f0, rest⟩
  · rw [ho] at h; simp at h
  · rw [ho] at h
    simp only at h
    rcases hc : compute_active_flows env (dictUpdate s.inst.vars tok.data)
        g.default_flow (f0 :: rest) with e2 | active
    · rw [hc] at h
      simp only at h
      obtain ⟨h1, -⟩ := Prod.mk.injEq .. ▸ h
      exact h1.symm
    · rw [hc] at h
      simp only at h
      exfalso
      have := spawn_no_error gw.id tok
        (if active.isEmpty then f0 :: rest else active)
        (set_token_state s tok.id .COMPLETED)
        (by
          intro f hf
          by_cases he : active.isEmpty
          · rw [if_pos he] at hf
            exact resolve_outgoing hR (ho ▸ hf)
          · rw [if_neg he] at hf
            exact resolve_outgoing hR
              (ho ▸ compute_active_flows_sub (f0 :: rest) active hc f hf))
      rw [h] at this
      simp at this

theorem move_token_ok_shape {p : BPMNProcess} (s : EngineState) (tid : Nat)
    {f : SequenceFlow} (h : (p.get_element f.target_ref).isSome = true) :
    move_token p s tid f = ((move_token p s tid f).1, none) := by
  have h2 := move_token_no_error s tid h
  rcases hm : move_token p s tid f with ⟨s2, err⟩
  rw [hm] at h2
  have h3 : err = none := h2
  subst h3
  rfl

/-- When the dispatch raises, every token other than the stepped one is
untouched in the state the handler hands back (under resolving flow
targets, since a firing join rewrites peers only when its final move
succeeds). -/
theorem dispatch_error_others (env : Env) (p : BPMNProcess) (s : EngineState)
    (tok : Token) (el : BPMNElement) (hR : FlowTargetsResolve p)
    {s1 : EngineState} {e : String}
    (hdisp : dispatch_element env p s tok el = (s1, some e))
    (u : Nat) (hu : u ≠ tok.id) :
    find_token s1 u = find_token s u := by
  unfold dispatch_element at hdisp
  by_cases h1 : el.type = .endEvent
  · rw [if_pos h1] at hdisp
    rcases hv : el.variant with _ | _ | _ | _ | _ | _ | _ | _ <;>
      rw [hv] at hdisp <;>
      injection hdisp with ha hb <;>
      first
        | exact Option.noConfusion hb
        | rw [← ha]
  · rw [if_neg h1] at hdisp
    by_cases h2 : el.type = .serviceTask
    · rw [if_pos h2] at hdisp
      have hx : (execute_service_task env p s tok el).1 = s1 := congrArg Prod.fst hdisp
      rw [← hx]
      exact execute_service_task_others env p s tok el u hu
    · rw [if_neg h2] at hdisp
      by_cases h3 : el.type = .scriptTask
      · rw [if_pos h3] at hdisp
        have hx : (execute_script_task env p s tok el).1 = s1 := congrArg Prod.fst hdisp
        rw [← hx]
        exact execute_script_task_others env p s tok el u hu
      · rw [if_neg h3] at hdisp
        by_cases h4 : el.type = .userTask
        · rw [if_pos h4] at hdisp
          have hx : (execute_user_task s tok el).1 = s1 := congrArg Prod.fst hdisp
          rw [← hx]
          exact execute_user_task_others s tok el u hu
        · rw [if_neg h4] at hdisp
          by_cases h5 : el.type = .exclusiveGateway
          · rw [if_pos h5] at hdisp
            unfold execute_exclusive_gateway at hdisp
            rcases hv : el.variant with _ | _ | _ | _ | g | _ | _ | _ <;>
              rw [hv] at hdisp <;>
              dsimp only at hdisp <;>
              try (injection hdisp with ha hb
                   rw [← ha])
            by_cases hd : g.direction = .Converging
            · rw [if_pos hd] at hdisp
              have hn := join_no_error hR s tok el
              rw [hdisp] at hn
              simp at hn
            · rw [if_neg hd] at hdisp
              have hx : (execute_xor_split env p s tok el g).1 = s1 :=
                congrArg Prod.fst hdisp
              rw [← hx]
              exact execute_xor_split_others env p s tok el g u hu
          · rw [if_neg h5] at hdisp
            by_cases h6 : el.type = .parallelGateway
            · rw [if_pos h6] at hdisp
              unfold execute_parallel_gateway at hdisp
              rcases hv : el.variant with _ | _ | _ | _ | _ | g | _ | _ <;>
                rw [hv] at hdisp <;>
                dsimp only at hdisp <;>
                try (injection hdisp with ha hb
                     rw [← ha])
              by_cases hd : g.direction = .Converging
              · rw [if_pos hd] at hdisp
                have hn := join_no_error hR s tok el
                rw [hdisp] at hn
                simp at hn
              · rw [if_neg hd] at hdisp
                have hn := and_split_no_error hR s tok el
                rw [hdisp] at hn
                simp at hn
            · rw [if_neg h6] at hdisp
              by_cases h7 : el.type = .inclusiveGateway
              · rw [if_pos h7] at hdisp
                unfold execute_inclusive_gateway at hdisp
                rcases hv : el.variant with _ | _ | _ | _ | _ | _ | g | _ <;>
                  rw [hv] at hdisp <;>
                  dsimp only at hdisp <;>
                  try (injection hdisp with ha hb
                       rw [← ha])
                by_cases hd : g.direction = .Converging
                · rw [if_pos hd] at hdisp
                  have hn := join_no_error hR s tok el
                  rw [hdisp] at hn
                  simp at hn
                · rw [if_neg hd] at hdisp
                  rw [or_split_error hR hdisp]
              · rw [if_neg h7] at hdisp
                have hx : (advance_or_complete p s tok.id el.id).1 = s1 :=
                  congrArg Prod.fst hdisp
                rw [← hx]
                exact advance_or_complete_others p s tok.id el.id u hu

/-- C6.  Per-token failure containment: an error raised by the dispatch
is caught at per-token granularity — the stepped token becomes FAILED
with the error text recorded, the element's state is set to "failed",
and every other token is exactly as it was before the step; and the
engine's `execute` returns normally (never propagates a run-time error)
whenever the definition has a start event and resolving flow targets,
since the only raises outside the per-token handler sit in the startup
section. -/
theorem C6_failure_containment :
    (∀ (env : Env) (p : BPMNProcess) (s : EngineState) (tid : Nat) (tok : Token)
        (el : BPMNElement) (s1 : EngineState) (e : String),
      FlowTargetsResolve p → TokensFresh s → TokensKeyed s →
      find_token s tid = some tok →
      p.get_element tok.current_element_id = some el →
      dispatch_element env p s tok el = (s1, some e) →
      execute_token env p s tid
          = set_element_state
              (upd_token s1 tid (fun t => { t with state := .FAILED, error := some e }))
              el.id "failed"
        ∧ (∀ t1, find_token s1 tid = some t1 →
            find_token (execute_token env p s tid) tid
              = some { t1 with state := .FAILED, error := some e })
        ∧ dictGet (execute_token env p s tid).inst.element_states el.id = some "failed"
        ∧ (∀ u, u ≠ tid → find_token (execute_token env p s tid) u = find_token s u))
    ∧
    (∀ (env : Env) (p : BPMNProcess) (sess : String) (fuel : Nat),
      FlowTargetsResolve p → p.get_start_events ≠ [] →
      ∃ s0, engine_execute env p sess fuel = .ok s0) := by
  constructor
  · intro env p s tid tok el s1 e hR hF hK hTok hel hdisp
    have heq : execute_token env p s tid
        = set_element_state
            (upd_token s1 tid (fun t => { t with state := .FAILED, error := some e }))
            el.id "failed" := by
      unfold execute_token
      rw [hTok]
      simp only
      rw [hel]
      simp only
      rw [hdisp]
    refine ⟨heq, ?_, ?_, ?_⟩
    · intro t1 ht1
      rw [heq, find_token_set_element_state, find_token_upd_token, if_pos rfl, ht1]
      rfl
    · rw [heq]
      show dictGet (dictSet s1.inst.element_states el.id "failed") el.id = some "failed"
      rw [dictGet_dictSet, if_pos rfl]
    · intro u hu
      have hutok2 : u ≠ tok.id := by
        rw [id_of_find hK hTok]
        exact hu
      rw [heq, find_token_set_element_state, find_token_upd_token, if_neg hu]
      exact dispatch_error_others env p s tok el hR hdisp u hutok2
  · intro env p sess fuel hR hstart
    unfold engine_execute
    rcases hs : p.get_start_events with _ | ⟨se, rest⟩
    · exact absurd hs hstart
    · unfold execute_start
      rw [hs]
      dsimp only
      rcases ho : p.get_outgoing_flows se.id with _ | ⟨f, frest⟩
      · exact ⟨_, rfl⟩
      · dsimp only
        have hf : f ∈ p.get_outgoing_flows se.id := by
          rw [ho]
          exact List.mem_cons_self f frest
        rw [move_token_ok_shape _ _ (resolve_outgoing hR hf)]
        exact ⟨_, rfl⟩

theorem C6_failure_containment_witness :
    find_token (execute_token fixEnvErr fixFailProcess fixFailState 0) 0
        = some { id := 0, current_element_id := "sc", state := .FAILED
                 error := some "boom" }
      ∧ find_token (execute_token fixEnvErr fixFailProcess fixFailState 0) 1
          = find_token fixFailState 1
      ∧ dictGet (execute_token fixEnvErr fixFailProcess fixFailState 0).inst.element_states
          "sc" = some "failed"
      ∧ ∃ s0, engine_execute fixEnvErr fixFailProcess "n" 1 = .ok s0 := by
  obtain ⟨h1, h2⟩ := C6_failure_containment
  have ha := h1 fixEnvErr fixFailProcess fixFailState 0
    { id := 0, current_element_id := "sc" }
    { id := "sc", type := .scriptTask, variant := .scriptTask { script := "x" } }
    (set_element_state fixFailState "sc" "running") "boom"
    (by unfold FlowTargetsResolve; decide)
    (by unfold TokensFresh; decide)
    (by unfold TokensKeyed; decide)
    (by rfl) (by rfl) (by rfl)
  refine ⟨?_, ha.2.2.2 1 (by decide), ha.2.2.1,
    h2 fixEnvErr fixFailProcess "n" 1 (by unfold FlowTargetsResolve; decide) (by decide)⟩
  exact ha.2.1 { id := 0, current_element_id := "sc" } (by rfl)

/-! Claim C8: the main loop of `execute` on a cyclic definition. -/

theorem run_loop_cyc (n : Nat) :
    (run_loop fixCycEnv fixCycProcess n fixCycS0 = fixCycS0
      ∨ run_loop fixCycEnv fixCycProcess n fixCycS0 = fixCycS1)
    ∧ (run_loop fixCycEnv fixCycProcess n fixCycS1 = fixCycS0
      ∨ run_loop fixCycEnv fixCycProcess n fixCycS1 = fixCycS1) := by
  induction n with
  | zero => exact ⟨Or.inl rfl, Or.inr rfl⟩
  | succ k ih =>
    constructor
    · show (if fixCycS0.inst.get_active_tokens = [] then fixCycS0
          else run_loop fixCycEnv fixCycProcess k
            (run_pass fixCycEnv fixCycProcess fixCycS0)) = fixCycS0 ∨ _
      rw [if_neg (by decide),
        show run_pass fixCycEnv fixCycProcess fixCycS0 = fixCycS1 from by decide]
      exact ih.2
    · show (if fixCycS1.inst.get_active_tokens = [] then fixCycS1
          else run_loop fixCycEnv fixCycProcess k
            (run_pass fixCycEnv fixCycProcess fixCycS1)) = fixCycS0 ∨ _
      rw [if_neg (by decide),
        show run_pass fixCycEnv fixCycProcess fixCycS1 = fixCycS0 from by decide]
      exact ih.1

/-- C8, counterexample: `fixCycProcess` has exactly one StartEvent and
an EndEvent reachable along a path, no ServiceTask at all, yet after
the startup section the main loop cycles between two states that both
hold one Active token — `execute` never terminates on it. -/
theorem C8_counterexample :
    fixCycProcess.get_start_events.length = 1
    ∧ EndReachable fixCycProcess
    ∧ execute_start fixCycProcess "n" = .ok fixCycS0
    ∧ run_pass fixCycEnv fixCycProcess fixCycS0 = fixCycS1
    ∧ run_pass fixCycEnv fixCycProcess fixCycS1 = fixCycS0
    ∧ ∀ n, ((run_loop fixCycEnv fixCycProcess n fixCycS0).inst.get_active_tokens).length
        = 1 := by
  refine ⟨by decide, ?_, by rfl, by decide, by decide, ?_⟩
  · refine ⟨{ id := "s0", type := .startEvent, variant := .event }, by decide,
      { id := "e", type := .endEvent, variant := .event }, by decide, ?_⟩
    show Reaches fixCycProcess "s0" "e"
    exact Reaches.step { id := "f0", source_ref := "s0", target_ref := "m" }
      (by decide) rfl rfl
      (Reaches.step { id := "f1", source_ref := "m", target_ref := "g" }
        (by decide) rfl rfl
        (Reaches.step { id := "f3", source_ref := "g", target_ref := "e" }
          (by decide) rfl rfl (Reaches.refl "e")))
  · intro n
    rcases (run_loop_cyc n).1 with h | h <;> rw [h] <;> decide

/-! The termination measure: weights. -/

theorem token_weight_congr (C : Nat) (depth : String → Nat) (R : List Nat) (k : Nat)
    {t t' : Token} (hs : t'.state = t.state)
    (hp : t'.current_element_id = t.current_element_id) :
    token_weight C depth R (k, t') = token_weight C depth R (k, t) := by
  unfold token_weight
  rw [hs, hp]

theorem token_weight_le (C : Nat) (depth : String → Nat) (R : List Nat) (k : Nat)
    (t : Token) : token_weight C depth R (k, t) ≤ C ^ depth t.current_element_id := by
  unfold token_weight
  by_cases h : t.state = .ACTIVE ∨ k ∈ R
  · rw [if_pos h]
  · rw [if_neg h]
    exact Nat.zero_le _

theorem token_weight_active (C : Nat) (depth : String → Nat) (R : List Nat) (k : Nat)
    {t : Token} (hs : t.state = .ACTIVE) :
    token_weight C depth R (k, t) = C ^ depth t.current_element_id := by
  unfold token_weight
  rw [if_pos (Or.inl hs)]

theorem token_weight_zero (C : Nat) (depth : String → Nat) (R : List Nat) (k : Nat)
    {t : Token} (hs : ¬t.state = .ACTIVE) (hk : k ∉ R) :
    token_weight C depth R (k, t) = 0 := by
  unfold token_weight
  rw [if_neg]
  intro h
  rcases h with h | h
  · exact hs h
  · exact hk h

theorem token_weight_mem (C : Nat) (depth : String → Nat) (R : List Nat) (k : Nat)
    (t : Token) (hk : k ∈ R) :
    token_weight C depth R (k, t) = C ^ depth t.current_element_id := by
  unfold token_weight
  rw [if_pos (Or.inr hk)]

theorem token_weight_cons_ne (C : Nat) (depth : String → Nat) (i : Nat) (T : List Nat)
    (k : Nat) (t : Token) (hk : k ≠ i) :
    token_weight C depth (i :: T) (k, t) = token_weight C depth T (k, t) := by
  unfold token_weight
  by_cases h1 : t.state = .ACTIVE
  · rw [if_pos (Or.inl h1), if_pos (Or.inl h1)]
  · by_cases h2 : k ∈ T
    · rw [if_pos (Or.inr (List.mem_cons_of_mem i h2)), if_pos (Or.inr h2)]
    · have hA : ¬((k, t).2.state = .ACTIVE ∨ (k, t).1 ∈ i :: T) := by
        rintro (h | h)
        · exact h1 h
        · rcases List.mem_cons.mp h with h3 | h3
          · exact hk h3
          · exact h2 h3
      have hB : ¬((k, t).2.state = .ACTIVE ∨ (k, t).1 ∈ T) := by
        rintro (h | h)
        · exact h1 h
        · exact h2 h
      rw [if_neg hA, if_neg hB]

/-! The termination measure: sums over the token table. -/

theorem map_upd_not_mem {m : List (Nat × Token)} {k : Nat} (f : Token → Token)
    (h : ∀ q ∈ m, (q : Nat × Token).1 ≠ k) :
    m.map (fun q => if q.1 = k then (q.1, f q.2) else q) = m := by
  induction m with
  | nil => rfl
  | cons a rest ih =>
    simp only [List.map_cons]
    rw [if_neg (h a (List.mem_cons_self a rest)),
      ih (fun q hq => h q (List.mem_cons_of_mem a hq))]

theorem sum_map_upd (g : Nat × Token → Nat) (f : Token → Token) :
    ∀ (m : List (Nat × Token)) (k : Nat) (t0 : Token),
      (m.map Prod.fst).Nodup → dictGet m k = some t0 →
      ((m.map (fun q => if q.1 = k then (q.1, f q.2) else q)).map g).sum + g (k, t0)
        = (m.map g).sum + g (k, f t0) := by
  intro m
  induction m with
  | nil =>
    intro k t0 _ h
    rw [dictGet_nil] at h
    cases h
  | cons a rest ih =>
    intro k t0 hnd hget
    obtain ⟨ha, hb⟩ := a
    rw [dictGet_cons] at hget
    simp only [List.map_cons, List.nodup_cons] at hnd ⊢
    by_cases h : ha = k
    · subst h
      rw [if_pos rfl] at hget ⊢
      obtain rfl := Option.some.inj hget
      have hrest : ∀ q ∈ rest, (q : Nat × Token).1 ≠ ha := by
        intro q hq he
        exact hnd.1 (he ▸ List.mem_map_of_mem Prod.fst hq)
      rw [map_upd_not_mem f hrest]
      simp only [List.sum_cons]
      omega
    · rw [if_neg h] at hget ⊢
      simp only [List.sum_cons]
      have := ih k t0 hnd.2 hget
      omega

theorem phi_upd_token (C : Nat) (depth : String → Nat) (R : List Nat)
    {s : EngineState} {tid : Nat} {t0 : Token} (f : Token → Token) (hN : TokensNodup s)
    (h : find_token s tid = some t0) :
    phi C depth R (upd_token s tid f) + token_weight C depth R (tid, t0)
      = phi C depth R s + token_weight C depth R (tid, f t0) :=
  sum_map_upd (token_weight C depth R) f s.inst.tokens tid t0 hN h

theorem phi_set_element_state (C : Nat) (depth : String → Nat) (R : List Nat)
    (s : EngineState) (e v : String) :
    phi C depth R (set_element_state s e v) = phi C depth R s := rfl

theorem phi_set_terminal_mapping (C : Nat) (depth : String → Nat) (R : List Nat)
    (s : EngineState) (e t : String) :
    phi C depth R (set_terminal_mapping s e t) = phi C depth R s := rfl

theorem phi_upd_absent (C : Nat) (depth : String → Nat) (R : List Nat)
    {s : EngineState} {tid : Nat} (f : Token → Token)
    (h : find_token s tid = none) :
    phi C depth R (upd_token s tid f) = phi C depth R s := by
  have hmem : tid ∉ s.inst.tokens.map Prod.fst := by
    intro hmem
    have h2 := (dictGet_isSome_iff_mem_keys s.inst.tokens tid).mpr hmem
    rw [show dictGet s.inst.tokens tid = find_token s tid from rfl, h] at h2
    cases h2
  have hq : ∀ q ∈ s.inst.tokens, (q : Nat × Token).1 ≠ tid := by
    intro q hql he
    exact hmem (he ▸ List.mem_map_of_mem Prod.fst hql)
  show ((s.inst.tokens.map fun q => if q.1 = tid then (q.1, f q.2) else q).map
    (token_weight C depth R)).sum = _
  rw [map_upd_not_mem f hq]
  rfl

theorem phi_upd_data (C : Nat) (depth : String → Nat) (R : List Nat)
    {s : EngineState} {tid : Nat} (f : Token → Token) (hN : TokensNodup s)
    (hpres : ∀ t, (f t).state = t.state ∧ (f t).current_element_id = t.current_element_id) :
    phi C depth R (upd_token s tid f) = phi C depth R s := by
  rcases hfind : find_token s tid with _ | t0
  · exact phi_upd_absent C depth R f hfind
  · have h1 := phi_upd_token C depth R f hN hfind
    have hw : token_weight C depth R (tid, f t0) = token_weight C depth R (tid, t0) :=
      token_weight_congr C depth R tid (hpres t0).1 (hpres t0).2
    omega

theorem phi_set_token_state_le (C : Nat) (depth : String → Nat) (R : List Nat)
    {s : EngineState} (i : Nat) (hN : TokensNodup s) :
    phi C depth R (set_token_state s i .COMPLETED) ≤ phi C depth R s := by
  unfold set_token_state
  rcases hfind : find_token s i with _ | t0
  · exact le_of_eq (phi_upd_absent C depth R _ hfind)
  · have h1 := phi_upd_token C depth R (fun t => { t with state := .COMPLETED }) hN hfind
    simp only at h1
    have hw : token_weight C depth R (i, { t0 with state := .COMPLETED })
        ≤ token_weight C depth R (i, t0) := by
      by_cases hm : i ∈ R
      · rw [token_weight_mem C depth R i _ hm, token_weight_mem C depth R i _ hm]
      · rw [token_weight_zero C depth R i (by simp) hm]
        exact Nat.zero_le _
    omega

theorem phi_append_children (C : Nat) (depth : String → Nat) (R : List Nat)
    (s : EngineState) (next2 : Nat) (L : List (Nat × Token)) :
    phi C depth R
        { inst := { s.inst with tokens := s.inst.tokens ++ L }, next_token_id := next2 }
      = phi C depth R s + (L.map (token_weight C depth R)).sum := by
  unfold phi
  simp [List.map_append, List.sum_append]

theorem spawned_weight_sum (C : Nat) (depth : String → Nat) (R : List Nat)
    (parent : Token) :
    ∀ (flows : List SequenceFlow) (n : Nat),
      ((spawned_children n parent flows).map (token_weight C depth R)).sum
        = (flows.map (fun f => C ^ depth f.target_ref)).sum := by
  intro flows
  induction flows with
  | nil => intro n; rfl
  | cons f rest ih =>
    intro n
    simp only [spawned_children, List.map_cons, List.sum_cons, ih]
    congr 1

theorem pow_sum_bound (C : Nat) (depth : String → Nat) (dg : Nat) (hC1 : 1 ≤ C) :
    ∀ flows : List SequenceFlow,
      (∀ f ∈ flows, depth f.target_ref + 1 ≤ dg) →
      (flows.map (fun f => C ^ depth f.target_ref)).sum * C ≤ flows.length * C ^ dg := by
  intro flows
  induction flows with
  | nil => intro _; simp
  | cons f rest ih =>
    intro h
    simp only [List.map_cons, List.sum_cons, List.length_cons]
    have h1 : C ^ depth f.target_ref * C ≤ C ^ dg := by
      rw [← pow_succ]
      exact Nat.pow_le_pow_right hC1 (h f (List.mem_cons_self f rest))
    have h2 := ih (fun g hg => h g (List.mem_cons_of_mem f hg))
    calc (C ^ depth f.target_ref + (rest.map (fun f => C ^ depth f.target_ref)).sum) * C
        = C ^ depth f.target_ref * C
          + (rest.map (fun f => C ^ depth f.target_ref)).sum * C := by ring
      _ ≤ C ^ dg + rest.length * C ^ dg := Nat.add_le_add h1 h2
      _ = (rest.length + 1) * C ^ dg := by ring

theorem phi_spawn (C : Nat) (depth : String → Nat) (R : List Nat) {p : BPMNProcess}
    (gid : String) (parent : Token) (flows : List SequenceFlow) (s : EngineState)
    (hF : TokensFresh s)
    (hres : ∀ f ∈ flows, ∃ tgt, p.get_element f.target_ref = some tgt
        ∧ tgt.id = f.target_ref) :
    phi C depth R (spawn_child_tokens p s gid parent flows).1
      = phi C depth R s + (flows.map (fun f => C ^ depth f.target_ref)).sum := by
  rw [spawn_child_tokens_spec p gid parent flows s hF hres]
  show phi C depth R
      { inst := { s.inst with
          tokens := s.inst.tokens ++ spawned_children s.next_token_id parent flows }
        next_token_id := s.next_token_id + flows.length } = _
  rw [phi_append_children, spawned_weight_sum]

theorem phi_move (C : Nat) (depth : String → Nat) (R : List Nat) {p : BPMNProcess}
    {s : EngineState} {tid : Nat} {t0 : Token} {f : SequenceFlow} {tgt : BPMNElement}
    (hEK : ElementsKeyed p) (hN : TokensNodup s) (hT : find_token s tid = some t0)
    (hres : p.get_element f.target_ref = some tgt) :
    phi C depth R (move_token p s tid f).1 + token_weight C depth R (tid, t0)
      = phi C depth R s
        + token_weight C depth R (tid, { t0 with current_element_id := f.target_ref }) := by
  have hid : tgt.id = f.target_ref := hEK _ (mem_entries_of_find hres)
  unfold move_token
  rw [hres]
  simp only
  rw [hid]
  have h1 := phi_upd_token C depth R (fun t => { t with current_element_id := tgt.id }) hN hT
  simp only at h1
  rw [hid] at h1
  exact h1

theorem phi_move_flow_lt (C : Nat) (depth : String → Nat) (R : List Nat)
    {p : BPMNProcess} {s : EngineState} {tid : Nat} {t0 : Token} {f : SequenceFlow}
    (eid : String) (hC : 2 ≤ C) (hEK : ElementsKeyed p) (hR : FlowTargetsResolve p)
    (hD : DepthDecreasing p depth) (hN : TokensNodup s)
    (hT : find_token s tid = some t0)
    (hval : f ∈ dictValues p.sequence_flows) (hsrc : f.source_ref = eid) :
    phi C depth R (move_token p s tid f).1 + token_weight C depth R (tid, t0)
      < phi C depth R s + C ^ depth eid := by
  have hdep : depth f.target_ref < depth eid := hsrc ▸ hD f hval
  obtain ⟨tgt, hres⟩ := Option.isSome_iff_exists.mp (hR f hval)
  have h1 := phi_move C depth R hEK hN hT hres
  have h2 : token_weight C depth R (tid, { t0 with current_element_id := f.target_ref })
      ≤ C ^ depth f.target_ref :=
    token_weight_le C depth R tid { t0 with current_element_id := f.target_ref }
  have h3 : C ^ depth f.target_ref < C ^ depth eid :=
    Nat.pow_lt_pow_right (by omega) hdep
  omega

theorem phi_advance (C : Nat) (depth : String → Nat) (R : List Nat) {p : BPMNProcess}
    {s : EngineState} {tid : Nat} {t0 : Token} (eid : String)
    (hC : 2 ≤ C) (hEK : ElementsKeyed p) (hR : FlowTargetsResolve p)
    (hD : DepthDecreasing p depth) (hN : TokensNodup s)
    (hT : find_token s tid = some t0) (hmem : tid ∉ R) :
    phi C depth R (advance_or_complete p s tid eid).1 + token_weight C depth R (tid, t0)
      < phi C depth R s + C ^ depth eid := by
  have hCpos : 0 < C ^ depth eid := Nat.pow_pos (by omega)
  unfold advance_or_complete
  rcases ho : p.get_outgoing_flows eid with _ | ⟨f, rest⟩
  · simp only
    unfold set_token_state
    have h1 := phi_upd_token C depth R (fun t => { t with state := .COMPLETED }) hN hT
    simp only at h1
    have hw0 : token_weight C depth R (tid, { t0 with state := TokenState.COMPLETED }) = 0 :=
      token_weight_zero C depth R tid (fun h => by cases h) hmem
    rw [hw0] at h1
    omega
  · simp only
    have hfmem : f ∈ p.get_outgoing_flows eid := by
      rw [ho]
      exact List.mem_cons_self f rest
    have hval : f ∈ dictValues p.sequence_flows := by
      unfold BPMNProcess.get_outgoing_flows at hfmem
      exact List.mem_of_mem_filter hfmem
    have hsrc : f.source_ref = eid := by
      unfold BPMNProcess.get_outgoing_flows at hfmem
      exact of_decide_eq_true (List.mem_filter.mp hfmem).2
    exact phi_move_flow_lt C depth R eid hC hEK hR hD hN hT hval hsrc

theorem join_fold_phi (C : Nat) (depth : String → Nat) (R : List Nat) (tokId : Nat) :
    ∀ (L : List Token) (acc : List (String × Val)) (s : EngineState), TokensNodup s →
      phi C depth R (L.foldl (join_fold_step tokId) (acc, s)).2 ≤ phi C depth R s := by
  intro L
  induction L with
  | nil => intro acc s _; exact le_refl _
  | cons t L ih =>
    intro acc s hN
    simp only [List.foldl_cons, join_fold_step]
    by_cases h : t.id = tokId
    · simp only [ne_eq, h, not_true_eq_false, if_neg, ite_false]
      exact ih _ _ hN
    · simp only [ne_eq, h, not_false_iff, if_true]
      have hA := ih (dictUpdate acc t.data) (set_token_state s t.id .COMPLETED)
        (nodup_upd_token hN t.id _)
      have hB := phi_set_token_state_le C depth R t.id hN
      exact le_trans hA hB

theorem select_xor_flow_sub {env : Env} {ctx : List (String × Val)} :
    ∀ {flows : List SequenceFlow} {f : SequenceFlow},
      select_xor_flow env ctx flows = .ok (some f) → f ∈ flows := by
  intro flows
  induction flows with
  | nil =>
    intro f h
    simp only [select_xor_flow] at h
    cases h
  | cons g rest ih =>
    intro f h
    simp only [select_xor_flow] at h
    rcases hc : g.condition_expression with _ | c <;> rw [hc] at h <;> simp only at h
    · exact List.mem_cons_of_mem g (ih h)
    · by_cases hce : c = ""
      · rw [if_pos hce] at h
        exact List.mem_cons_of_mem g (ih h)
      · rw [if_neg hce] at h
        rcases he : env.evaluate c ctx with e2 | v <;> rw [he] at h <;> simp only at h
        · cases h
        · by_cases ht : v.truthy
          · rw [if_pos ht] at h
            cases h
            exact List.mem_cons_self _ _
          · rw [if_neg ht] at h
            exact List.mem_cons_of_mem g (ih h)

theorem compute_active_flows_len {env : Env} {ctx : List (String × Val)}
    {dfl : Option String} :
    ∀ {flows active : List SequenceFlow},
      compute_active_flows env ctx dfl flows = .ok active →
      active.length ≤ flows.length := by
  intro flows
  induction flows with
  | nil =>
    intro active h
    simp only [compute_active_flows] at h
    cases h
    exact le_refl _
  | cons g rest ih =>
    intro active h
    simp only [compute_active_flows] at h
    rcases hc : g.condition_expression with _ | c <;> rw [hc] at h <;> simp only at h
    · by_cases hd : dfl = some g.id
      · rw [if_pos hd] at h
        rcases hr : compute_active_flows env ctx dfl rest with e2 | l <;>
          rw [hr] at h <;> simp only at h
        · cases h
        · cases h
          simpa using Nat.add_le_add_right (ih hr) 1
      · rw [if_neg hd] at h
        exact Nat.le_succ_of_le (ih h)
    · by_cases hce : c = ""
      · rw [if_pos hce] at h
        by_cases hd : dfl = some g.id
        · rw [if_pos hd] at h
          rcases hr : compute_active_flows env ctx dfl rest with e2 | l <;>
            rw [hr] at h <;> simp only at h
          · cases h
          · cases h
            simpa using Nat.add_le_add_right (ih hr) 1
        · rw [if_neg hd] at h
          exact Nat.le_succ_of_le (ih h)
      · rw [if_neg hce] at h
        rcases he : env.evaluate c ctx with e2 | v <;> rw [he] at h <;> simp only at h
        · cases h
        · by_cases ht : v.truthy
          · rw [if_pos ht] at h
            rcases hr : compute_active_flows env ctx dfl rest with e3 | l <;>
              rw [hr] at h <;> simp only at h
            · cases h
            · cases h
              simpa using Nat.add_le_add_right (ih hr) 1
          · rw [if_neg ht] at h
            exact Nat.le_succ_of_le (ih h)

/-! `phi_ok_err` combinators, one per result shape of a handler. -/

theorem phi_ok_err_err_state (C : Nat) (depth : String → Nat) (R : List Nat)
    {s s1 : EngineState} (tid : Nat) (t0 : Token) (dbound : Nat) (msg : String)
    (hphi : phi C depth R s1 = phi C depth R s)
    (hf : ∃ t1, find_token s1 tid = some t1 ∧ t1.state = t0.state
        ∧ t1.current_element_id = t0.current_element_id) :
    phi_ok_err C depth R s tid t0 dbound (s1, some msg) := by
  constructor
  · intro s2 h
    exact absurd (congrArg Prod.snd h) (by simp)
  · intro s2 e h
    injection h with h1 h2
    subst h1
    exact ⟨hphi, hf⟩

theorem phi_ok_err_err_self (C : Nat) (depth : String → Nat) (R : List Nat)
    {s : EngineState} {tid : Nat} {t0 : Token} (dbound : Nat) (msg : String)
    (hT : find_token s tid = some t0) :
    phi_ok_err C depth R s tid t0 dbound (s, some msg) :=
  phi_ok_err_err_state C depth R tid t0 dbound msg rfl ⟨t0, hT, rfl, rfl⟩

theorem phi_ok_err_set_state (C : Nat) (depth : String → Nat) (R : List Nat)
    {s : EngineState} {tid : Nat} {t0 : Token} (dbound : Nat) (st : TokenState)
    (hst : st ≠ TokenState.ACTIVE) (hN : TokensNodup s)
    (hT : find_token s tid = some t0) (hmem : tid ∉ R) (hpos : 0 < dbound) :
    phi_ok_err C depth R s tid t0 dbound (set_token_state s tid st, none) := by
  constructor
  · intro s1 h
    obtain rfl : set_token_state s tid st = s1 := congrArg Prod.fst h
    unfold set_token_state
    have h1 := phi_upd_token C depth R (fun t => { t with state := st }) hN hT
    simp only at h1
    have hw0 : token_weight C depth R (tid, { t0 with state := st }) = 0 :=
      token_weight_zero C depth R tid (fun h2 => hst h2) hmem
    rw [hw0] at h1
    omega
  · intro s1 e h
    exact absurd (congrArg Prod.snd h) (by simp)

theorem phi_ok_err_park (C : Nat) (depth : String → Nat) (R : List Nat)
    {s : EngineState} {tid : Nat} {t0 : Token} (dbound : Nat) (st : TokenState)
    (e v : String) (hst : st ≠ TokenState.ACTIVE) (hN : TokensNodup s)
    (hT : find_token s tid = some t0) (hmem : tid ∉ R) (hpos : 0 < dbound) :
    phi_ok_err C depth R s tid t0 dbound
      (set_element_state (set_token_state s tid st) e v, none) := by
  constructor
  · intro s1 h
    obtain rfl : set_element_state (set_token_state s tid st) e v = s1 :=
      congrArg Prod.fst h
    rw [phi_set_element_state]
    exact (phi_ok_err_set_state C depth R dbound st hst hN hT hmem hpos).1
      (set_token_state s tid st) rfl
  · intro s1 e2 h
    exact absurd (congrArg Prod.snd h) (by simp)

theorem phi_ok_err_move (C : Nat) (depth : String → Nat) (R : List Nat)
    {p : BPMNProcess} {s : EngineState} {tid : Nat} {t0 : Token} {f : SequenceFlow}
    (eid : String) (hC2 : 2 ≤ C) (hEK : ElementsKeyed p) (hR : FlowTargetsResolve p)
    (hD : DepthDecreasing p depth) (hN : TokensNodup s)
    (hT : find_token s tid = some t0)
    (hval : f ∈ dictValues p.sequence_flows) (hsrc : f.source_ref = eid) :
    phi_ok_err C depth R s tid t0 (C ^ depth eid) (move_token p s tid f) := by
  constructor
  · intro s1 h
    obtain rfl : (move_token p s tid f).1 = s1 := congrArg Prod.fst h
    exact phi_move_flow_lt C depth R eid hC2 hEK hR hD hN hT hval hsrc
  · intro s1 e h
    have := move_token_no_error s tid (hR f hval)
    rw [h] at this
    cases this

theorem phi_ok_err_advance (C : Nat) (depth : String → Nat) (R : List Nat)
    {p : BPMNProcess} {s : EngineState} {tid : Nat} {t0 : Token} (eid : String)
    (hC2 : 2 ≤ C) (hEK : ElementsKeyed p) (hR : FlowTargetsResolve p)
    (hD : DepthDecreasing p depth) (hN : TokensNodup s)
    (hT : find_token s tid = some t0) (hmem : tid ∉ R) :
    phi_ok_err C depth R s tid t0 (C ^ depth eid) (advance_or_complete p s tid eid) := by
  constructor
  · intro s1 h
    obtain rfl : (advance_or_complete p s tid eid).1 = s1 := congrArg Prod.fst h
    exact phi_advance C depth R eid hC2 hEK hR hD hN hT hmem
  · intro s1 e h
    have := advance_no_error hR s tid eid
    rw [h] at this
    cases this

theorem phi_ok_err_transfer (C : Nat) (depth : String → Nat) (R : List Nat)
    {s s2 : EngineState} {tid : Nat} {t0 t1 : Token} {dbound : Nat}
    {res : EngineState × Option String}
    (hphi : phi C depth R s2 = phi C depth R s)
    (hst : t1.state = t0.state) (hpos : t1.current_element_id = t0.current_element_id)
    (hok : phi_ok_err C depth R s2 tid t1 dbound res) :
    phi_ok_err C depth R s tid t0 dbound res := by
  obtain ⟨ho, he⟩ := hok
  constructor
  · intro s1 h
    have h1 := ho s1 h
    have hw := token_weight_congr C depth R tid hst hpos
    omega
  · intro s1 e h
    obtain ⟨hp, t2, hf, hs2, hp2⟩ := he s1 e h
    exact ⟨hp.trans hphi, t2, hf, hs2.trans hst, hp2.trans hpos⟩

theorem phi_ok_err_split (C : Nat) (depth : String → Nat) (R : List Nat)
    {p : BPMNProcess} {s : EngineState} {tok : Token} (gid : String)
    (flows : List SequenceFlow)
    (hC : p.sequence_flows.length + 2 ≤ C)
    (hEK : ElementsKeyed p) (hR : FlowTargetsResolve p) (hD : DepthDecreasing p depth)
    (hN : TokensNodup s) (hF : TokensFresh s)
    (hT : find_token s tok.id = some tok) (hmem : tok.id ∉ R)
    (hsub : ∀ f ∈ flows, f ∈ p.get_outgoing_flows gid)
    (hlen : flows.length ≤ p.sequence_flows.length) :
    phi_ok_err C depth R s tok.id tok (C ^ depth gid)
      (spawn_child_tokens p (set_token_state s tok.id .COMPLETED) gid tok flows) := by
  have hval : ∀ f ∈ flows, f ∈ dictValues p.sequence_flows := by
    intro f hf
    have h2 := hsub f hf
    unfold BPMNProcess.get_outgoing_flows at h2
    exact List.mem_of_mem_filter h2
  have hsrc : ∀ f ∈ flows, f.source_ref = gid := by
    intro f hf
    have h2 := hsub f hf
    unfold BPMNProcess.get_outgoing_flows at h2
    exact of_decide_eq_true (List.mem_filter.mp h2).2
  have hres : ∀ f ∈ flows, ∃ tgt, p.get_element f.target_ref = some tgt
      ∧ tgt.id = f.target_ref := by
    intro f hf
    obtain ⟨tgt, htgt⟩ := Option.isSome_iff_exists.mp (hR f (hval f hf))
    exact ⟨tgt, htgt, hEK _ (mem_entries_of_find htgt)⟩
  have hdep : ∀ f ∈ flows, depth f.target_ref + 1 ≤ depth gid := by
    intro f hf
    have h2 := hD f (hval f hf)
    rw [hsrc f hf] at h2
    omega
  have hN1 : TokensNodup (set_token_state s tok.id .COMPLETED) :=
    nodup_upd_token hN tok.id _
  have hF1 : TokensFresh (set_token_state s tok.id .COMPLETED) :=
    fresh_upd_token hF tok.id _
  have hphi1 : phi C depth R (set_token_state s tok.id TokenState.COMPLETED)
      + token_weight C depth R (tok.id, tok) = phi C depth R s := by
    show phi C depth R (upd_token s tok.id fun t => { t with state := TokenState.COMPLETED })
        + _ = _
    have h1 := phi_upd_token C depth R (fun t => { t with state := .COMPLETED }) hN hT
    simp only at h1
    have hw0 : token_weight C depth R (tok.id, { tok with state := TokenState.COMPLETED })
        = 0 := token_weight_zero C depth R tok.id (fun h2 => by cases h2) hmem
    rw [hw0] at h1
    omega
  have hspawn : phi C depth R
      (spawn_child_tokens p (set_token_state s tok.id .COMPLETED) gid tok flows).1
      = phi C depth R (set_token_state s tok.id .COMPLETED)
        + (flows.map (fun f => C ^ depth f.target_ref)).sum :=
    phi_spawn C depth R gid tok flows _ hF1 hres
  have hdgpos : 0 < C ^ depth gid := Nat.pow_pos (by omega)
  have hSC := pow_sum_bound C depth (depth gid) (show 1 ≤ C by omega) flows hdep
  have hS : (flows.map (fun f => C ^ depth f.target_ref)).sum < C ^ depth gid := by
    have h1 : (flows.map (fun f => C ^ depth f.target_ref)).sum * C
        < C * C ^ depth gid :=
      lt_of_le_of_lt hSC ((Nat.mul_lt_mul_right hdgpos).mpr (show flows.length < C by omega))
    rw [Nat.mul_comm C (C ^ depth gid)] at h1
    exact Nat.lt_of_mul_lt_mul_right h1
  constructor
  · intro s2 h
    obtain rfl : (spawn_child_tokens p (set_token_state s tok.id .COMPLETED)
        gid tok flows).1 = s2 := congrArg Prod.fst h
    rw [hspawn]
    omega
  · intro s2 e h
    have h2 := spawn_no_error gid tok flows (set_token_state s tok.id .COMPLETED)
      (fun f hf => hR f (hval f hf))
    rw [h] at h2
    cases h2

theorem phi_end_event (C : Nat) (depth : String → Nat) (R : List Nat)
    {s : EngineState} {tid : Nat} {t0 : Token} (el : BPMNElement) (hC2 : 2 ≤ C)
    (hN : TokensNodup s) (hT : find_token s tid = some t0) (hmem : tid ∉ R) :
    phi_ok_err C depth R s tid t0 (C ^ depth el.id) (execute_end_event s tid el) := by
  unfold execute_end_event
  exact phi_ok_err_park C depth R _ .COMPLETED el.id "completed" (by decide) hN hT hmem
    (Nat.pow_pos (by omega))

theorem phi_user (C : Nat) (depth : String → Nat) (R : List Nat)
    {s : EngineState} {tok : Token} (el : BPMNElement) (hC2 : 2 ≤ C)
    (hN : TokensNodup s) (hT : find_token s tok.id = some tok) (hmem : tok.id ∉ R) :
    phi_ok_err C depth R s tok.id tok (C ^ depth el.id) (execute_user_task s tok el) := by
  unfold execute_user_task
  rcases el.variant with _ | _ | _ | _ | _ | _ | _ | _ <;>
    first
      | exact phi_ok_err_park C depth R _ .WAITING el.id "waiting_for_user" (by decide)
          hN hT hmem (Nat.pow_pos (by omega))
      | exact phi_ok_err_err_self C depth R _ _ hT

theorem nodup_tokens_eq {s s2 : EngineState} (hN : TokensNodup s)
    (h : s2.inst.tokens = s.inst.tokens) : TokensNodup s2 := by
  unfold TokensNodup
  rw [h]
  exact hN

theorem phi_script (C : Nat) (depth : String → Nat) (R : List Nat)
    {env : Env} {p : BPMNProcess} {s : EngineState} {tok : Token} (el : BPMNElement)
    (hC2 : 2 ≤ C) (hEK : ElementsKeyed p) (hR : FlowTargetsResolve p)
    (hD : DepthDecreasing p depth) (hN : TokensNodup s)
    (hT : find_token s tok.id = some tok) (hmem : tok.id ∉ R) :
    phi_ok_err C depth R s tok.id tok (C ^ depth el.id)
      (execute_script_task env p s tok el) := by
  unfold execute_script_task
  rcases el.variant with _ | _ | task | _ | _ | _ | _ | _ <;>
    try exact phi_ok_err_err_self C depth R _ _ hT
  simp only
  rcases env.evaluate task.script
      (dictUpdate (set_element_state s el.id "running").inst.vars tok.data) with e | result
  · exact phi_ok_err_err_state C depth R _ _ _ _ rfl ⟨tok, hT, rfl, rfl⟩
  · simp only
    have hT2 : find_token
        (set_element_state
          (upd_token (set_element_state s el.id "running") tok.id
            (fun t => { t with data := dictSet t.data "output" result }))
          el.id "completed") tok.id
        = some { tok with data := dictSet tok.data "output" result } := by
      rw [find_token_set_element_state, find_token_upd_token, if_pos rfl,
        find_token_set_element_state, hT]
      rfl
    have hN2 : TokensNodup
        (set_element_state
          (upd_token (set_element_state s el.id "running") tok.id
            (fun t => { t with data := dictSet t.data "output" result }))
          el.id "completed") := by
      have h8 : TokensNodup (set_element_state s el.id "running") := hN
      exact nodup_upd_token h8 tok.id
        (fun t => { t with data := dictSet t.data "output" result })
    have hadv := phi_ok_err_advance C depth R el.id hC2 hEK hR hD hN2 hT2 hmem
    have hphi : phi C depth R
        (set_element_state
          (upd_token (set_element_state s el.id "running") tok.id
            (fun t => { t with data := dictSet t.data "output" result }))
          el.id "completed") = phi C depth R s := by
      rw [phi_set_element_state]
      have h9 : phi C depth R (upd_token (set_element_state s el.id "running") tok.id
          (fun t => { t with data := dictSet t.data "output" result }))
          = phi C depth R (set_element_state s el.id "running") :=
        phi_upd_data C depth R _ (show TokensNodup (set_element_state s el.id "running")
          from hN) (fun t => ⟨rfl, rfl⟩)
      rw [h9, phi_set_element_state]
    exact phi_ok_err_transfer C depth R hphi rfl rfl hadv

theorem phi_service (C : Nat) (depth : String → Nat) (R : List Nat)
    {env : Env} {p : BPMNProcess} {s : EngineState} {tok : Token} (el : BPMNElement)
    (hC2 : 2 ≤ C) (hEK : ElementsKeyed p) (hR : FlowTargetsResolve p)
    (hD : DepthDecreasing p depth) (hN : TokensNodup s)
    (hT : find_token s tok.id = some tok) (hmem : tok.id ∉ R) :
    phi_ok_err C depth R s tok.id tok (C ^ depth el.id)
      (execute_service_task env p s tok el) := by
  unfold execute_service_task
  rcases el.variant with _ | task | _ | _ | _ | _ | _ | _ <;>
    try exact phi_ok_err_err_self C depth R _ _ hT
  simp only
  rcases env.render_template task.task_template
      (dictUpdate (set_element_state s el.id "running").inst.vars tok.data) with e | r
  · exact phi_ok_err_err_state C depth R _ _ _ _ rfl ⟨tok, hT, rfl, rfl⟩
  · simp only
    rcases env.create_terminal task.agent_profile task.provider
        (set_element_state s el.id "running").inst.session_name with e | terminal
    · exact phi_ok_err_err_state C depth R _ _ _ _ rfl ⟨tok, hT, rfl, rfl⟩
    · simp only
      by_cases hw : task.wait_for_completion
      · rw [if_pos hw]
        rcases wait_for_terminal_completion env terminal.id task.timeout with e | output
        · exact phi_ok_err_err_state C depth R _ _ _ _ rfl ⟨tok, hT, rfl, rfl⟩
        · simp only
          have hT2 : find_token
              (set_element_state
                (upd_token
                  (set_terminal_mapping (set_element_state s el.id "running") el.id
                    terminal.id)
                  tok.id (fun t => { t with data := dictSet t.data "output" (.vStr output) }))
                el.id "completed") tok.id
              = some { tok with data := dictSet tok.data "output" (.vStr output) } := by
            rw [find_token_set_element_state, find_token_upd_token, if_pos rfl,
              find_token_set_terminal_mapping, find_token_set_element_state, hT]
            rfl
          have hN2 : TokensNodup
              (set_element_state
                (upd_token
                  (set_terminal_mapping (set_element_state s el.id "running") el.id
                    terminal.id)
                  tok.id (fun t => { t with data := dictSet t.data "output" (.vStr output) }))
                el.id "completed") := by
            have h8 : TokensNodup
                (set_terminal_mapping (set_element_state s el.id "running") el.id
                  terminal.id) := hN
            exact nodup_upd_token h8 tok.id
              (fun t => { t with data := dictSet t.data "output" (.vStr output) })
          have hadv := phi_ok_err_advance C depth R el.id hC2 hEK hR hD hN2 hT2 hmem
          have hphi : phi C depth R
              (set_element_state
                (upd_token
                  (set_terminal_mapping (set_element_state s el.id "running") el.id
                    terminal.id)
                  tok.id (fun t => { t with data := dictSet t.data "output" (.vStr output) }))
                el.id "completed") = phi C depth R s := by
            rw [phi_set_element_state]
            have h9 : phi C depth R
                (upd_token
                  (set_terminal_mapping (set_element_state s el.id "running") el.id
                    terminal.id)
                  tok.id (fun t => { t with data := dictSet t.data "output" (.vStr output) }))
                = phi C depth R
                  (set_terminal_mapping (set_element_state s el.id "running") el.id
                    terminal.id) :=
              phi_upd_data C depth R _ (show TokensNodup
                  (set_terminal_mapping (set_element_state s el.id "running") el.id
                    terminal.id) from hN) (fun t => ⟨rfl, rfl⟩)
            rw [h9, phi_set_terminal_mapping, phi_set_element_state]
          exact phi_ok_err_transfer C depth R hphi rfl rfl hadv
      · rw [if_neg hw]
        have hT2 : find_token
            (set_element_state
              (upd_token
                (set_terminal_mapping (set_element_state s el.id "running") el.id
                  terminal.id)
                tok.id
                (fun t => { t with data := dictSet t.data "terminal_id" (.vStr terminal.id) }))
              el.id "spawned") tok.id
            = some { tok with data := dictSet tok.data "terminal_id" (.vStr terminal.id) } := by
          rw [find_token_set_element_state, find_token_upd_token, if_pos rfl,
            find_token_set_terminal_mapping, find_token_set_element_state, hT]
          rfl
        have hN2 : TokensNodup
            (set_element_state
              (upd_token
                (set_terminal_mapping (set_element_state s el.id "running") el.id
                  terminal.id)
                tok.id
                (fun t => { t with data := dictSet t.data "terminal_id" (.vStr terminal.id) }))
              el.id "spawned") := by
          have h8 : TokensNodup
              (set_terminal_mapping (set_element_state s el.id "running") el.id
                terminal.id) := hN
          exact nodup_upd_token h8 tok.id
            (fun t => { t with data := dictSet t.data "terminal_id" (.vStr terminal.id) })
        have hadv := phi_ok_err_advance C depth R el.id hC2 hEK hR hD hN2 hT2 hmem
        have hphi : phi C depth R
            (set_element_state
              (upd_token
                (set_terminal_mapping (set_element_state s el.id "running") el.id
                  terminal.id)
                tok.id
                (fun t => { t with data := dictSet t.data "terminal_id" (.vStr terminal.id) }))
              el.id "spawned") = phi C depth R s := by
          rw [phi_set_element_state]
          have h9 : phi C depth R
              (upd_token
                (set_terminal_mapping (set_element_state s el.id "running") el.id
                  terminal.id)
                tok.id
                (fun t => { t with data := dictSet t.data "terminal_id" (.vStr terminal.id) }))
              = phi C depth R
                (set_terminal_mapping (set_element_state s el.id "running") el.id
                  terminal.id) :=
            phi_upd_data C depth R _ (show TokensNodup
                (set_terminal_mapping (set_element_state s el.id "running") el.id
                  terminal.id) from hN) (fun t => ⟨rfl, rfl⟩)
          rw [h9, phi_set_terminal_mapping, phi_set_element_state]
        exact phi_ok_err_transfer C depth R hphi rfl rfl hadv

theorem phi_xor (C : Nat) (depth : String → Nat) (R : List Nat)
    {env : Env} {p : BPMNProcess} {s : EngineState} {tok : Token} {el : BPMNElement}
    (g : GatewayData) (hC2 : 2 ≤ C) (hEK : ElementsKeyed p) (hR : FlowTargetsResolve p)
    (hD : DepthDecreasing p depth)
    (hDFl : ∀ df fd, g.default_flow = some df → p.get_sequence_flow df = some fd →
        fd.source_ref = el.id)
    (hN : TokensNodup s) (hT : find_token s tok.id = some tok) (hmem : tok.id ∉ R) :
    phi_ok_err C depth R s tok.id tok (C ^ depth el.id)
      (execute_xor_split env p s tok el g) := by
  have hout : ∀ f, f ∈ p.get_outgoing_flows el.id →
      f ∈ dictValues p.sequence_flows ∧ f.source_ref = el.id := by
    intro f hf
    unfold BPMNProcess.get_outgoing_flows at hf
    exact ⟨List.mem_of_mem_filter hf, of_decide_eq_true (List.mem_filter.mp hf).2⟩
  unfold execute_xor_split
  rcases ho : p.get_outgoing_flows el.id with _ | ⟨f0, rest⟩
  · exact phi_ok_err_set_state C depth R _ .COMPLETED (by decide) hN hT hmem
      (Nat.pow_pos (by omega))
  · simp only
    have hf0 := hout f0 (by rw [ho]; exact List.mem_cons_self f0 rest)
    rcases hsel : select_xor_flow env (dictUpdate s.inst.vars tok.data) (f0 :: rest)
        with e | selected0
    · exact phi_ok_err_err_self C depth R _ _ hT
    · simp only
      rcases selected0 with _ | f
      · simp only
        rcases hdf : g.default_flow with _ | df
        · simp only
          exact phi_ok_err_move C depth R el.id hC2 hEK hR hD hN hT hf0.1 hf0.2
        · simp only
          by_cases hdfe : df = ""
          · rw [if_pos hdfe]
            exact phi_ok_err_move C depth R el.id hC2 hEK hR hD hN hT hf0.1 hf0.2
          · rw [if_neg hdfe]
            rcases hq : p.get_sequence_flow df with _ | fd
            · simp only
              exact phi_ok_err_move C depth R el.id hC2 hEK hR hD hN hT hf0.1 hf0.2
            · simp only
              have hval : fd ∈ dictValues p.sequence_flows :=
                List.mem_map.mpr ⟨(df, fd), mem_entries_of_find hq, rfl⟩
              have hsrc : fd.source_ref = el.id := hDFl df fd hdf hq
              exact phi_ok_err_move C depth R el.id hC2 hEK hR hD hN hT hval hsrc
      · simp only
        have hfmem : f ∈ f0 :: rest := select_xor_flow_sub hsel
        have h1 := hout f (by rw [ho]; exact hfmem)
        exact phi_ok_err_move C depth R el.id hC2 hEK hR hD hN hT h1.1 h1.2

theorem phi_and (C : Nat) (depth : String → Nat) (R : List Nat)
    {p : BPMNProcess} {s : EngineState} {tok : Token} {el : BPMNElement}
    (hC : p.sequence_flows.length + 2 ≤ C)
    (hEK : ElementsKeyed p) (hR : FlowTargetsResolve p) (hD : DepthDecreasing p depth)
    (hN : TokensNodup s) (hF : TokensFresh s)
    (hT : find_token s tok.id = some tok) (hmem : tok.id ∉ R) :
    phi_ok_err C depth R s tok.id tok (C ^ depth el.id)
      (execute_and_split p s tok el) := by
  unfold execute_and_split
  rcases ho : p.get_outgoing_flows el.id with _ | ⟨f0, rest⟩
  · exact phi_ok_err_set_state C depth R _ .COMPLETED (by decide) hN hT hmem
      (Nat.pow_pos (by omega))
  · simp only
    have hlen : (f0 :: rest).length ≤ p.sequence_flows.length := by
      rw [← ho]
      unfold BPMNProcess.get_outgoing_flows
      exact le_trans (List.length_filter_le _ _) (le_of_eq (List.length_map _ _))
    exact phi_ok_err_split C depth R el.id (f0 :: rest) hC hEK hR hD hN hF hT hmem
      (fun f hf => ho ▸ hf) hlen

theorem phi_or (C : Nat) (depth : String → Nat) (R : List Nat)
    {env : Env} {p : BPMNProcess} {s : EngineState} {tok : Token} {el : BPMNElement}
    (g : GatewayData) (hC : p.sequence_flows.length + 2 ≤ C)
    (hEK : ElementsKeyed p) (hR : FlowTargetsResolve p) (hD : DepthDecreasing p depth)
    (hN : TokensNodup s) (hF : TokensFresh s)
    (hT : find_token s tok.id = some tok) (hmem : tok.id ∉ R) :
    phi_ok_err C depth R s tok.id tok (C ^ depth el.id)
      (execute_or_split env p s tok el g) := by
  unfold execute_or_split
  rcases ho : p.get_outgoing_flows el.id with _ | ⟨f0, rest⟩
  · exact phi_ok_err_set_state C depth R _ .COMPLETED (by decide) hN hT hmem
      (Nat.pow_pos (by omega))
  · simp only
    have hlen0 : (f0 :: rest).length ≤ p.sequence_flows.length := by
      rw [← ho]
      unfold BPMNProcess.get_outgoing_flows
      exact le_trans (List.length_filter_le _ _) (le_of_eq (List.length_map _ _))
    rcases hc : compute_active_flows env (dictUpdate s.inst.vars tok.data)
        g.default_flow (f0 :: rest) with e | active
    · exact phi_ok_err_err_self C depth R _ _ hT
    · simp only
      by_cases hem : active.isEmpty
      · rw [if_pos hem]
        exact phi_ok_err_split C depth R el.id (f0 :: rest) hC hEK hR hD hN hF hT hmem
          (fun f hf => ho ▸ hf) hlen0
      · rw [if_neg hem]
        exact phi_ok_err_split C depth R el.id active hC hEK hR hD hN hF hT hmem
          (fun f hf => ho ▸ compute_active_flows_sub (f0 :: rest) active hc f hf)
          (le_trans (compute_active_flows_len hc) hlen0)

theorem phi_join (C : Nat) (depth : String → Nat) (R : List Nat)
    {p : BPMNProcess} {s : EngineState} {tok : Token} {el : BPMNElement}
    (hC2 : 2 ≤ C) (hEK : ElementsKeyed p) (hR : FlowTargetsResolve p)
    (hD : DepthDecreasing p depth) (hN : TokensNodup s)
    (hT : find_token s tok.id = some tok) (hmem : tok.id ∉ R) :
    phi_ok_err C depth R s tok.id tok (C ^ depth el.id)
      (execute_gateway_join p s tok el) := by
  unfold execute_gateway_join
  by_cases hlt : (s.inst.get_tokens_at_element el.id).length
      < (p.get_incoming_flows el.id).length
  · rw [if_pos hlt]
    exact phi_ok_err_set_state C depth R _ .WAITING (by decide) hN hT hmem
      (Nat.pow_pos (by omega))
  · rw [if_neg hlt]
    simp only
    have hNF : TokensNodup ((s.inst.get_tokens_at_element el.id).foldl
        (join_fold_step tok.id) ([], s)).2 := by
      unfold TokensNodup
      rw [join_fold_keys]
      exact hN
    have hphiF : phi C depth R ((s.inst.get_tokens_at_element el.id).foldl
        (join_fold_step tok.id) ([], s)).2 ≤ phi C depth R s :=
      join_fold_phi C depth R tok.id _ _ _ hN
    have hfindF : find_token ((s.inst.get_tokens_at_element el.id).foldl
        (join_fold_step tok.id) ([], s)).2 tok.id = some tok := by
      rw [join_fold_find_stepped]
      exact hT
    have hN1 : TokensNodup (upd_token
        ((s.inst.get_tokens_at_element el.id).foldl (join_fold_step tok.id) ([], s)).2
        tok.id (fun t => { t with data :=
          ((s.inst.get_tokens_at_element el.id).foldl (join_fold_step tok.id) ([], s)).1 })) :=
      nodup_upd_token hNF tok.id _
    have hfind1 : find_token (upd_token
        ((s.inst.get_tokens_at_element el.id).foldl (join_fold_step tok.id) ([], s)).2
        tok.id (fun t => { t with data :=
          ((s.inst.get_tokens_at_element el.id).foldl (join_fold_step tok.id) ([], s)).1 }))
        tok.id
        = some { tok with data :=
          ((s.inst.get_tokens_at_element el.id).foldl (join_fold_step tok.id) ([], s)).1 } := by
      rw [find_token_upd_token, if_pos rfl, hfindF]
      rfl
    have hphi1 : phi C depth R (upd_token
        ((s.inst.get_tokens_at_element el.id).foldl (join_fold_step tok.id) ([], s)).2
        tok.id (fun t => { t with data :=
          ((s.inst.get_tokens_at_element el.id).foldl (join_fold_step tok.id) ([], s)).1 }))
        = phi C depth R
          ((s.inst.get_tokens_at_element el.id).foldl (join_fold_step tok.id) ([], s)).2 :=
      phi_upd_data C depth R _ hNF (fun t => ⟨rfl, rfl⟩)
    have h2 : phi C depth R (set_token_state (upd_token
          ((s.inst.get_tokens_at_element el.id).foldl (join_fold_step tok.id) ([], s)).2
          tok.id (fun t => { t with data :=
            ((s.inst.get_tokens_at_element el.id).foldl (join_fold_step tok.id) ([], s)).1 }))
          tok.id TokenState.ACTIVE)
        + token_weight C depth R (tok.id, { tok with data :=
            ((s.inst.get_tokens_at_element el.id).foldl (join_fold_step tok.id) ([], s)).1 })
        = phi C depth R (upd_token
            ((s.inst.get_tokens_at_element el.id).foldl (join_fold_step tok.id) ([], s)).2
            tok.id (fun t => { t with data :=
              ((s.inst.get_tokens_at_element el.id).foldl (join_fold_step tok.id) ([], s)).1 }))
          + token_weight C depth R (tok.id, { tok with
              data := ((s.inst.get_tokens_at_element el.id).foldl (join_fold_step tok.id) ([], s)).1
              state := TokenState.ACTIVE }) :=
      phi_upd_token C depth R (fun t => { t with state := .ACTIVE }) hN1 hfind1
    have hw1 : token_weight C depth R (tok.id, { tok with data :=
          ((s.inst.get_tokens_at_element el.id).foldl (join_fold_step tok.id) ([], s)).1 })
        = token_weight C depth R (tok.id, tok) :=
      token_weight_congr C depth R tok.id rfl rfl
    have hwA : token_weight C depth R (tok.id, { tok with
          data := ((s.inst.get_tokens_at_element el.id).foldl (join_fold_step tok.id) ([], s)).1
          state := TokenState.ACTIVE })
        = C ^ depth tok.current_element_id :=
      token_weight_active C depth R tok.id rfl
    have hN2 : TokensNodup (set_token_state (upd_token
        ((s.inst.get_tokens_at_element el.id).foldl (join_fold_step tok.id) ([], s)).2
        tok.id (fun t => { t with data :=
          ((s.inst.get_tokens_at_element el.id).foldl (join_fold_step tok.id) ([], s)).1 }))
        tok.id TokenState.ACTIVE) :=
      nodup_upd_token hN1 tok.id _
    have hfind2 : find_token (set_token_state (upd_token
        ((s.inst.get_tokens_at_element el.id).foldl (join_fold_step tok.id) ([], s)).2
        tok.id (fun t => { t with data :=
          ((s.inst.get_tokens_at_element el.id).foldl (join_fold_step tok.id) ([], s)).1 }))
        tok.id TokenState.ACTIVE) tok.id
        = some { tok with
            data := ((s.inst.get_tokens_at_element el.id).foldl (join_fold_step tok.id) ([], s)).1
            state := TokenState.ACTIVE } := by
      rw [find_token_set_token_state, if_pos rfl, hfind1]
      rfl
    have hadv := phi_ok_err_advance C depth R el.id hC2 hEK hR hD hN2 hfind2 hmem
    constructor
    · intro sfin h
      have h3 := hadv.1 sfin h
      rw [hwA] at h3
      rw [hw1] at h2
      omega
    · intro sfin e h
      have h4 := advance_no_error hR (set_token_state (upd_token
        ((s.inst.get_tokens_at_element el.id).foldl (join_fold_step tok.id) ([], s)).2
        tok.id (fun t => { t with data :=
          ((s.inst.get_tokens_at_element el.id).foldl (join_fold_step tok.id) ([], s)).1 }))
        tok.id TokenState.ACTIVE) tok.id el.id
      rw [h] at h4
      cases h4

theorem dispatch_phi (C : Nat) (depth : String → Nat) (R : List Nat)
    (env : Env) (p : BPMNProcess) (s : EngineState) (tok : Token) (el : BPMNElement)
    (hC : p.sequence_flows.length + 2 ≤ C)
    (hEK : ElementsKeyed p) (hR : FlowTargetsResolve p) (hD : DepthDecreasing p depth)
    (hDF : DefaultFlowsOwn p) (hN : TokensNodup s) (hF : TokensFresh s)
    (hT : find_token s tok.id = some tok)
    (helm : p.get_element tok.current_element_id = some el) (hmem : tok.id ∉ R) :
    phi_ok_err C depth R s tok.id tok (C ^ depth tok.current_element_id)
      (dispatch_element env p s tok el) := by
  have hC2 : 2 ≤ C := by omega
  have helid : el.id = tok.current_element_id := hEK _ (mem_entries_of_find helm)
  rw [← helid]
  unfold dispatch_element
  by_cases h1 : el.type = .endEvent
  · rw [if_pos h1]
    rcases el.variant with _ | _ | _ | _ | _ | _ | _ | _ <;>
      first
        | exact phi_end_event C depth R el hC2 hN hT hmem
        | exact phi_ok_err_err_self C depth R _ _ hT
  · rw [if_neg h1]
    by_cases h2 : el.type = .serviceTask
    · rw [if_pos h2]
      exact phi_service C depth R el hC2 hEK hR hD hN hT hmem
    · rw [if_neg h2]
      by_cases h3 : el.type = .scriptTask
      · rw [if_pos h3]
        exact phi_script C depth R el hC2 hEK hR hD hN hT hmem
      · rw [if_neg h3]
        by_cases h4 : el.type = .userTask
        · rw [if_pos h4]
          exact phi_user C depth R el hC2 hN hT hmem
        · rw [if_neg h4]
          by_cases h5 : el.type = .exclusiveGateway
          · rw [if_pos h5]
            unfold execute_exclusive_gateway
            rcases hv : el.variant with _ | _ | _ | _ | g | _ | _ | _ <;>
              try exact phi_ok_err_err_self C depth R _ _ hT
            dsimp only
            by_cases hd : g.direction = .Converging
            · rw [if_pos hd]
              exact phi_join C depth R hC2 hEK hR hD hN hT hmem
            · rw [if_neg hd]
              have hDFl : ∀ df fd, g.default_flow = some df →
                  p.get_sequence_flow df = some fd → fd.source_ref = el.id := by
                intro df fd hdf hq
                exact hDF _ (mem_entries_of_find helm) g (by rw [hv]; rfl) df fd hdf hq
              exact phi_xor C depth R g hC2 hEK hR hD hDFl hN hT hmem
          · rw [if_neg h5]
            by_cases h6 : el.type = .parallelGateway
            · rw [if_pos h6]
              unfold execute_parallel_gateway
              rcases hv : el.variant with _ | _ | _ | _ | _ | g | _ | _ <;>
                try exact phi_ok_err_err_self C depth R _ _ hT
              dsimp only
              by_cases hd : g.direction = .Converging
              · rw [if_pos hd]
                exact phi_join C depth R hC2 hEK hR hD hN hT hmem
              · rw [if_neg hd]
                exact phi_and C depth R hC hEK hR hD hN hF hT hmem
            · rw [if_neg h6]
              by_cases h7 : el.type = .inclusiveGateway
              · rw [if_pos h7]
                unfold execute_inclusive_gateway
                rcases hv : el.variant with _ | _ | _ | _ | _ | _ | g | _ <;>
                  try exact phi_ok_err_err_self C depth R _ _ hT
                dsimp only
                by_cases hd : g.direction = .Converging
                · rw [if_pos hd]
                  exact phi_join C depth R hC2 hEK hR hD hN hT hmem
                · rw [if_neg hd]
                  exact phi_or C depth R g hC hEK hR hD hN hF hT hmem
              · rw [if_neg h7]
                exact phi_ok_err_advance C depth R el.id hC2 hEK hR hD hN hT hmem

theorem execute_token_phi (C : Nat) (depth : String → Nat) (R : List Nat)
    (env : Env) (p : BPMNProcess) (s : EngineState) (tid : Nat) (t0 : Token)
    (hC : p.sequence_flows.length + 2 ≤ C)
    (hEK : ElementsKeyed p) (hR : FlowTargetsResolve p) (hD : DepthDecreasing p depth)
    (hDF : DefaultFlowsOwn p) (hN : TokensNodup s) (hF : TokensFresh s)
    (hK : TokensKeyed s) (hT : find_token s tid = some t0) (hmem : tid ∉ R) :
    phi C depth R (execute_token env p s tid) + token_weight C depth R (tid, t0)
      < phi C depth R s + C ^ depth t0.current_element_id := by
  have hCd : 0 < C ^ depth t0.current_element_id := Nat.pow_pos (by omega)
  have hid : t0.id = tid := id_of_find hK hT
  unfold execute_token
  rw [hT]
  simp only
  rcases helm : p.get_element t0.current_element_id with _ | el
  · simp only
    have h1 := phi_upd_token C depth R
      (fun t => { t with
        state := .FAILED
        error := some ("Element " ++ t0.current_element_id ++ " not found") }) hN hT
    simp only at h1
    have hw0 : token_weight C depth R (tid, { t0 with
        state := TokenState.FAILED
        error := some ("Element " ++ t0.current_element_id ++ " not found") }) = 0 :=
      token_weight_zero C depth R tid (fun h => by cases h) hmem
    rw [hw0] at h1
    omega
  · simp only
    have hT0 : find_token s t0.id = some t0 := by
      rw [hid]
      exact hT
    have hmem0 : t0.id ∉ R := by
      rw [hid]
      exact hmem
    have hdp := dispatch_phi C depth R env p s t0 el hC hEK hR hD hDF hN hF hT0 helm hmem0
    rcases hdisp : dispatch_element env p s t0 el with ⟨s1, err⟩
    rcases err with _ | e
    · simp only
      have h1 := hdp.1 s1 hdisp
      rw [hid] at h1
      exact h1
    · simp only
      obtain ⟨hphi, t1, hft1, hst, hpos⟩ := hdp.2 s1 e hdisp
      rw [hid] at hft1
      have hN1 : TokensNodup s1 := by
        have hsp := sp_dispatch_element env p s t0 el
        rw [hdisp] at hsp
        exact hsp.2.2.2.1 hN
      have h1 := phi_upd_token C depth R
        (fun t => { t with state := .FAILED, error := some e }) hN1 hft1
      simp only at h1
      have hw0 : token_weight C depth R
          (tid, { t1 with state := TokenState.FAILED, error := some e }) = 0 :=
        token_weight_zero C depth R tid (fun h => by cases h) hmem
      rw [hw0] at h1
      have hwt : token_weight C depth R (tid, t1) = token_weight C depth R (tid, t0) :=
        token_weight_congr C depth R tid hst hpos
      rw [phi_set_element_state]
      omega

theorem phi_cons (C : Nat) (depth : String → Nat) (i : Nat) (T : List Nat)
    {s : EngineState} {t0 : Token} (hN : TokensNodup s)
    (hT : find_token s i = some t0) :
    phi C depth (i :: T) s + token_weight C depth T (i, t0)
      = phi C depth T s + C ^ depth t0.current_element_id := by
  suffices h : ∀ m : List (Nat × Token), (m.map Prod.fst).Nodup → dictGet m i = some t0 →
      (m.map (token_weight C depth (i :: T))).sum + token_weight C depth T (i, t0)
        = (m.map (token_weight C depth T)).sum + C ^ depth t0.current_element_id by
    exact h s.inst.tokens hN hT
  intro m
  induction m with
  | nil =>
    intro _ h
    rw [dictGet_nil] at h
    cases h
  | cons a rest ih =>
    intro hnd hget
    obtain ⟨ha, hb⟩ := a
    rw [dictGet_cons] at hget
    simp only [List.map_cons, List.sum_cons, List.nodup_cons] at hnd ⊢
    by_cases h : ha = i
    · subst h
      rw [if_pos rfl] at hget
      obtain rfl := Option.some.inj hget
      have hw1 : token_weight C depth (ha :: T) (ha, hb)
          = C ^ depth hb.current_element_id :=
        token_weight_mem C depth (ha :: T) ha hb (List.mem_cons_self ha T)
      have hrest : rest.map (token_weight C depth (ha :: T))
          = rest.map (token_weight C depth T) := by
        apply List.map_congr_left
        intro kv hkv
        have hne : kv.1 ≠ ha := by
          intro he
          exact hnd.1 (he ▸ List.mem_map_of_mem Prod.fst hkv)
        exact token_weight_cons_ne C depth ha T kv.1 kv.2 hne
      rw [hw1, hrest]
      omega
    · rw [if_neg h] at hget
      have hw := token_weight_cons_ne C depth i T ha hb h
      rw [hw]
      have h2 := ih hnd.2 hget
      omega

theorem active_id_is_active {s : EngineState} (hK : TokensKeyed s) (hN : TokensNodup s)
    {kv : Nat × Token} (hkv : kv ∈ s.inst.tokens)
    (hmem : kv.1 ∈ active_token_ids s) : kv.2.state = .ACTIVE := by
  by_contra hna
  have hfind : find_token s kv.1 = some kv.2 := dictGet_of_mem_nodup hN hkv
  exact not_mem_active_ids hK hN hfind hna hmem

theorem phi_snapshot (C : Nat) (depth : String → Nat) {s : EngineState}
    (hK : TokensKeyed s) (hN : TokensNodup s) :
    phi C depth (active_token_ids s) s = phi C depth [] s := by
  unfold phi
  apply congrArg List.sum
  apply List.map_congr_left
  intro kv hkv
  by_cases ha : kv.2.state = .ACTIVE
  · unfold token_weight
    rw [if_pos (Or.inl ha), if_pos (Or.inl ha)]
  · by_cases hm : kv.1 ∈ active_token_ids s
    · exact absurd (active_id_is_active hK hN hkv hm) ha
    · have h1 : ¬(kv.2.state = .ACTIVE ∨ kv.1 ∈ active_token_ids s) := by
        rintro (h | h)
        · exact ha h
        · exact hm h
      have h2 : ¬(kv.2.state = .ACTIVE ∨ kv.1 ∈ ([] : List Nat)) := by
        rintro (h | h)
        · exact ha h
        · exact List.not_mem_nil _ h
      unfold token_weight
      rw [if_neg h1, if_neg h2]

theorem active_token_ids_eq :
    ∀ (m : List (Nat × Token)), (∀ kv ∈ m, (kv.2 : Token).id = kv.1) →
      ((m.map Prod.snd).filter (fun t => t.state = .ACTIVE)).map (fun t => t.id)
        = (m.filter (fun kv => (kv.2 : Token).state = .ACTIVE)).map Prod.fst := by
  intro m
  induction m with
  | nil => intro _; rfl
  | cons a rest ih =>
    intro hkey
    simp only [List.map_cons, List.filter_cons]
    by_cases ha : a.2.state = .ACTIVE
    · rw [if_pos (by simpa using ha), if_pos (by simpa using ha)]
      simp only [List.map_cons]
      rw [ih (fun kv hkv => hkey kv (List.mem_cons_of_mem a hkv))]
      congr 1
      exact hkey a (List.mem_cons_self a rest)
    · rw [if_neg (by simpa using ha), if_neg (by simpa using ha)]
      exact ih (fun kv hkv => hkey kv (List.mem_cons_of_mem a hkv))

theorem active_ids_as_keys {s : EngineState} (hK : TokensKeyed s) :
    active_token_ids s
      = (s.inst.tokens.filter (fun kv => (kv.2 : Token).state = .ACTIVE)).map Prod.fst :=
  active_token_ids_eq s.inst.tokens hK

theorem active_token_ids_nodup {s : EngineState} (hK : TokensKeyed s)
    (hN : TokensNodup s) : (active_token_ids s).Nodup := by
  rw [active_ids_as_keys hK]
  have hsub : ((s.inst.tokens.filter
        (fun kv => (kv.2 : Token).state = .ACTIVE)).map Prod.fst).Sublist
      (s.inst.tokens.map Prod.fst) :=
    List.Sublist.map Prod.fst (List.filter_sublist _)
  exact List.Nodup.sublist hsub hN

theorem active_token_ids_find {s : EngineState} (hK : TokensKeyed s) {i : Nat}
    (hmem : i ∈ active_token_ids s) : (find_token s i).isSome = true := by
  rw [active_ids_as_keys hK] at hmem
  obtain ⟨kv, hkvf, rfl⟩ := List.mem_map.mp hmem
  exact dictGet_isSome_of_mem (List.mem_of_mem_filter hkvf)

theorem fold_phi (C : Nat) (depth : String → Nat) (env : Env) (p : BPMNProcess)
    (hC : p.sequence_flows.length + 2 ≤ C)
    (hEK : ElementsKeyed p) (hR : FlowTargetsResolve p) (hD : DepthDecreasing p depth)
    (hDF : DefaultFlowsOwn p) :
    ∀ (T : List Nat) (s : EngineState),
      TokensFresh s → TokensKeyed s → TokensNodup s → T.Nodup →
      (∀ i ∈ T, (find_token s i).isSome = true) →
      phi C depth [] (T.foldl (execute_token env p) s) ≤ phi C depth T s := by
  intro T
  induction T with
  | nil =>
    intro s _ _ _ _ _
    exact le_refl _
  | cons i T ih =>
    intro s hF hK hN hnd hfind
    rw [List.foldl_cons]
    obtain ⟨t0, ht0⟩ := Option.isSome_iff_exists.mp (hfind i (List.mem_cons_self i T))
    have hmemT : i ∉ T := (List.nodup_cons.mp hnd).1
    have hstep := execute_token_phi C depth T env p s i t0 hC hEK hR hD hDF hN hF hK
      ht0 hmemT
    have hcons := phi_cons C depth i T hN ht0
    have hsp := sp_execute_token env p s i
    have hfind1 : ∀ j ∈ T, (find_token (execute_token env p s i) j).isSome = true := by
      intro j hj
      have hjs := hfind j (List.mem_cons_of_mem i hj)
      have hjmem : j ∈ s.inst.tokens.map Prod.fst :=
        (dictGet_isSome_iff_mem_keys _ _).mp hjs
      exact (dictGet_isSome_iff_mem_keys _ _).mpr (hsp.2.2.2.2 hF j hjmem)
    have hih := ih (execute_token env p s i) (hsp.2.1 hF) (hsp.2.2.1 hK)
      (hsp.2.2.2.1 hN) (List.nodup_cons.mp hnd).2 hfind1
    omega

theorem run_pass_phi_lt (C : Nat) (depth : String → Nat) (env : Env) (p : BPMNProcess)
    (hC : p.sequence_flows.length + 2 ≤ C)
    (hEK : ElementsKeyed p) (hR : FlowTargetsResolve p) (hD : DepthDecreasing p depth)
    (hDF : DefaultFlowsOwn p) {s : EngineState}
    (hF : TokensFresh s) (hK : TokensKeyed s) (hN : TokensNodup s)
    (hact : s.inst.get_active_tokens ≠ []) :
    phi C depth [] (run_pass env p s) < phi C depth [] s := by
  show phi C depth [] ((active_token_ids s).foldl (execute_token env p) s) < _
  have hsnap : phi C depth (active_token_ids s) s = phi C depth [] s :=
    phi_snapshot C depth hK hN
  have hnodup := active_token_ids_nodup hK hN
  have hfind : ∀ j ∈ active_token_ids s, (find_token s j).isSome = true :=
    fun j hj => active_token_ids_find hK hj
  rcases hR0 : active_token_ids s with _ | ⟨i, T⟩
  · exfalso
    unfold active_token_ids at hR0
    exact hact (List.map_eq_nil_iff.mp hR0)
  · rw [hR0] at hsnap hnodup hfind
    rw [List.foldl_cons]
    obtain ⟨t0, ht0⟩ := Option.isSome_iff_exists.mp (hfind i (List.mem_cons_self i T))
    have hmemT : i ∉ T := (List.nodup_cons.mp hnodup).1
    have hstep := execute_token_phi C depth T env p s i t0 hC hEK hR hD hDF hN hF hK
      ht0 hmemT
    have hcons := phi_cons C depth i T hN ht0
    have hsp := sp_execute_token env p s i
    have hfind1 : ∀ j ∈ T, (find_token (execute_token env p s i) j).isSome = true := by
      intro j hj
      have hjs := hfind j (List.mem_cons_of_mem i hj)
      have hjmem : j ∈ s.inst.tokens.map Prod.fst :=
        (dictGet_isSome_iff_mem_keys _ _).mp hjs
      exact (dictGet_isSome_iff_mem_keys _ _).mpr (hsp.2.2.2.2 hF j hjmem)
    have hih := fold_phi C depth env p hC hEK hR hD hDF T (execute_token env p s i)
      (hsp.2.1 hF) (hsp.2.2.1 hK) (hsp.2.2.2.1 hN) (List.nodup_cons.mp hnodup).2 hfind1
    omega

theorem run_loop_phi (C : Nat) (depth : String → Nat) (env : Env) (p : BPMNProcess)
    (hC : p.sequence_flows.length + 2 ≤ C)
    (hEK : ElementsKeyed p) (hR : FlowTargetsResolve p) (hD : DepthDecreasing p depth)
    (hDF : DefaultFlowsOwn p) :
    ∀ (m : Nat) (s : EngineState), TokensFresh s → TokensKeyed s → TokensNodup s →
      phi C depth [] s ≤ m →
      (run_loop env p (m + 1) s).inst.get_active_tokens = [] := by
  intro m
  induction m with
  | zero =>
    intro s hF hK hN hm
    show (if s.inst.get_active_tokens = [] then s
        else run_loop env p 0 (run_pass env p s)).inst.get_active_tokens = []
    by_cases hact : s.inst.get_active_tokens = []
    · rw [if_pos hact]
      exact hact
    · exfalso
      have := run_pass_phi_lt C depth env p hC hEK hR hD hDF hF hK hN hact
      omega
  | succ m ih =>
    intro s hF hK hN hm
    show (if s.inst.get_active_tokens = [] then s
        else run_loop env p (m + 1) (run_pass env p s)).inst.get_active_tokens = []
    by_cases hact : s.inst.get_active_tokens = []
    · rw [if_pos hact]
      exact hact
    · rw [if_neg hact]
      have hlt := run_pass_phi_lt C depth env p hC hEK hR hD hDF hF hK hN hact
      have hsp : step_preserves s (run_pass env p s) := by
        show step_preserves s
          (((s.inst.get_active_tokens).map (fun t => t.id)).foldl (execute_token env p) s)
        exact sp_fold env p _ s
      exact ih (run_pass env p s) (hsp.2.1 hF) (hsp.2.2.1 hK) (hsp.2.2.2.1 hN) (by omega)

theorem execute_start_ok (p : BPMNProcess) (sess : String)
    (hR : FlowTargetsResolve p) (hstart : p.get_start_events ≠ []) :
    ∃ s0, execute_start p sess = .ok s0 := by
  unfold execute_start
  rcases hs : p.get_start_events with _ | ⟨se, rest⟩
  · exact absurd hs hstart
  · dsimp only
    rcases ho : p.get_outgoing_flows se.id with _ | ⟨f, frest⟩
    · exact ⟨_, rfl⟩
    · dsimp only
      have hf : f ∈ p.get_outgoing_flows se.id := by
        rw [ho]
        exact List.mem_cons_self f frest
      rw [move_token_ok_shape _ _ (resolve_outgoing hR hf)]
      exact ⟨_, rfl⟩

theorem execute_start_inv (p : BPMNProcess) (sess : String)
    (hR : FlowTargetsResolve p) {s0 : EngineState}
    (h : execute_start p sess = .ok s0) :
    TokensFresh s0 ∧ TokensKeyed s0 ∧ TokensNodup s0 := by
  unfold execute_start at h
  rcases hs : p.get_start_events with _ | ⟨se, rest⟩
  · rw [hs] at h
    cases h
  · rw [hs] at h
    dsimp only at h
    have hSF : TokensFresh ⟨ProcessInstance.add_token
        { instance_id := "pi_0", process_id := p.id, session_name := sess
          vars := p.process_variables }
        { id := 0, current_element_id := se.id, state := .ACTIVE, data := [] }, 1⟩ := by
      intro kv hkv
      simp [ProcessInstance.add_token, dictSet] at hkv
      subst hkv
      exact Nat.zero_lt_one
    have hSK : TokensKeyed ⟨ProcessInstance.add_token
        { instance_id := "pi_0", process_id := p.id, session_name := sess
          vars := p.process_variables }
        { id := 0, current_element_id := se.id, state := .ACTIVE, data := [] }, 1⟩ := by
      intro kv hkv
      simp [ProcessInstance.add_token, dictSet] at hkv
      subst hkv
      rfl
    have hSN : TokensNodup ⟨ProcessInstance.add_token
        { instance_id := "pi_0", process_id := p.id, session_name := sess
          vars := p.process_variables }
        { id := 0, current_element_id := se.id, state := .ACTIVE, data := [] }, 1⟩ := by
      simp [TokensNodup, ProcessInstance.add_token, dictSet]
    rcases ho : p.get_outgoing_flows se.id with _ | ⟨f, frest⟩
    · rw [ho] at h
      dsimp only at h
      obtain rfl := Except.ok.inj h
      exact ⟨hSF, hSK, hSN⟩
    · rw [ho] at h
      dsimp only at h
      have hf : f ∈ p.get_outgoing_flows se.id := by
        rw [ho]
        exact List.mem_cons_self f frest
      rw [move_token_ok_shape _ _ (resolve_outgoing hR hf)] at h
      dsimp only at h
      obtain rfl := Except.ok.inj h
      rcases hre : p.get_element f.target_ref with _ | tgt
      · exfalso
        have h2 := hR f (by
          have := hf
          unfold BPMNProcess.get_outgoing_flows at this
          exact List.mem_of_mem_filter this)
        rw [hre] at h2
        cases h2
      · have hmv : (move_token p
            ⟨ProcessInstance.add_token
              { instance_id := "pi_0", process_id := p.id, session_name := sess
                vars := p.process_variables }
              { id := 0, current_element_id := se.id, state := .ACTIVE, data := [] }, 1⟩
            0 f).1
            = upd_token
              ⟨ProcessInstance.add_token
                { instance_id := "pi_0", process_id := p.id, session_name := sess
                  vars := p.process_variables }
                { id := 0, current_element_id := se.id, state := .ACTIVE, data := [] }, 1⟩
              0 (fun t => { t with current_element_id := tgt.id }) := by
          unfold move_token
          rw [hre]
        rw [hmv]
        exact ⟨fresh_upd_token hSF 0 _, keyed_upd_token hSK 0 (fun t => rfl),
          nodup_upd_token hSN 0 _⟩

/-- C8, amended: with an explicit acyclicity witness (a depth function
strictly decreasing along every sequence flow) and three
well-formedness conditions — elements keyed by their ids and every
flow target resolving (both established by the converter's validation)
plus every gateway default flow naming one of that gateway's own
outgoing flows (which nothing validates, but a foreign default flow
can re-route a token upward even in an acyclic graph) —
`execute` terminates for every evaluator environment: enough fuel
leaves no Active token, and the run returns normally.  The original
claim's hypotheses (one StartEvent, a reachable EndEvent) are not
sufficient: a reachable end event does not prevent a conditional cycle
from running forever, and no end event needs to exist at all for the
loop to drain. -/
theorem C8_termination_amended (env : Env) (p : BPMNProcess) (depth : String → Nat)
    (sess : String) (hEK : ElementsKeyed p) (hR : FlowTargetsResolve p)
    (hD : DepthDecreasing p depth) (hDF : DefaultFlowsOwn p)
    (hstart : p.get_start_events ≠ []) :
    ∃ (fuel : Nat) (sFin : EngineState),
      engine_execute env p sess fuel = .ok sFin
        ∧ sFin.inst.get_active_tokens = [] := by
  obtain ⟨s0, hs0⟩ := execute_start_ok p sess hR hstart
  obtain ⟨hF0, hK0, hN0⟩ := execute_start_inv p sess hR hs0
  refine ⟨phi (p.sequence_flows.length + 2) depth [] s0 + 1,
    run_loop env p (phi (p.sequence_flows.length + 2) depth [] s0 + 1) s0, ?_, ?_⟩
  · unfold engine_execute
    rw [hs0]
    rfl
  · exact run_loop_phi (p.sequence_flows.length + 2) depth env p (le_refl _)
      hEK hR hD hDF (phi (p.sequence_flows.length + 2) depth [] s0) s0 hF0 hK0 hN0
      (le_refl _)

theorem C8_termination_amended_witness :
    ∃ (fuel : Nat) (sFin : EngineState),
      engine_execute fixCycEnv fixFailProcess "n" fuel = .ok sFin
        ∧ sFin.inst.get_active_tokens = [] := by
  apply C8_termination_amended fixCycEnv fixFailProcess (fun _ => 0) "n"
  · intro kv hkv
    simp [fixFailProcess] at hkv
    rcases hkv with rfl | rfl <;> rfl
  · intro f hf
    simp [fixFailProcess, dictValues] at hf
  · intro f hf
    simp [fixFailProcess, dictValues] at hf
  · intro kv hkv g hg
    simp [fixFailProcess] at hkv
    rcases hkv with rfl | rfl <;> exact Option.noConfusion hg
  · decide
